import Mathlib

/-! Verification development for the caffe layers `MKLEltwiseLayer` and
`NearestNeighborLayer`

Shallow embedding of

* `src/caffe/layers/mkl_eltwise_layer.cpp` (elementwise weighted sum over N inputs with
  plain / optimized layouts and a lazily built, cached sum plan), and
* `src/caffe/layers/nearest_neighbor_layer.cpp` (fixed 2x nearest-neighbour upsampling).

Conventions of the embedding

* `Dtype` is `Int`: the element type with exact arithmetic (the integer-representable values of
  the floating element type of the source).
* extents, counts and offsets are natural numbers (the framework keeps every blob's element
  count within `int`); where the source computes beyond that range the machine arithmetic is
  explicit: the `size_t` strides of `LayerSetUp` wrap modulo `2^64`, and `ReshapeChecked`
  halts where the `int` arithmetic of `NearestNeighborLayer::Reshape` overflows or
  `Blob::Reshape` refuses the element count.
* a `CHECK`, `CHECK_EQ` or `LOG(FATAL)` halts the process; a function that can halt returns an
  `Outcome`, which in the fault case also carries the state reached when the process halted.
* a buffer is the list of its elements in logical (row-major) order; the arrangement of an
  optimized buffer is recorded by the layout of its descriptor, and a layout conversion keeps
  the logical values.
-/

namespace Caffe

/-! ## Common definitions -/

/-- Element type of the blobs. -/
abbrev Dtype := Int

/-- The largest value of the type `int` of the extents and counts. -/
def INT_MAX : Nat := 2147483647

/-- The fatal conditions of the two layers, one constructor per `CHECK` / `LOG(FATAL)` site. -/
inductive Fault where
  /-- At `mkl_eltwise_layer.cpp:18`: "MKLEltwise Layer takes one coefficient per bottom blob." -/
  | coeff_count
  /-- At `mkl_eltwise_layer.cpp:21`: "MKLEltwise layer only takes coefficients for summation." -/
  | coeff_with_prod
  /-- At `mkl_eltwise_layer.cpp:26`: "MKLEltwise Layer only process summation." -/
  | not_sum
  /-- An element of a vector is read beyond its size (`bottom[0]` of an empty vector at
  `mkl_eltwise_layer.cpp:41`, `propagate_down[i]` or `coeffs_[i]` of a too short vector):
  undefined behaviour that no `CHECK` guards. -/
  | out_of_range
  /-- At `mkl_eltwise_layer.cpp:54`: `CHECK_EQ(dim_src, bottom[i]->shape().size())`. -/
  | dim_mismatch
  /-- At `mkl_eltwise_layer.cpp:65`: `CHECK(bottom[i]->shape() == bottom[0]->shape())`. -/
  | shape_mismatch
  /-- At `mkl_eltwise_layer.cpp:97`: the descriptor of an optimized input is not an MKL2017 one. -/
  | descr_type
  /-- At `mkl_eltwise_layer.cpp:97/102`: the descriptor of an optimized input is null. -/
  | null_descr
  /-- At `mkl_eltwise_layer.cpp:111/126`: `dnnSumCreate` returned a nonzero status. -/
  | sum_create
  /-- At `mkl_eltwise_layer.cpp:153`: `dnnExecute` returned a nonzero status. -/
  | execute
  /-- At `mkl_eltwise_layer.cpp:158/199`: "Unsupported elementwise operation." -/
  | unsupported_op
  /-- At `mkl_eltwise_layer.cpp:160/201`: "Unknown elementwise operation." -/
  | unknown_op
  /-- At `mkl_eltwise_layer.cpp:188`: `CHECK_EQ(coeffs_[i], Dtype(1)) << "Not supported yet"`. -/
  | coeff_not_one
  /-- At `nearest_neighbor_layer.cpp:55`: `NOT_IMPLEMENTED`. -/
  | not_implemented
  /-- At `nearest_neighbor_layer.cpp:25/26`: `2 * height_` or `2 * width_` exceeds `INT_MAX`
  (signed overflow; the wrapped value is a negative extent, which `Blob::Reshape` refuses). -/
  | int_overflow
  /-- In `Blob::Reshape`, called at `nearest_neighbor_layer.cpp:27`: "blob size exceeds
  INT_MAX". -/
  | blob_size
  deriving DecidableEq, Repr

/-- Result of a call that may halt the process: `ok s` is a normal return with state `s`,
`fault f s` is a halt with fault `f`, `s` being the state reached when the process halted. -/
inductive Outcome (σ : Type) where
  | ok : σ → Outcome σ
  | fault : Fault → σ → Outcome σ
  deriving DecidableEq, Repr

namespace Outcome

/-- Sequencing: the continuation runs only after a normal return. -/
def andThen {σ : Type} (o : Outcome σ) (k : σ → Outcome σ) : Outcome σ :=
  match o with
  | ok s => k s
  | fault f s => fault f s

/-- The state carried by an outcome. -/
def state {σ : Type} : Outcome σ → σ
  | ok s => s
  | fault _ s => s

/-- Whether the call returned normally. -/
def isOk {σ : Type} : Outcome σ → Bool
  | ok _ => true
  | fault _ _ => false

/-- The fault of an outcome, if it is one. -/
def fault? {σ : Type} : Outcome σ → Option Fault
  | ok _ => none
  | fault f _ => some f

end Outcome

/-- A counted loop `for (i = 0; i < n; ++i) body`, as a state transformer. -/
def forLoop {σ : Type} (n : Nat) (body : Nat → σ → σ) (s : σ) : σ :=
  match n with
  | 0 => s
  | k + 1 => body k (forLoop k body s)

/-- A counted loop whose body may halt the process: `for (i = lo; i < lo + n; ++i) body`. -/
def forLoopM {σ : Type} (lo n : Nat) (body : Nat → σ → Outcome σ) (s : σ) : Outcome σ :=
  match n with
  | 0 => Outcome.ok s
  | k + 1 => (forLoopM lo k body s).andThen (body (lo + k))

/-- The vendor's layout handle `dnnLayout_t`: a plain layout made by `dnnLayoutCreate` from
extents and strides, or an internal layout of the vendor library, identified by a tag, for
data of the given logical extents. -/
inductive dnnLayout where
  | plain (sizes strides : List Nat)
  | internal (tag : Nat) (sizes : List Nat)
  deriving DecidableEq, Repr

/-- Number of logical elements of data in the layout. -/
def dnnLayout.count : dnnLayout → Nat
  | plain sizes _ => sizes.prod
  | internal _ sizes => sizes.prod

/-- Modelled from the spec: `MKLData` (the LayoutDescriptor of `mkl_layers.hpp`, not under
`src/`). It holds the plain layout, the internal layout once derived from a plan, whether a
conversion plain to internal (`convert_to_int`) and internal to plain (`convert_from_int`)
is required, and the buffer `internal_ptr` that `prv_ptr()` returns. -/
structure MKLData where
  layout_usr : Option dnnLayout
  layout_int : Option dnnLayout
  convert_to_int : Bool
  convert_from_int : Bool
  internal_ptr : List Dtype
  deriving DecidableEq, Repr

/-- Modelled from the spec: `PrvMemDescr`, the descriptor a blob carries for an optimized
buffer (declared outside `src/`); `get_descr_type()` is `PRV_DESCR_MKL2017` exactly for the
first constructor. -/
inductive PrvMemDescr where
  | mkl2017 (d : MKLData)
  | other
  deriving DecidableEq, Repr

/-- Modelled from the spec: `Blob` (the Tensor, declared outside `src/`): a shape, the plain
data and gradient buffers, and for data and gradient an optional optimized buffer
(`prv_data()` / `prv_diff()` return null when absent) with its descriptor;
`prv_diff_count` is the element count of the optimized gradient. -/
structure Blob where
  shape : List Nat
  cpu_data : List Dtype
  cpu_diff : List Dtype
  prv_data : Option (List Dtype)
  prv_descriptor_data : Option PrvMemDescr
  prv_diff : Option (List Dtype)
  prv_diff_count : Nat
  prv_descriptor_diff : Option PrvMemDescr
  deriving DecidableEq, Repr

namespace Blob

/-- Modelled from the spec: `Blob::count()`, the product of the extents. -/
def count (b : Blob) : Nat := b.shape.prod

/-- Modelled from the spec: `Blob::LegacyShape(index)`: the extent of axis `index`, 1 when the
blob has fewer axes. -/
def LegacyShape (b : Blob) (index : Nat) : Nat := b.shape.getD index 1

/-- Legacy accessor `num()`. -/
def num (b : Blob) : Nat := b.LegacyShape 0
/-- Legacy accessor `channels()`. -/
def channels (b : Blob) : Nat := b.LegacyShape 1
/-- Legacy accessor `height()`. -/
def height (b : Blob) : Nat := b.LegacyShape 2
/-- Legacy accessor `width()`. -/
def width (b : Blob) : Nat := b.LegacyShape 3

/-- Modelled from the spec: `Blob::offset(n, c)` with `h = w = 0`:
`((n * channels() + c) * height() + 0) * width() + 0`. -/
def offset (b : Blob) (n c : Nat) : Nat := ((n * b.channels + c) * b.height + 0) * b.width + 0

/-- Modelled from the spec: `Blob::Reshape(shape)`: the blob takes the new shape; when the
new element count exceeds the capacity, fresh zero-filled plain buffers are allocated and
no optimized buffer is attached; otherwise the buffers are kept. -/
def Reshape (b : Blob) (shape : List Nat) : Blob :=
  if b.cpu_data.length < shape.prod then
    { shape := shape
      cpu_data := List.replicate shape.prod 0
      cpu_diff := List.replicate shape.prod 0
      prv_data := none
      prv_descriptor_data := none
      prv_diff := none
      prv_diff_count := 0
      prv_descriptor_diff := none }
  else { b with shape := shape }

/-- Modelled from the spec: the check loop of `Blob::Reshape(shape)` (blob.cpp, outside
`src/`), which keeps the element count within `int`: with `count_` the product of the extents
seen so far, an extent must be at most `INT_MAX / count_` unless `count_` is zero. -/
def ReshapeFitsFrom (count_ : Nat) : List Nat → Bool
  | [] => true
  | s :: rest => (count_ = 0 ∨ s ≤ INT_MAX / count_) && ReshapeFitsFrom (count_ * s) rest

/-- Modelled from the spec: whether `Blob::Reshape(shape)` accepts the shape (`count_`
starts at 1). -/
def ReshapeFits (shape : List Nat) : Bool := ReshapeFitsFrom 1 shape

/-- Modelled from the spec: `Blob::ReshapeLike(other)` is `Reshape(other.shape())`. -/
def ReshapeLike (b other : Blob) : Blob := b.Reshape other.shape

end Blob

/-- Function `caffe_copy(n, x, y)`: the first `n` elements of `y` become the first `n` elements of
`x` (defined for buffers that hold at least `n` elements); the rest of `y` is kept. -/
def caffe_copy (n : Nat) (x y : List Dtype) : List Dtype := x.take n ++ y.drop n

/-! ## NearestNeighborLayer (`nearest_neighbor_layer.cpp`) -/

/-- Members of `NearestNeighborLayer` set by `Reshape`. -/
structure NearestNeighborLayer where
  channels_ : Nat
  height_ : Nat
  width_ : Nat
  top_height_ : Nat
  top_width_ : Nat
  deriving DecidableEq, Repr

namespace NearestNeighborLayer

/-- The state a call of the layer works on: the layer, `bottom[0]` and `top[0]`. -/
structure World where
  layer : NearestNeighborLayer
  bottom0 : Blob
  top0 : Blob
  deriving DecidableEq, Repr

/-- Embedding of `NearestNeighborLayer::Reshape` (lines 19-28) as the state it leaves when
it returns, that is when `2 * height_` and `2 * width_` stay within `int` and `Blob::Reshape`
accepts the output shape; `ReshapeChecked` is the call with its halts. -/
def Reshape (w : World) : World :=
  let channels_ := w.bottom0.channels
  let height_ := w.bottom0.height
  let width_ := w.bottom0.width
  let top_height_ := 2 * height_
  let top_width_ := 2 * width_
  { layer := { channels_ := channels_, height_ := height_, width_ := width_,
               top_height_ := top_height_, top_width_ := top_width_ }
    bottom0 := w.bottom0
    top0 := w.top0.Reshape [w.bottom0.num, channels_, top_height_, top_width_] }

/-- Embedding of `NearestNeighborLayer::Reshape` (lines 19-28) with the `int` arithmetic of
the source. Lines 25-26 compute `2 * height_` and `2 * width_` in `int`: beyond `INT_MAX`
the product overflows and the process halts; line 27 hands the extents to `Blob::Reshape`,
which halts when the element count does not fit `int`. -/
def ReshapeChecked (w : World) : Outcome World :=
  let channels_ := w.bottom0.channels
  let height_ := w.bottom0.height
  let width_ := w.bottom0.width
  if INT_MAX < 2 * height_ ∨ INT_MAX < 2 * width_ then
    Outcome.fault Fault.int_overflow w
  else
    let top_height_ := 2 * height_
    let top_width_ := 2 * width_
    let l : NearestNeighborLayer :=
      { channels_ := channels_, height_ := height_, width_ := width_,
        top_height_ := top_height_, top_width_ := top_width_ }
    if Blob.ReshapeFits [w.bottom0.num, channels_, top_height_, top_width_] then
      Outcome.ok
        { layer := l
          bottom0 := w.bottom0
          top0 := w.top0.Reshape [w.bottom0.num, channels_, top_height_, top_width_] }
    else Outcome.fault Fault.blob_size { w with layer := l }

/-- The moving pointers of `Forward_cpu`: the output buffer with the offset `top_off` of
`top_data` in it, and the offset `bottom_off` of `bottom_data` in the input buffer. -/
structure Cursor where
  top_buf : List Dtype
  bottom_off : Nat
  top_off : Nat
  deriving DecidableEq, Repr

/-- The two inner loops of `Forward_cpu` (lines 40-45) for one channel plane: writes
`top_data[h*top_width_+w] = bottom_data[(h/2)*width_ + w/2]`. A read outside the input
buffer yields 0 and a write outside the output buffer is dropped. -/
def planeLoop (l : NearestNeighborLayer) (bottom_buf : List Dtype) (top_h top_w : Nat)
    (c : Cursor) : List Dtype :=
  forLoop top_h (fun h buf =>
    forLoop top_w (fun w buf =>
      let index := (h / 2) * l.width_ + w / 2
      buf.set (c.top_off + (h * l.top_width_ + w)) (bottom_buf.getD (c.bottom_off + index) 0))
      buf) c.top_buf

/-- Body of the channel loop (lines 40-47): one plane, then both pointers advance by
`offset(0, 1)`. -/
def channelStep (l : NearestNeighborLayer) (bottom0 top0 : Blob) (c : Cursor) : Cursor :=
  { top_buf := planeLoop l bottom0.cpu_data top0.height top0.width c
    bottom_off := c.bottom_off + bottom0.offset 0 1
    top_off := c.top_off + top0.offset 0 1 }

/-- Embedding of `NearestNeighborLayer::Forward_cpu` (lines 31-50). -/
def Forward_cpu (w : World) : World :=
  let c0 : Cursor := { top_buf := w.top0.cpu_data, bottom_off := 0, top_off := 0 }
  let c := forLoop w.top0.num (fun _ c =>
    forLoop w.top0.channels (fun _ c => channelStep w.layer w.bottom0 w.top0 c) c) c0
  { w with top0 := { w.top0 with cpu_data := c.top_buf } }

/-- Embedding of `NearestNeighborLayer::Backward_cpu` (lines 52-56): `NOT_IMPLEMENTED` halts the process
before anything is written. -/
def Backward_cpu (w : World) (_propagate_down : List Bool) : Outcome World :=
  Outcome.fault Fault.not_implemented w

/-- One execution of the assignment of line 43: the offset read in the buffer of `bottom[0]`
and the offset written in the buffer of `top[0]`. -/
structure Access where
  read : Nat
  write : Nat
  deriving DecidableEq, Repr

/-- The loops of `planeLoop` (lines 40-45) with a ghost log: every execution of the
assignment of line 43 also appends the offsets it reads and writes. -/
def planeLoopLog (l : NearestNeighborLayer) (bottom_buf : List Dtype) (top_h top_w : Nat)
    (c : Cursor) (log : List Access) : List Dtype × List Access :=
  forLoop top_h (fun h st =>
    forLoop top_w (fun w (st : List Dtype × List Access) =>
      let index := (h / 2) * l.width_ + w / 2
      (st.1.set (c.top_off + (h * l.top_width_ + w)) (bottom_buf.getD (c.bottom_off + index) 0),
       st.2 ++ [{ read := c.bottom_off + index, write := c.top_off + (h * l.top_width_ + w) }]))
      st) (c.top_buf, log)

/-- Body of the channel loop (lines 40-47) with the ghost log. -/
def channelStepLog (l : NearestNeighborLayer) (bottom0 top0 : Blob)
    (cl : Cursor × List Access) : Cursor × List Access :=
  let r := planeLoopLog l bottom0.cpu_data top0.height top0.width cl.1 cl.2
  ({ top_buf := r.1
     bottom_off := cl.1.bottom_off + bottom0.offset 0 1
     top_off := cl.1.top_off + top0.offset 0 1 }, r.2)

/-- The loops of `Forward_cpu` (lines 31-50) with the ghost log of all accesses, oldest
first. -/
def Forward_cpu_log (w : World) : World × List Access :=
  let c0 : Cursor := { top_buf := w.top0.cpu_data, bottom_off := 0, top_off := 0 }
  let cl := forLoop w.top0.num (fun _ cl =>
    forLoop w.top0.channels (fun _ cl => channelStepLog w.layer w.bottom0 w.top0 cl) cl) (c0, [])
  ({ w with top0 := { w.top0 with cpu_data := cl.1.top_buf } }, cl.2)

/-- The accesses of plane `k` for planes of `H x W` input elements, in loop order: row `h`,
column `x` reads `k*(H*W) + ((h/2)*W + x/2)` and writes `k*(2H*2W) + (h*2W + x)`. -/
def planeAccesses (H W k : Nat) : List Access :=
  (List.range (2 * H)).flatMap fun h => (List.range (2 * W)).map fun x =>
    { read := k * (H * W) + ((h / 2) * W + x / 2),
      write := k * (2 * H * (2 * W)) + (h * (2 * W) + x) }

end NearestNeighborLayer

/-! ### Specification vocabulary for buffers -/

/-- Predicate `Fills S v buf buf2`: `buf2` has the length of `buf`, agrees with `buf` at every offset
outside `S`, and holds `v j` at every offset `j` of `S` that lies within the buffer. -/
def Fills {α : Type} (S : Nat → Prop) (v : Nat → α) (buf buf2 : List α) : Prop :=
  buf2.length = buf.length ∧ (∀ j, ¬ S j → buf2[j]? = buf[j]?) ∧
    (∀ j, S j → j < buf.length → buf2[j]? = some (v j))

/-- The input element that nearest-neighbour upsampling by 2 of planes of `H x W` elements
puts at flat output offset `j`: plane `j / (2H*2W)`, row `(j % (2H*2W)) / (2W) / 2`, column
`(j % (2H*2W)) % (2W) / 2` (0 when that lies outside the input buffer). -/
def nnSource (bottom_buf : List Dtype) (H W : Nat) (j : Nat) : Dtype :=
  bottom_buf.getD ((j / (2 * H * (2 * W))) * (H * W) +
    (((j % (2 * H * (2 * W))) / (2 * W) / 2) * W + (j % (2 * H * (2 * W))) % (2 * W) / 2)) 0

/-- Row-major flattening with a running offset, one axis at a time from the outermost:
`offset = offset * extent + index`, a missing index counting as 0 (the loop of
`Blob::offset(indices)`). -/
def rowMajorOffsetFrom (acc : Nat) : List Nat → List Nat → Nat
  | [], _ => acc
  | s :: shape, idx => rowMajorOffsetFrom (acc * s + idx.headD 0) shape idx.tail

/-- The row-major flat offset of the coordinate `idx` in an array of extents `shape`. -/
def rowMajorOffset (shape idx : List Nat) : Nat := rowMajorOffsetFrom 0 shape idx

/-! ## MKLEltwiseLayer (`mkl_eltwise_layer.cpp`) -/

/-- Type `EltwiseParameter_EltwiseOp`; `unknown` stands for any other value of the selector. -/
inductive EltwiseOp where
  | PROD
  | SUM
  | MAX
  | unknown (v : Nat)
  deriving DecidableEq, Repr

/-- Type `EltwiseParameter`: `operation()`, the repeated field `coeff` and `stable_prod_grad()`. -/
structure EltwiseParameter where
  operation : EltwiseOp
  coeff : List Dtype
  stable_prod_grad : Bool
  deriving DecidableEq, Repr

/-- Accessor `coeff_size()`. -/
def EltwiseParameter.coeff_size (p : EltwiseParameter) : Nat := p.coeff.length

/-- Status of a vendor call. -/
abbrev dnnError_t := Int

/-- The success status. -/
def E_SUCCESS : dnnError_t := 0

/-- The resource roles used by the layer: `dnnResourceDst` and `dnnResourceMultipleSrc + i`. -/
inductive dnnResourceType_t where
  | dnnResourceDst
  | dnnResourceMultipleSrc (i : Nat)
  deriving DecidableEq, Repr

/-- The sum plan behind the handle `dnnPrimitive_t`, as built by `dnnSumCreate`: the number of
summands, the layout it was built with and the coefficients. -/
structure dnnPrimitive where
  nSummands : Nat
  layout : Option dnnLayout
  coeffs : List Dtype
  deriving DecidableEq, Repr

/-- Model of the vendor library: `dnnLayoutCreateFromPrimitive(plan, role)`; a sum plan
expects every source and the destination in the layout it was built with. -/
def dnnLayoutCreateFromPrimitive (p : dnnPrimitive) (_role : dnnResourceType_t) :
    Option dnnLayout := p.layout

/-- The buffers a resource pointer of `Forward_cpu` can point to. -/
inductive Ptr where
  /-- Pointer `bottom[i]->cpu_data()`, the plain buffer of input `i`. -/
  | bottom_cpu (i : Nat)
  /-- Pointer `bottom[i]->prv_data()`, the optimized buffer of input `i`. -/
  | bottom_prv (i : Nat)
  /-- the conversion buffer of the descriptor in slot `i` (`fwd_bottom_data[i]`). -/
  | converted (i : Nat)
  /-- Pointer `top[0]->mutable_cpu_data()`, the plain buffer of the output. -/
  | top_cpu
  /-- Pointer `fwd_top_data->prv_ptr()`, the internal buffer of the output descriptor. -/
  | top_prv
  deriving DecidableEq, Repr

/-- A resolved resource: the pointer, the layout of the buffer it points to (none when the
buffer has no descriptor) and the logical values the buffer holds. -/
structure Resource where
  ptr : Ptr
  layout : Option dnnLayout
  vals : List Dtype
  deriving DecidableEq, Repr

/-- The calls into the vendor library that the layer makes, in a ghost trace. -/
inductive VendorCall where
  | sumCreate (n : Nat) (layout : Option dnnLayout) (coeffs : List Dtype)
  | layoutCreateFromPrimitive (p : dnnPrimitive) (role : dnnResourceType_t)
  | execute (p : Option dnnPrimitive) (src : List Resource) (dst : Ptr)
  deriving DecidableEq, Repr

/-- The statuses the vendor library returns; they are parameters of the model. -/
structure Vendor where
  sumCreateStatus : Nat → Option dnnLayout → List Dtype → dnnError_t
  executeStatus : Option dnnPrimitive → List Resource → Ptr → dnnError_t

/-- A vendor library whose calls all succeed. -/
def Vendor.reliable : Vendor :=
  { sumCreateStatus := fun _ _ _ => E_SUCCESS, executeStatus := fun _ _ _ => E_SUCCESS }

/-- Model of the vendor primitive as an exact weighted sum: element `k` of the result is the
sum over the sources `i` of `coeffs[i] * src_i[k]`. -/
def weightedSumAt (coeffs : List Dtype) (src : List (List Dtype)) (k : Nat) : Dtype :=
  ((List.range src.length).map (fun i => coeffs.getD i 0 * (src.getD i []).getD k 0)).sum

/-- The result buffer of the weighted sum, `count` elements long. -/
def weightedSum (coeffs : List Dtype) (src : List (List Dtype)) (count : Nat) : List Dtype :=
  (List.range count).map (weightedSumAt coeffs src)

namespace MKLData

/-- Modelled from the spec: a new `MKLData` (constructor outside `src/`): no layout, no
conversion, no buffer. -/
def fresh : MKLData :=
  { layout_usr := none, layout_int := none, convert_to_int := false, convert_from_int := false,
    internal_ptr := [] }

/-- Modelled from the spec: `create_conversions()` (outside `src/`): a descriptor that has
both layouts requires conversion exactly when they differ. -/
def create_conversions (d : MKLData) : MKLData :=
  match d.layout_usr, d.layout_int with
  | some u, some i =>
    if u = i then d else { d with convert_to_int := true, convert_from_int := true }
  | _, _ => d

/-- Modelled from the spec: `create_user_layout(dim, sizes, strides)` (outside `src/`) builds
the plain layout from the first `dim` extents and strides. -/
def create_user_layout (d : MKLData) (dim : Nat) (sizes strides : List Nat) : MKLData :=
  create_conversions { d with layout_usr := some (dnnLayout.plain (sizes.take dim) (strides.take dim)) }

/-- Modelled from the spec: `create_internal_layout(plan, role)` (outside `src/`) derives the
internal layout of the role from the plan; the data is then converted to it on demand. -/
def create_internal_layout (d : MKLData) (p : dnnPrimitive) (role : dnnResourceType_t) :
    MKLData :=
  create_conversions { d with layout_int := dnnLayoutCreateFromPrimitive p role }

/-- Modelled from the spec: `get_converted_prv(blob, false)` (outside `src/`) for slot `i`:
the pointer to the data of the blob in the internal layout of the descriptor. An optimized
buffer already in that layout is used as it is; otherwise the logical values are converted
into the buffer of the descriptor, which is returned. -/
def get_converted_prv (d : MKLData) (b : Blob) (i : Nat) : MKLData × Resource :=
  match b.prv_data, b.prv_descriptor_data with
  | some p, some (PrvMemDescr.mkl2017 cur) =>
    if cur.layout_int = d.layout_int then
      (d, { ptr := Ptr.bottom_prv i, layout := cur.layout_int, vals := p })
    else
      ({ d with internal_ptr := p }, { ptr := Ptr.converted i, layout := d.layout_int, vals := p })
  | some p, _ =>
    ({ d with internal_ptr := p }, { ptr := Ptr.converted i, layout := d.layout_int, vals := p })
  | none, _ =>
    ({ d with internal_ptr := b.cpu_data },
     { ptr := Ptr.converted i, layout := d.layout_int, vals := b.cpu_data })

end MKLData

/-- Members of `MKLEltwiseLayer`; `sumPrimitive` is `none` while the handle is null. -/
structure MKLEltwiseLayer where
  layer_param_ : EltwiseParameter
  op_ : EltwiseOp
  coeffs_ : List Dtype
  stable_prod_grad_ : Bool
  num_bottoms : Nat
  fwd_bottom_data : List MKLData
  fwd_top_data : MKLData
  sumPrimitive : Option dnnPrimitive
  max_idx_ : List Nat
  deriving DecidableEq, Repr

namespace MKLEltwiseLayer

/-- Modelled from the spec: the layer as constructed (constructor outside `src/`): no plan is
built yet, no input descriptor exists, the output descriptor is new. -/
def fresh (param : EltwiseParameter) : MKLEltwiseLayer :=
  { layer_param_ := param, op_ := EltwiseOp.unknown 0, coeffs_ := [], stable_prod_grad_ := false,
    num_bottoms := 0, fwd_bottom_data := [], fwd_top_data := MKLData.fresh,
    sumPrimitive := none, max_idx_ := [] }

/-- The state a call of the layer works on: the layer, the inputs `bottom`, the output
`top[0]` (the layer has exactly one output blob), and the ghost trace of the vendor calls made
so far (oldest first). -/
structure World where
  layer : MKLEltwiseLayer
  bottom : List Blob
  top0 : Blob
  trace : List VendorCall
  deriving DecidableEq, Repr

/-- An empty output blob. -/
def emptyBlob : Blob :=
  { shape := [], cpu_data := [], cpu_diff := [], prv_data := none, prv_descriptor_data := none,
    prv_diff := none, prv_diff_count := 0, prv_descriptor_diff := none }

/-- Element `bottom[i]`, for an index within the vector. -/
def World.bottomAt (w : World) (i : Nat) : Blob := w.bottom.getD i emptyBlob

/-- Element `fwd_bottom_data[i]`, for an index within the vector. -/
def World.descrAt (w : World) (i : Nat) : MKLData := w.layer.fwd_bottom_data.getD i MKLData.fresh

/-- Assignment to `fwd_bottom_data[i]` (or to what it points to). -/
def World.setDescr (w : World) (i : Nat) (d : MKLData) : World :=
  { w with layer := { w.layer with fwd_bottom_data := w.layer.fwd_bottom_data.set i d } }

/-- Predicate `SameCore w s`: the world `s` differs from `w` at most in the descriptors
`fwd_bottom_data` and `fwd_top_data`. -/
def SameCore (w s : World) : Prop :=
  s.bottom = w.bottom ∧ s.top0 = w.top0 ∧ s.trace = w.trace ∧
  s.layer.layer_param_ = w.layer.layer_param_ ∧ s.layer.op_ = w.layer.op_ ∧
  s.layer.coeffs_ = w.layer.coeffs_ ∧ s.layer.stable_prod_grad_ = w.layer.stable_prod_grad_ ∧
  s.layer.num_bottoms = w.layer.num_bottoms ∧ s.layer.sumPrimitive = w.layer.sumPrimitive ∧
  s.layer.max_idx_ = w.layer.max_idx_

/-- The loop of lines 34-36: `coeffs_[i] = coeff(i)` for every input. -/
def readCoeffs (param : EltwiseParameter) (n : Nat) (coeffs : List Dtype) : List Dtype :=
  forLoop n (fun i cs => cs.set i (param.coeff.getD i 0)) coeffs

/-- The loop of lines 45-49 over the arrays `sizes_src` and `strides_src`. The arrays are of
`size_t`, so the product `strides_src[d-1]*sizes_src[d-1]` wraps modulo `2^64`; an extent,
a non-negative `int`, converts to `size_t` as it is. -/
def sizesStrides (shape : List Nat) : List Nat × List Nat :=
  let dim_src := shape.length
  forLoop dim_src (fun d (st : List Nat × List Nat) =>
    let sizes := st.1.set d (shape.getD (dim_src - d - 1) 0)
    let strides := st.2.set d
      (if d = 0 then 1 else (st.2.getD (d - 1) 0 * sizes.getD (d - 1) 0) % 2 ^ 64)
    (sizes, strides)) (List.replicate dim_src 0, List.replicate dim_src 0)

/-- Lines 30-40 of `LayerSetUp`: the members assigned once the checks have passed. -/
def setupMembers (w : World) : World :=
  let param := w.layer.layer_param_
  let coeffs0 : List Dtype := List.replicate w.bottom.length 1
  let coeffs := if param.coeff_size ≠ 0 then readCoeffs param w.bottom.length coeffs0 else coeffs0
  { w with layer := { w.layer with op_ := param.operation, coeffs_ := coeffs,
                                   stable_prod_grad_ := param.stable_prod_grad,
                                   num_bottoms := w.bottom.length } }

/-- Body of the loop of lines 51-56 for input `i`: a new descriptor is pushed, the
dimensionality is checked, the descriptor in slot `i` gets its plain layout. -/
def setupDescrStep (dim_src : Nat) (ss : List Nat × List Nat) (i : Nat) (w : World) :
    Outcome World :=
  let w2 : World :=
    { w with layer := { w.layer with
        fwd_bottom_data := w.layer.fwd_bottom_data ++ [MKLData.fresh] } }
  if dim_src = (w2.bottomAt i).shape.length then
    Outcome.ok (w2.setDescr i ((w2.descrAt i).create_user_layout dim_src ss.1 ss.2))
  else Outcome.fault Fault.dim_mismatch w2

/-- Line 58: the output descriptor gets its plain layout. -/
def setupTopLayout (dim_src : Nat) (ss : List Nat × List Nat) (w : World) : Outcome World :=
  Outcome.ok { w with layer := { w.layer with
    fwd_top_data := w.layer.fwd_top_data.create_user_layout dim_src ss.1 ss.2 } }

/-- Lines 41-58 of `LayerSetUp`: the plain layouts, from the shape of `bottom[0]`. -/
def setupLayouts (w : World) : Outcome World :=
  match w.bottom with
  | [] => Outcome.fault Fault.out_of_range w
  | b0 :: _ =>
    let dim_src := b0.shape.length
    let ss := sizesStrides b0.shape
    (forLoopM 0 w.layer.num_bottoms (setupDescrStep dim_src ss) w).andThen
      (setupTopLayout dim_src ss)

/-- Embedding of `MKLEltwiseLayer::LayerSetUp` (lines 15-59). -/
def LayerSetUp (w : World) : Outcome World :=
  let param := w.layer.layer_param_
  if ¬ (param.coeff_size = 0 ∨ param.coeff_size = w.bottom.length) then
    Outcome.fault Fault.coeff_count w
  else if param.operation = EltwiseOp.PROD ∧ param.coeff_size ≠ 0 then
    Outcome.fault Fault.coeff_with_prod w
  else if param.operation ≠ EltwiseOp.SUM then
    Outcome.fault Fault.not_sum w
  else setupLayouts (setupMembers w)

/-- Body of the loop of lines 64-66 for input `i`. -/
def reshapeCheck (i : Nat) (w : World) : Outcome World :=
  if (w.bottomAt i).shape = (w.bottomAt 0).shape then Outcome.ok w
  else Outcome.fault Fault.shape_mismatch w

/-- Lines 67-72 of `Reshape`: the output takes the shape of `bottom[0]`. -/
def reshapeTop (w : World) : Outcome World :=
  match w.bottom with
  | [] => Outcome.fault Fault.out_of_range w
  | b0 :: _ =>
    let w1 : World := { w with top0 := w.top0.ReshapeLike b0 }
    if w1.layer.layer_param_.operation = EltwiseOp.MAX then
      Outcome.ok { w1 with layer := { w1.layer with max_idx_ := b0.shape } }
    else Outcome.ok w1

/-- Embedding of `MKLEltwiseLayer::Reshape` (lines 61-73). -/
def Reshape (w : World) : Outcome World :=
  (forLoopM 1 (w.bottom.length - 1) reshapeCheck w).andThen reshapeTop

/-- The plain row-major layout of a blob of the given shape (extents and strides as computed
by the loop of lines 45-49). -/
def plainLayout (shape : List Nat) : dnnLayout :=
  dnnLayout.plain (sizesStrides shape).1 (sizesStrides shape).2

/-- The layout of the optimized buffer of a blob, read from its descriptor. -/
def prvLayout (b : Blob) : Option dnnLayout :=
  match b.prv_descriptor_data with
  | some (PrvMemDescr.mkl2017 d) => d.layout_int
  | _ => none

/-- The loop of lines 79-90: for every input the optimized pointer if there is one, else the
plain pointer; `num_prv` (a `bool` in the source) records whether any input is optimized. -/
def probe (w : World) : List Resource × Bool :=
  forLoop w.layer.num_bottoms (fun i (st : List Resource × Bool) =>
    match (w.bottomAt i).prv_data with
    | some p =>
      (st.1 ++ [{ ptr := Ptr.bottom_prv i, layout := prvLayout (w.bottomAt i), vals := p }], true)
    | none =>
      (st.1 ++ [{ ptr := Ptr.bottom_cpu i, layout := some (plainLayout (w.bottomAt i).shape),
                  vals := (w.bottomAt i).cpu_data }], st.2)) ([], false)

/-- The loop of lines 95-108: the slot of every optimized input takes the descriptor the input
arrived with; `int_layout` becomes the first non-null internal layout met. -/
def adoptDescriptors (w : World) : Outcome (World × Option dnnLayout) :=
  forLoopM 0 w.layer.num_bottoms (fun i (st : World × Option dnnLayout) =>
    match (st.1.bottomAt i).prv_data with
    | none => Outcome.ok st
    | some _ =>
      match (st.1.bottomAt i).prv_descriptor_data with
      | none => Outcome.fault Fault.null_descr st
      | some PrvMemDescr.other => Outcome.fault Fault.descr_type st
      | some (PrvMemDescr.mkl2017 mem_descr) =>
        Outcome.ok (st.1.setDescr i mem_descr,
          if st.2 = none then mem_descr.layout_int else st.2)) (w, none)

/-- The plan that `dnnSumCreate(&sumPrimitive, NULL, num_bottoms, layout, &coeffs_[0])`
builds. -/
def newPlan (w : World) (layout : Option dnnLayout) : dnnPrimitive :=
  { nSummands := w.layer.num_bottoms, layout := layout, coeffs := w.layer.coeffs_ }

/-- The world after a successful `dnnSumCreate`: the handle is set, the call is traced. -/
def withPlan (w : World) (layout : Option dnnLayout) : World :=
  { w with
    layer := { w.layer with sumPrimitive := some (newPlan w layout) }
    trace := w.trace ++ [VendorCall.sumCreate w.layer.num_bottoms layout w.layer.coeffs_] }

/-- The call `dnnSumCreate(&sumPrimitive, NULL, num_bottoms, layout, &coeffs_[0])` followed by
`CHECK_EQ(e, E_SUCCESS)` (lines 109-111 and 124-126). -/
def sumCreate (v : Vendor) (w : World) (layout : Option dnnLayout) : Outcome World :=
  if v.sumCreateStatus w.layer.num_bottoms layout w.layer.coeffs_ = E_SUCCESS then
    Outcome.ok (withPlan w layout)
  else
    Outcome.fault Fault.sum_create
      { w with trace := w.trace ++
          [VendorCall.sumCreate w.layer.num_bottoms layout w.layer.coeffs_] }

/-- Lines 113-120: the output descriptor and the descriptor of every input that is not
optimized derive their internal layout from the new plan. -/
def deriveInternalLayouts (w : World) (p : dnnPrimitive) : World :=
  let w1 : World :=
    { w with
      layer := { w.layer with fwd_top_data :=
        w.layer.fwd_top_data.create_internal_layout p dnnResourceType_t.dnnResourceDst }
      trace := w.trace ++ [VendorCall.layoutCreateFromPrimitive p dnnResourceType_t.dnnResourceDst] }
  forLoop w1.layer.num_bottoms (fun i (w : World) =>
    match (w.bottomAt i).prv_data with
    | none =>
      let role := dnnResourceType_t.dnnResourceMultipleSrc i
      let w2 := w.setDescr i ((w.descrAt i).create_internal_layout p role)
      { w2 with trace := w2.trace ++ [VendorCall.layoutCreateFromPrimitive p role] }
    | some _ => w) w1

/-- Lines 113-120, run once `dnnSumCreate` has set the handle. -/
def deriveAfterCreate (w : World) : Outcome World :=
  match w.layer.sumPrimitive with
  | some p => Outcome.ok (deriveInternalLayouts w p)
  | none => Outcome.ok w

/-- Lines 94-120: the plan is built on the internal layout of an optimized input. -/
def buildPlanOptimized (v : Vendor) (w : World) : Outcome World :=
  match adoptDescriptors w with
  | Outcome.fault f st => Outcome.fault f st.1
  | Outcome.ok st => (sumCreate v st.1 st.2).andThen deriveAfterCreate

/-- Lines 92-128: the plan is built when the handle is still null. -/
def buildPlan (v : Vendor) (w : World) (num_prv : Bool) : Outcome World :=
  if num_prv then
    match w.layer.sumPrimitive with
    | some _ => Outcome.ok w
    | none => buildPlanOptimized v w
  else
    match w.layer.sumPrimitive with
    | some _ => Outcome.ok w
    | none => sumCreate v w w.layer.fwd_top_data.layout_usr

/-- The loop of lines 133-141: the resource of every source slot. -/
def resolveSources (w : World) (bottom_data : List Resource) : World × List Resource :=
  forLoop w.layer.num_bottoms (fun i (st : World × List Resource) =>
    if (st.1.descrAt i).convert_to_int then
      let r := (st.1.descrAt i).get_converted_prv (st.1.bottomAt i) i
      (st.1.setDescr i r.1, st.2 ++ [r.2])
    else
      (st.1, st.2 ++ [bottom_data.getD i { ptr := Ptr.bottom_cpu i, layout := none, vals := [] }]))
    (w, [])

/-- Lines 143-150: the destination pointer; with a conversion from the internal layout the
output blob is marked optimized with the buffer and descriptor of `fwd_top_data`. -/
def resolveDst (w : World) : World × Ptr :=
  if w.layer.fwd_top_data.convert_from_int then
    ({ w with top0 := { w.top0 with
        prv_data := some w.layer.fwd_top_data.internal_ptr
        prv_descriptor_data := some (PrvMemDescr.mkl2017 w.layer.fwd_top_data) } },
     Ptr.top_prv)
  else (w, Ptr.top_cpu)

/-- The effect of a successful `dnnExecute`: the exact weighted sum of the sources, over the
elements of the layout of the plan, is written to the destination buffer. -/
def storeResult (w : World) (p : dnnPrimitive) (src : List Resource) (dst : Ptr) : World :=
  let count := (p.layout.map dnnLayout.count).getD 0
  let result := weightedSum p.coeffs (src.map Resource.vals) count
  match dst with
  | Ptr.top_prv =>
    let buf := result ++ w.layer.fwd_top_data.internal_ptr.drop count
    let descr : MKLData := { w.layer.fwd_top_data with internal_ptr := buf }
    { w with
      layer := { w.layer with fwd_top_data := descr }
      top0 := { w.top0 with
        prv_data := some buf
        prv_descriptor_data := some (PrvMemDescr.mkl2017 descr) } }
  | _ => { w with top0 := { w.top0 with cpu_data := result ++ w.top0.cpu_data.drop count } }

/-- Lines 130-161: the switch on `op_`. -/
def execute (v : Vendor) (w : World) (bottom_data : List Resource) : Outcome World :=
  match w.layer.op_ with
  | EltwiseOp.SUM =>
    let rs := resolveSources w bottom_data
    let rd := resolveDst rs.1
    let wd := rd.1
    let w1 : World :=
      { wd with trace := wd.trace ++ [VendorCall.execute wd.layer.sumPrimitive rs.2 rd.2] }
    if v.executeStatus w1.layer.sumPrimitive rs.2 rd.2 = E_SUCCESS then
      match w1.layer.sumPrimitive with
      | some p => Outcome.ok (storeResult w1 p rs.2 rd.2)
      | none => Outcome.fault Fault.execute w1
    else Outcome.fault Fault.execute w1
  | EltwiseOp.PROD => Outcome.fault Fault.unsupported_op w
  | EltwiseOp.MAX => Outcome.fault Fault.unsupported_op w
  | EltwiseOp.unknown _ => Outcome.fault Fault.unknown_op w

/-- Embedding of `MKLEltwiseLayer::Forward_cpu` (lines 75-162). Reading `bottom[i]` or
`fwd_bottom_data[i]` for `i < num_bottoms` beyond the vector is undefined behaviour. -/
def Forward_cpu (v : Vendor) (w : World) : Outcome World :=
  if w.bottom.length < w.layer.num_bottoms ∨
      w.layer.fwd_bottom_data.length < w.layer.num_bottoms then
    Outcome.fault Fault.out_of_range w
  else
    let pr := probe w
    (buildPlan v w pr.2).andThen fun w => execute v w pr.1

/-- The gradient that `Backward_cpu` reads (lines 168-181): the optimized gradient of the
output with its element count if there is one, else the plain gradient with `count()`;
the third component is `is_top_diff_prv`. -/
def topDiff (top0 : Blob) : List Dtype × Nat × Bool :=
  match top0.prv_diff with
  | none => (top0.cpu_diff, top0.count, false)
  | some p => (p, top0.prv_diff_count, true)

/-- Assignment to the blob `bottom[i]`. -/
def World.setBottom (w : World) (i : Nat) (b : Blob) : World :=
  { w with bottom := w.bottom.set i b }

/-- Lines 189-195 on one input blob `b`: the gradient is copied to the plain gradient buffer
(`mutable_cpu_diff()`), or to the optimized gradient buffer (`mutable_prv_diff()`), which then
carries the descriptor of the output gradient. -/
def copyDiff (top0 b : Blob) : Blob :=
  let td := topDiff top0
  if td.2.2 = false then
    { b with cpu_diff := caffe_copy td.2.1 td.1 b.cpu_diff }
  else
    { b with
      prv_diff := some (caffe_copy td.2.1 td.1 (b.prv_diff.getD []))
      prv_diff_count := top0.prv_diff_count
      prv_descriptor_diff := top0.prv_descriptor_diff }

/-- Lines 189-195 for input `i`, once the coefficient check has passed. -/
def writeDiff (w : World) (i : Nat) : World :=
  w.setBottom i (copyDiff w.top0 (w.bottomAt i))

/-- Body of the loop of `Backward_cpu` (lines 185-203) for input `i`. -/
def backwardStep (propagate_down : List Bool) (i : Nat) (w : World) : Outcome World :=
  match propagate_down[i]? with
  | none => Outcome.fault Fault.out_of_range w
  | some false => Outcome.ok w
  | some true =>
    match w.layer.op_ with
    | EltwiseOp.SUM =>
      match w.layer.coeffs_[i]? with
      | none => Outcome.fault Fault.out_of_range w
      | some c =>
        if c = 1 then Outcome.ok (writeDiff w i)
        else Outcome.fault Fault.coeff_not_one w
    | EltwiseOp.MAX => Outcome.fault Fault.unsupported_op w
    | EltwiseOp.PROD => Outcome.fault Fault.unsupported_op w
    | EltwiseOp.unknown _ => Outcome.fault Fault.unknown_op w

/-- Embedding of `MKLEltwiseLayer::Backward_cpu` (lines 164-205). -/
def Backward_cpu (w : World) (propagate_down : List Bool) : Outcome World :=
  forLoopM 0 w.bottom.length (backwardStep propagate_down) w

/-- A sequence of `Forward_cpu` calls on one instance; before each call the framework supplies
the inputs and the output blob of that call. The sequence stops at the first halt. -/
def forwardCalls (v : Vendor) (w : World) : List (List Blob × Blob) → Outcome World
  | [] => Outcome.ok w
  | c :: cs =>
    match Forward_cpu v { w with bottom := c.1, top0 := c.2 } with
    | Outcome.ok w1 => forwardCalls v w1 cs
    | Outcome.fault f w1 => Outcome.fault f w1

/-- A call that the framework makes on a layer instance after setup, with the blobs it
supplies for that call. -/
inductive LayerCall where
  | reshape (bottom : List Blob) (top0 : Blob)
  | forward (bottom : List Blob) (top0 : Blob)
  | backward (bottom : List Blob) (top0 : Blob) (propagate_down : List Bool)
  deriving DecidableEq, Repr

/-- One call on the instance. -/
def runCall (v : Vendor) (w : World) : LayerCall → Outcome World
  | LayerCall.reshape bs t => Reshape { w with bottom := bs, top0 := t }
  | LayerCall.forward bs t => Forward_cpu v { w with bottom := bs, top0 := t }
  | LayerCall.backward bs t p => Backward_cpu { w with bottom := bs, top0 := t } p

/-- A sequence of calls on one instance; it stops at the first halt. -/
def runCalls (v : Vendor) (w : World) : List LayerCall → Outcome World
  | [] => Outcome.ok w
  | c :: cs =>
    match runCall v w c with
    | Outcome.ok w1 => runCalls v w1 cs
    | Outcome.fault f w1 => Outcome.fault f w1

/-- Predicate `NotOpFault o`: the outcome `o` is not a halt in the "Unsupported elementwise
operation" branch nor in the "Unknown elementwise operation" branch. -/
def NotOpFault (o : Outcome World) : Prop :=
  o.fault? ≠ some Fault.unsupported_op ∧ o.fault? ≠ some Fault.unknown_op

/-- Number of plan constructions (`dnnSumCreate` calls) in a trace. -/
def planConstructions (tr : List VendorCall) : Nat :=
  tr.countP (fun c => match c with | VendorCall.sumCreate _ _ _ => true | _ => false)

/-- Number of internal-layout derivations (`create_internal_layout`) in a trace. -/
def internalLayoutsCreated (tr : List VendorCall) : Nat :=
  tr.countP (fun c => match c with | VendorCall.layoutCreateFromPrimitive _ _ => true | _ => false)

end MKLEltwiseLayer

/-! ## Concrete inputs -/

/-- A blob of the given shape holding the given data, with a zero gradient and no optimized
buffer. -/
def plainBlob (shape : List Nat) (data : List Dtype) : Blob :=
  { shape := shape, cpu_data := data, cpu_diff := List.replicate data.length 0,
    prv_data := none, prv_descriptor_data := none, prv_diff := none, prv_diff_count := 0,
    prv_descriptor_diff := none }

/-- The input of `NearestNeighborLayerTest`: a blob of shape `(2, 4, 4, 5)`, here holding
`0, 1, ..., 159`, with a new layer and an empty output blob. -/
def nnTestWorld : NearestNeighborLayer.World :=
  { layer := { channels_ := 0, height_ := 0, width_ := 0, top_height_ := 0, top_width_ := 0 }
    bottom0 := plainBlob [2, 4, 4, 5] ((List.range 160).map Int.ofNat)
    top0 := plainBlob [] [] }

/-- The two inputs of the end-to-end example: shape `(2, 4, 4, 5)`, holding `0, 1, ..., 159`
and `1000, 1001, ..., 1159`. -/
def eltTestBottom : List Blob :=
  [plainBlob [2, 4, 4, 5] ((List.range 160).map Int.ofNat),
   plainBlob [2, 4, 4, 5] ((List.range 160).map (fun k => Int.ofNat (1000 + k)))]

/-- The end-to-end example before setup: a new SUM layer with coefficients `[1, 1]`, the two
inputs and an empty output blob. -/
def eltTestWorld : MKLEltwiseLayer.World :=
  { layer := MKLEltwiseLayer.fresh
      { operation := EltwiseOp.SUM, coeff := [1, 1], stable_prod_grad := false }
    bottom := eltTestBottom
    top0 := plainBlob [] []
    trace := [] }

/-- The end-to-end example at the backward call: the layer and inputs after setup, and an
output blob of shape `(2, 4, 4, 5)` whose plain gradient holds `1, 2, ..., 160`. -/
def eltTestBackward : MKLEltwiseLayer.World :=
  { (MKLEltwiseLayer.LayerSetUp eltTestWorld).state with
    top0 := { plainBlob [2, 4, 4, 5] (List.replicate 160 0) with
      cpu_diff := (List.range 160).map (fun k => Int.ofNat k + 1) } }

/-- A small example with a coefficient other than 1: a new SUM layer with coefficients
`[2, 1]`, two inputs of shape `(2)` and an output of shape `(2)`. -/
def eltCoeffWorld : MKLEltwiseLayer.World :=
  { layer := MKLEltwiseLayer.fresh
      { operation := EltwiseOp.SUM, coeff := [2, 1], stable_prod_grad := false }
    bottom := [plainBlob [2] [1, 2], plainBlob [2] [3, 4]]
    top0 := plainBlob [2] [0, 0]
    trace := [] }

/-- An input of shape `(2)` that carries an optimized buffer in an internal layout, with the
descriptor of its producer. -/
def eltPrvBlob : Blob :=
  { plainBlob [2] [0, 0] with
    prv_data := some [30, 40]
    prv_descriptor_data := some (PrvMemDescr.mkl2017
      { layout_usr := some (MKLEltwiseLayer.plainLayout [2])
        layout_int := some (dnnLayout.internal 7 [2])
        convert_to_int := true, convert_from_int := true, internal_ptr := [30, 40] }) }

/-- A small example without coefficients: a new SUM layer, two plain inputs of shape `(2)`. -/
def eltSmallWorld : MKLEltwiseLayer.World :=
  { layer := MKLEltwiseLayer.fresh
      { operation := EltwiseOp.SUM, coeff := [], stable_prod_grad := false }
    bottom := [plainBlob [2] [1, 2], plainBlob [2] [3, 4]]
    top0 := plainBlob [2] [0, 0]
    trace := [] }

/-- Three forward calls: all inputs plain, then the second input optimized, then all plain
again. -/
def eltSmallCalls : List (List Blob × Blob) :=
  [([plainBlob [2] [1, 2], plainBlob [2] [3, 4]], plainBlob [2] [0, 0]),
   ([plainBlob [2] [5, 6], eltPrvBlob], plainBlob [2] [0, 0]),
   ([plainBlob [2] [7, 8], plainBlob [2] [9, 10]], plainBlob [2] [0, 0])]

/-- A configuration with the PRODUCT selector and one coefficient per input: a new layer with
coefficients `[1, 1]` and two inputs of shape `(2)`. -/
def eltProdWorld : MKLEltwiseLayer.World :=
  { layer := MKLEltwiseLayer.fresh
      { operation := EltwiseOp.PROD, coeff := [1, 1], stable_prod_grad := false }
    bottom := [plainBlob [2] [1, 2], plainBlob [2] [3, 4]]
    top0 := plainBlob [2] [0, 0]
    trace := [] }

/-- A setup call with zero inputs: a new SUM layer without coefficients and no input blob. -/
def eltZeroWorld : MKLEltwiseLayer.World :=
  { layer := MKLEltwiseLayer.fresh
      { operation := EltwiseOp.SUM, coeff := [], stable_prod_grad := false }
    bottom := []
    top0 := plainBlob [] []
    trace := [] }

/-- The small example after setup and one forward call on its two plain inputs of shape
`(2)`: the plan is built. -/
def eltSmallReady : MKLEltwiseLayer.World :=
  ((MKLEltwiseLayer.LayerSetUp eltSmallWorld).andThen
    (MKLEltwiseLayer.Forward_cpu Vendor.reliable)).state

/-- Two inputs that agree on the new shape `(3)`. -/
def eltNewShapeBottom : List Blob :=
  [plainBlob [3] [1, 2, 3], plainBlob [3] [4, 5, 6]]

/-- The small example at a backward call whose output gradient has an optimized form: the
layer and inputs after setup, and an output blob of shape `(2)` with the optimized gradient
`[5, 6]` of 2 elements and its descriptor. -/
def eltPrvBackward : MKLEltwiseLayer.World :=
  { (MKLEltwiseLayer.LayerSetUp eltSmallWorld).state with
    top0 := { plainBlob [2] [0, 0] with
      prv_diff := some [5, 6]
      prv_diff_count := 2
      prv_descriptor_diff := some (PrvMemDescr.mkl2017
        { layout_usr := some (MKLEltwiseLayer.plainLayout [2])
          layout_int := some (dnnLayout.internal 7 [2])
          convert_to_int := true, convert_from_int := true, internal_ptr := [5, 6] }) } }

/-- A reshape, a forward call with the second input optimized, and a backward call, each
with its own blobs, for the two-input example. -/
def eltOpCalls : List MKLEltwiseLayer.LayerCall :=
  [MKLEltwiseLayer.LayerCall.reshape [plainBlob [2] [1, 2], plainBlob [2] [3, 4]]
     (plainBlob [2] [0, 0]),
   MKLEltwiseLayer.LayerCall.forward [plainBlob [2] [5, 6], eltPrvBlob] (plainBlob [2] [0, 0]),
   MKLEltwiseLayer.LayerCall.backward [plainBlob [2] [5, 6], plainBlob [2] [3, 4]]
     (plainBlob [2] [0, 0]) [true, true]]

/-- The two-input example after setup, at a first forward call whose input 0 is plain and
whose input 1 carries an optimized buffer in the internal layout 7. -/
def eltMixedWorld : MKLEltwiseLayer.World :=
  { (MKLEltwiseLayer.LayerSetUp eltSmallWorld).state with
    bottom := [plainBlob [2] [5, 6], eltPrvBlob] }

/-- A setup call whose first input is a blob without elements of shape
`(0, 2^31-1, 2^31-1, 2^31-1)`: a new SUM layer without coefficients and one input. -/
def eltWrapWorld : MKLEltwiseLayer.World :=
  { layer := MKLEltwiseLayer.fresh
      { operation := EltwiseOp.SUM, coeff := [], stable_prod_grad := false }
    bottom := [plainBlob [0, 2147483647, 2147483647, 2147483647] []]
    top0 := plainBlob [] []
    trace := [] }

/-- An input without elements of shape `(1, 1, 2^30, 0)`, with a new layer and an empty
output blob. -/
def nnWrapWorld : NearestNeighborLayer.World :=
  { layer := { channels_ := 0, height_ := 0, width_ := 0, top_height_ := 0, top_width_ := 0 }
    bottom0 := plainBlob [1, 1, 1073741824, 0] []
    top0 := plainBlob [] [] }

/-! # Theorems -/

/-! ## Loops and buffers -/

theorem forLoop_succ {σ : Type} (n : Nat) (body : Nat → σ → σ) (s : σ) :
    forLoop (n + 1) body s = body n (forLoop n body s) := rfl

theorem forLoop_const_add {σ : Type} (g : σ → σ) (a b : Nat) (s : σ) :
    forLoop (a + b) (fun _ => g) s = forLoop b (fun _ => g) (forLoop a (fun _ => g) s) := by
  induction b with
  | zero => rfl
  | succ b ih => rw [← Nat.add_assoc, forLoop_succ, forLoop_succ, ih]

theorem forLoop_nested_const {σ : Type} (g : σ → σ) (n m : Nat) (s : σ) :
    forLoop n (fun _ s => forLoop m (fun _ => g) s) s = forLoop (n * m) (fun _ => g) s := by
  induction n with
  | zero => simp [forLoop]
  | succ n ih => rw [forLoop_succ, ih, Nat.succ_mul, forLoop_const_add]

theorem Fills.refl {α : Type} (v : Nat → α) (buf : List α) :
    Fills (fun _ => False) v buf buf :=
  ⟨rfl, fun _ _ => rfl, fun _ h _ => h.elim⟩

theorem Fills.trans {α : Type} {S T : Nat → Prop} {v : Nat → α} {a b c : List α}
    (h1 : Fills S v a b) (h2 : Fills T v b c) : Fills (fun j => S j ∨ T j) v a c := by
  refine ⟨h2.1.trans h1.1, ?_, ?_⟩
  · intro j hj
    have hS : ¬ S j := fun h => hj (Or.inl h)
    have hT : ¬ T j := fun h => hj (Or.inr h)
    rw [h2.2.1 j hT, h1.2.1 j hS]
  · intro j hj hlt
    by_cases hT : T j
    · exact h2.2.2 j hT (h1.1 ▸ hlt)
    · rw [h2.2.1 j hT]
      exact h1.2.2 j (hj.resolve_right hT) hlt

theorem Fills.congr {α : Type} {S T : Nat → Prop} {v : Nat → α} {a b : List α}
    (h : Fills S v a b) (hST : ∀ j, S j ↔ T j) : Fills T v a b :=
  ⟨h.1, fun j hj => h.2.1 j (fun hs => hj ((hST j).1 hs)),
    fun j hj hlt => h.2.2 j ((hST j).2 hj) hlt⟩

theorem Fills.set {α : Type} (v : Nat → α) (buf : List α) (i : Nat) (x : α) (hx : x = v i) :
    Fills (fun j => j = i) v buf (buf.set i x) := by
  refine ⟨List.length_set _ _ _, ?_, ?_⟩
  · intro j hj
    exact List.getElem?_set_ne (fun h => hj h.symm)
  · intro j hj hlt
    subst hj
    rw [hx]
    exact List.getElem?_set_self hlt

theorem Fills.forLoop {α : Type} {S : Nat → Nat → Prop} {v : Nat → α}
    {body : Nat → List α → List α} (n : Nat)
    (hbody : ∀ i, i < n → ∀ buf, Fills (S i) v buf (body i buf)) (buf : List α) :
    Fills (fun j => ∃ i, i < n ∧ S i j) v buf (Caffe.forLoop n body buf) := by
  induction n with
  | zero =>
    exact (Fills.refl v buf).congr (fun j => ⟨fun h => h.elim, fun ⟨_, hi, _⟩ => by omega⟩)
  | succ n ih =>
    have h1 := ih (fun i hi => hbody i (Nat.lt_succ_of_lt hi))
    have h2 := hbody n (Nat.lt_succ_self n) (Caffe.forLoop n body buf)
    refine (h1.trans h2).congr (fun j => ⟨?_, ?_⟩)
    · rintro (⟨i, hi, hs⟩ | hs)
      · exact ⟨i, Nat.lt_succ_of_lt hi, hs⟩
      · exact ⟨n, Nat.lt_succ_self n, hs⟩
    · rintro ⟨i, hi, hs⟩
      by_cases hin : i = n
      · subst hin; exact Or.inr hs
      · exact Or.inl ⟨i, by omega, hs⟩

/-- A property that every iteration keeps holds after the loop. -/
theorem forLoop_inv {σ : Type} (J : σ → Prop) (n : Nat) (body : Nat → σ → σ) (s : σ)
    (hs : J s) (hbody : ∀ i s, i < n → J s → J (body i s)) : J (forLoop n body s) := by
  induction n with
  | zero => exact hs
  | succ n ih =>
    rw [forLoop_succ]
    exact hbody n _ (Nat.lt_succ_self n) (ih (fun i s hi => hbody i s (Nat.lt_succ_of_lt hi)))

theorem forLoopM_succ {σ : Type} (lo n : Nat) (body : Nat → σ → Outcome σ) (s : σ) :
    forLoopM lo (n + 1) body s = (forLoopM lo n body s).andThen (body (lo + n)) := rfl

/-- A property of the state that every step keeps, whether it returns or halts, holds of the
state the loop ends in. -/
theorem forLoopM_state_inv {σ : Type} (J : σ → Prop) (lo n : Nat) (body : Nat → σ → Outcome σ)
    (s : σ) (hs : J s) (hbody : ∀ i s, J s → J (body i s).state) :
    J (forLoopM lo n body s).state := by
  induction n with
  | zero => exact hs
  | succ n ih =>
    rw [forLoopM_succ]
    cases h : forLoopM lo n body s with
    | ok s1 =>
      rw [h] at ih
      exact hbody _ _ ih
    | fault f s1 =>
      rw [h] at ih
      exact ih

/-- A loop whose steps pass a check `P i` that does not depend on the state returns
normally exactly when every check passes. -/
theorem forLoopM_isOk_iff {σ : Type} (J : σ → Prop) (P : Nat → Prop) (lo n : Nat)
    (body : Nat → σ → Outcome σ) (s : σ) (hs : J s)
    (hJ : ∀ i s, J s → J (body i s).state)
    (hbody : ∀ i s, J s → ((body i s).isOk = true ↔ P i)) :
    (forLoopM lo n body s).isOk = true ↔ ∀ k, k < n → P (lo + k) := by
  induction n with
  | zero => simp [forLoopM, Outcome.isOk]
  | succ n ih =>
    have hst := forLoopM_state_inv J lo n body s hs hJ
    rw [forLoopM_succ]
    cases h : forLoopM lo n body s with
    | ok s1 =>
      rw [h] at ih hst
      have hall : ∀ k, k < n → P (lo + k) := ih.1 rfl
      have hst1 : J s1 := hst
      simp only [Outcome.andThen]
      rw [hbody _ _ hst1]
      constructor
      · intro hp k hk
        by_cases hkn : k = n
        · subst hkn; exact hp
        · exact hall k (by omega)
      · intro hp
        exact hp n (Nat.lt_succ_self n)
    | fault f s1 =>
      rw [h] at ih
      simp only [Outcome.andThen, Outcome.isOk]
      constructor
      · intro hf; cases hf
      · intro hp
        have : Outcome.isOk (Outcome.fault f s1) = true := ih.2 (fun k hk => hp k (by omega))
        cases this

/-- A loop whose steps all return under an invariant indexed by the number of steps done
returns, and the invariant holds at the end. -/
theorem forLoopM_ok_inv {σ : Type} (J : Nat → σ → Prop) (lo n : Nat)
    (body : Nat → σ → Outcome σ) (s : σ) (h0 : J 0 s)
    (hstep : ∀ k, k < n → ∀ s, J k s → ∃ s2, body (lo + k) s = Outcome.ok s2 ∧ J (k + 1) s2) :
    ∃ s2, forLoopM lo n body s = Outcome.ok s2 ∧ J n s2 := by
  induction n with
  | zero => exact ⟨s, rfl, h0⟩
  | succ n ih =>
    obtain ⟨s1, h1, hJ1⟩ := ih (fun k hk => hstep k (Nat.lt_succ_of_lt hk))
    obtain ⟨s2, h2, hJ2⟩ := hstep n (Nat.lt_succ_self n) s1 hJ1
    refine ⟨s2, ?_, hJ2⟩
    rw [forLoopM_succ, h1]
    exact h2

/-- An invariant indexed by the number of steps done, kept by every step that returns, holds
at the end of a loop that returns. -/
theorem forLoopM_index_inv {σ : Type} (J : Nat → σ → Prop) (lo n : Nat)
    (body : Nat → σ → Outcome σ) (s : σ) (h0 : J 0 s)
    (hstep : ∀ k, k < n → ∀ s s2, J k s → body (lo + k) s = Outcome.ok s2 → J (k + 1) s2) :
    ∀ s2, forLoopM lo n body s = Outcome.ok s2 → J n s2 := by
  induction n with
  | zero =>
    intro s2 h
    cases h
    exact h0
  | succ n ih =>
    intro s2 h
    rw [forLoopM_succ] at h
    cases h1 : forLoopM lo n body s with
    | ok s1 =>
      rw [h1] at h
      exact hstep n (Nat.lt_succ_self n) s1 s2
        (ih (fun k hk => hstep k (Nat.lt_succ_of_lt hk)) s1 h1) h
    | fault f s1 => rw [h1] at h; cases h

/-- The first component of a loop over pairs whose first component is updated on its own. -/
theorem forLoop_fst {α β : Type} (n : Nat) (body : Nat → α × β → α × β) (f : Nat → α → α)
    (hf : ∀ i st, (body i st).1 = f i st.1) (st : α × β) :
    (forLoop n body st).1 = forLoop n f st.1 := by
  induction n with
  | zero => rfl
  | succ n ih => rw [forLoop_succ, forLoop_succ, hf, ih]

theorem List.set_length_append_singleton {α : Type} (l : List α) (a b : α) :
    (l ++ [a]).set l.length b = l ++ [b] := by
  induction l with
  | nil => rfl
  | cons x xs ih => simp [List.set, ih]

theorem List.getD_length_append_singleton {α : Type} (l : List α) (a d : α) :
    (l ++ [a]).getD l.length d = a := by
  induction l with
  | nil => rfl
  | cons x xs ih => simp [ih]

/-- A loop whose steps all return runs through the states they produce. -/
theorem forLoopM_ok_of_steps {σ : Type} (lo n : Nat) (body : Nat → σ → Outcome σ) (st : Nat → σ)
    (hstep : ∀ k, k < n → body (lo + k) (st k) = Outcome.ok (st (k + 1))) :
    forLoopM lo n body (st 0) = Outcome.ok (st n) := by
  induction n with
  | zero => rfl
  | succ n ih =>
    rw [forLoopM_succ, ih (fun k hk => hstep k (Nat.lt_succ_of_lt hk))]
    exact hstep n (Nat.lt_succ_self n)

theorem Outcome.isOk_iff_exists {σ : Type} (o : Outcome σ) :
    o.isOk = true ↔ ∃ s, o = Outcome.ok s := by
  cases o with
  | ok s => simp [Outcome.isOk]
  | fault f s => simp [Outcome.isOk]

theorem Outcome.isOk_false_iff {σ : Type} (o : Outcome σ) :
    o.isOk = false ↔ ∃ f s, o = Outcome.fault f s := by
  cases o with
  | ok s => simp [Outcome.isOk]
  | fault f s => simp [Outcome.isOk]

theorem Blob_Reshape_shape (b : Blob) (shape : List Nat) : (b.Reshape shape).shape = shape := by
  unfold Blob.Reshape
  split <;> rfl

theorem Blob_Reshape_capacity (b : Blob) (shape : List Nat) :
    shape.prod ≤ (b.Reshape shape).cpu_data.length := by
  unfold Blob.Reshape
  split
  · simp
  · simp only; omega

/-! ## NearestNeighborLayer -/

namespace NearestNeighborLayer

theorem plane_offset_lt (H W h w : Nat) (hh : h < 2 * H) (hw : w < 2 * W) :
    h * (2 * W) + w < 2 * H * (2 * W) := by
  have h1 : (h + 1) * (2 * W) ≤ 2 * H * (2 * W) := Nat.mul_le_mul_right _ hh
  have h2 : (h + 1) * (2 * W) = h * (2 * W) + 2 * W := Nat.succ_mul _ _
  omega

theorem nnSource_at (bd : List Dtype) (H W k h w : Nat) (hh : h < 2 * H) (hw : w < 2 * W) :
    nnSource bd H W (k * (2 * H * (2 * W)) + (h * (2 * W) + w)) =
      bd.getD (k * (H * W) + ((h / 2) * W + w / 2)) 0 := by
  have hr := plane_offset_lt H W h w hh hw
  have hT : 0 < 2 * W := by omega
  have hP : 0 < 2 * H * (2 * W) := by omega
  have e1 : (k * (2 * H * (2 * W)) + (h * (2 * W) + w)) / (2 * H * (2 * W)) = k := by
    rw [Nat.mul_comm k, Nat.mul_add_div hP, Nat.div_eq_of_lt hr, Nat.add_zero]
  have e2 : (k * (2 * H * (2 * W)) + (h * (2 * W) + w)) % (2 * H * (2 * W)) =
      h * (2 * W) + w := by
    rw [Nat.mul_comm k, Nat.mul_add_mod, Nat.mod_eq_of_lt hr]
  have e3 : (h * (2 * W) + w) / (2 * W) = h := by
    rw [Nat.mul_comm h, Nat.mul_add_div hT, Nat.div_eq_of_lt hw, Nat.add_zero]
  have e4 : (h * (2 * W) + w) % (2 * W) = w := by
    rw [Nat.mul_comm h, Nat.mul_add_mod, Nat.mod_eq_of_lt hw]
  unfold nnSource
  rw [e1, e2, e3, e4]

/-- One plane: the loops over `h` and `w` fill the plane `k` of the output. -/
theorem planeLoop_fills (l : NearestNeighborLayer) (bd : List Dtype) (H W k : Nat) (c : Cursor)
    (hw : l.width_ = W) (htw : l.top_width_ = 2 * W)
    (hto : c.top_off = k * (2 * H * (2 * W))) (hbo : c.bottom_off = k * (H * W)) :
    Fills (fun j => ∃ h, h < 2 * H ∧ ∃ w, w < 2 * W ∧ j = k * (2 * H * (2 * W)) + (h * (2 * W) + w))
      (nnSource bd H W) c.top_buf (planeLoop l bd (2 * H) (2 * W) c) := by
  unfold planeLoop
  apply Fills.forLoop
  intro h hh buf
  apply Fills.forLoop
  intro w hww buf2
  have hv := nnSource_at bd H W k h w hh hww
  have hf := Fills.set (nnSource bd H W) buf2 (k * (2 * H * (2 * W)) + (h * (2 * W) + w))
    (bd.getD (k * (H * W) + ((h / 2) * W + w / 2)) 0) hv.symm
  simpa [hw, htw, hto, hbo] using hf

/-- The cursor after `m` channel steps from the start of the buffers. -/
theorem channelSteps_fills (l : NearestNeighborLayer) (bottom0 top0 : Blob) (H W : Nat)
    (buf0 : List Dtype) (hw : l.width_ = W) (htw : l.top_width_ = 2 * W)
    (hth : top0.height = 2 * H) (htW : top0.width = 2 * W)
    (hbh : bottom0.height = H) (hbw : bottom0.width = W) (m : Nat) :
    let c := forLoop m (fun _ => channelStep l bottom0 top0)
      { top_buf := buf0, bottom_off := 0, top_off := 0 }
    c.bottom_off = m * (H * W) ∧ c.top_off = m * (2 * H * (2 * W)) ∧
    Fills (fun j => ∃ k, k < m ∧ ∃ h, h < 2 * H ∧ ∃ w, w < 2 * W ∧
        j = k * (2 * H * (2 * W)) + (h * (2 * W) + w))
      (nnSource bottom0.cpu_data H W) buf0 c.top_buf := by
  induction m with
  | zero =>
    refine ⟨by simp [forLoop], by simp [forLoop], ?_⟩
    exact (Fills.refl _ buf0).congr (fun j => ⟨fun h => h.elim, fun ⟨_, hk, _⟩ => by omega⟩)
  | succ m ih =>
    obtain ⟨hb, ht, hf⟩ := ih
    rw [forLoop_succ]
    refine ⟨?_, ?_, ?_⟩
    · simp only [channelStep, Blob.offset, hbh, hbw, hb]
      ring
    · simp only [channelStep, Blob.offset, hth, htW, ht]
      ring
    · have hp := planeLoop_fills l bottom0.cpu_data H W m _ hw htw ht hb
      simp only [channelStep, hth, htW]
      refine (hf.trans hp).congr (fun j => ⟨?_, ?_⟩)
      · rintro (⟨k, hk, hs⟩ | hs)
        · exact ⟨k, Nat.lt_succ_of_lt hk, hs⟩
        · exact ⟨m, Nat.lt_succ_self m, hs⟩
      · rintro ⟨k, hk, hs⟩
        by_cases hkm : k = m
        · subst hkm; exact Or.inr hs
        · exact Or.inl ⟨k, by omega, hs⟩

theorem block_offset_lt (k K r P : Nat) (hk : k < K) (hr : r < P) : k * P + r < K * P := by
  have h1 : (k + 1) * P ≤ K * P := Nat.mul_le_mul_right _ hk
  have h2 : (k + 1) * P = k * P + P := Nat.succ_mul _ _
  omega

theorem legacy_of_shape (b : Blob) (N C H W : Nat) (hshape : b.shape = [N, C, H, W]) :
    b.num = N ∧ b.channels = C ∧ b.height = H ∧ b.width = W := by
  simp [Blob.num, Blob.channels, Blob.height, Blob.width, Blob.LegacyShape, hshape]

/-- What `Reshape` leaves behind for an input of shape `(N, C, H, W)`. -/
theorem Reshape_facts (w : World) (N C H W : Nat) (hshape : w.bottom0.shape = [N, C, H, W]) :
    (Reshape w).layer.width_ = W ∧ (Reshape w).layer.top_width_ = 2 * W ∧
    (Reshape w).bottom0 = w.bottom0 ∧
    (Reshape w).top0.shape = [N, C, 2 * H, 2 * W] ∧
    N * C * (2 * H * (2 * W)) ≤ (Reshape w).top0.cpu_data.length := by
  obtain ⟨hn, hc, hh, hw⟩ := legacy_of_shape w.bottom0 N C H W hshape
  refine ⟨by simp [Reshape, hw], by simp [Reshape, hw], rfl, ?_, ?_⟩
  · simp [Reshape, Blob_Reshape_shape, hn, hc, hh, hw]
  · have h := Blob_Reshape_capacity w.top0 [N, C, 2 * H, 2 * W]
    have e : [N, C, 2 * H, 2 * W].prod = N * C * (2 * H * (2 * W)) := by
      simp [List.prod_cons]; ring
    rw [e] at h
    simpa [Reshape, hn, hc, hh, hw] using h

/-- The output buffer after `Reshape` and `Forward_cpu`, for an input of shape
`(N, C, H, W)`: every offset of the `N * C` output planes holds its nearest-neighbour source. -/
theorem Forward_cpu_fills (w : World) (N C H W : Nat) (hshape : w.bottom0.shape = [N, C, H, W]) :
    Fills (fun j => ∃ k, k < N * C ∧ ∃ h, h < 2 * H ∧ ∃ x, x < 2 * W ∧
        j = k * (2 * H * (2 * W)) + (h * (2 * W) + x))
      (nnSource w.bottom0.cpu_data H W) (Reshape w).top0.cpu_data
      (Forward_cpu (Reshape w)).top0.cpu_data := by
  obtain ⟨hw, htw, hb, hts, _⟩ := Reshape_facts w N C H W hshape
  obtain ⟨hn, hc, hh, hx⟩ := legacy_of_shape (Reshape w).top0 N C (2 * H) (2 * W) hts
  obtain ⟨_, _, hbh, hbw⟩ := legacy_of_shape w.bottom0 N C H W hshape
  have key := channelSteps_fills (Reshape w).layer (Reshape w).bottom0 (Reshape w).top0 H W
    (Reshape w).top0.cpu_data hw htw hh hx (hb ▸ hbh) (hb ▸ hbw) (N * C)
  have hnest := forLoop_nested_const
    (channelStep (Reshape w).layer (Reshape w).bottom0 (Reshape w).top0) N C
    { top_buf := (Reshape w).top0.cpu_data, bottom_off := 0, top_off := 0 }
  have hfw : (Forward_cpu (Reshape w)).top0.cpu_data =
      (forLoop (N * C) (fun _ => channelStep (Reshape w).layer (Reshape w).bottom0 (Reshape w).top0)
        { top_buf := (Reshape w).top0.cpu_data, bottom_off := 0, top_off := 0 }).top_buf := by
    rw [← hnest]
    simp only [Forward_cpu, hn, hc]
  rw [hfw, ← hb]
  exact key.2.2

/-- The output element of plane `k`, row `h`, column `x` after `Reshape` and `Forward_cpu`. -/
theorem Forward_cpu_elem (w : World) (N C H W k h x : Nat)
    (hshape : w.bottom0.shape = [N, C, H, W])
    (hk : k < N * C) (hh : h < 2 * H) (hx : x < 2 * W) :
    (Forward_cpu (Reshape w)).top0.cpu_data[k * (2 * H * (2 * W)) + (h * (2 * W) + x)]? =
      some (w.bottom0.cpu_data.getD (k * (H * W) + ((h / 2) * W + x / 2)) 0) := by
  have hr : h * (2 * W) + x < 2 * H * (2 * W) := block_offset_lt h (2 * H) x (2 * W) hh hx
  have hout : k * (2 * H * (2 * W)) + (h * (2 * W) + x) < (Reshape w).top0.cpu_data.length := by
    have h1 := block_offset_lt k (N * C) _ (2 * H * (2 * W)) hk hr
    have h2 := (Reshape_facts w N C H W hshape).2.2.2.2
    omega
  rw [← nnSource_at w.bottom0.cpu_data H W k h x hh hx]
  exact (Forward_cpu_fills w N C H W hshape).2.2 _ ⟨k, hk, h, hh, x, hx, rfl⟩ hout

/-- The input element of plane `k`, row `i`, column `j` lies within a buffer that holds the
`N*C*H*W` elements of the blob. -/
theorem input_elem (b : Blob) (N C H W k i j : Nat) (hshape : b.shape = [N, C, H, W])
    (hbuf : b.count ≤ b.cpu_data.length) (hk : k < N * C) (hi : i < H) (hj : j < W) :
    b.cpu_data[k * (H * W) + (i * W + j)]? =
      some (b.cpu_data.getD (k * (H * W) + (i * W + j)) 0) := by
  have hq : i * W + j < H * W := block_offset_lt i H j W hi hj
  have hin : k * (H * W) + (i * W + j) < b.cpu_data.length := by
    have h1 := block_offset_lt k (N * C) _ (H * W) hk hq
    have e : b.count = N * C * (H * W) := by
      simp [Blob.count, hshape, List.prod_cons]; ring
    omega
  rw [List.getD_eq_getElem _ _ hin]
  exact List.getElem?_eq_getElem hin

/-- C6. Value law of `NearestNeighborLayer::Forward_cpu` over the flat row-major buffers: for
an input of shape `(N, C, H, W)` whose buffer holds its `N*C*H*W` elements, and every
`n < N`, `c < C`, `h < 2H`, `x < 2W`, after `Reshape` and `Forward_cpu` the output element at
flat offset `((n*C + c)*2H + h)*2W + x` exists and equals the input element at flat offset
`((n*C + c)*H + h/2)*W + x/2`, which exists as well. -/
theorem forward_value_law (w : World) (N C H W n c h x : Nat)
    (hshape : w.bottom0.shape = [N, C, H, W])
    (hbuf : w.bottom0.count ≤ w.bottom0.cpu_data.length)
    (hn : n < N) (hc : c < C) (hh : h < 2 * H) (hx : x < 2 * W) :
    ∃ v, w.bottom0.cpu_data[((n * C + c) * H + h / 2) * W + x / 2]? = some v ∧
      (Forward_cpu (Reshape w)).top0.cpu_data[((n * C + c) * (2 * H) + h) * (2 * W) + x]?
        = some v := by
  have hk : n * C + c < N * C := block_offset_lt n N c C hn hc
  have e1 : ((n * C + c) * H + h / 2) * W + x / 2 =
      (n * C + c) * (H * W) + ((h / 2) * W + x / 2) := by ring
  have e2 : ((n * C + c) * (2 * H) + h) * (2 * W) + x =
      (n * C + c) * (2 * H * (2 * W)) + (h * (2 * W) + x) := by ring
  refine ⟨w.bottom0.cpu_data.getD ((n * C + c) * (H * W) + ((h / 2) * W + x / 2)) 0, ?_, ?_⟩
  · rw [e1]
    exact input_elem w.bottom0 N C H W _ _ _ hshape hbuf hk (by omega) (by omega)
  · rw [e2]
    exact Forward_cpu_elem w N C H W _ h x hshape hk hh hx

/-- Witness of C6 at the test shape `(2, 4, 4, 5)`, coordinate `(1, 3, 7, 9)`. -/
theorem forward_value_law_witness :
    nnTestWorld.bottom0.shape = [2, 4, 4, 5] ∧
    ∃ v, nnTestWorld.bottom0.cpu_data[((1 * 4 + 3) * 4 + 7 / 2) * 5 + 9 / 2]? = some v ∧
      (Forward_cpu (Reshape nnTestWorld)).top0.cpu_data[((1 * 4 + 3) * (2 * 4) + 7) * (2 * 5) + 9]?
        = some v :=
  ⟨rfl, forward_value_law nnTestWorld 2 4 4 5 1 3 7 9 rfl
    (by simp [nnTestWorld, plainBlob, Blob.count]) (by decide) (by decide) (by decide)
    (by decide)⟩

/-- A call of `Reshape` that returns leaves the state `Reshape w`. -/
theorem ReshapeChecked_ok (w s : World) (h : ReshapeChecked w = Outcome.ok s) :
    s = Reshape w := by
  unfold ReshapeChecked at h
  simp only [] at h
  split at h
  · cases h
  · split at h
    · cases h; rfl
    · cases h

/-- Function `Reshape` returns exactly when the doubled extents stay within `int` and
`Blob::Reshape` accepts the output shape. -/
theorem ReshapeChecked_isOk (w : World) :
    (ReshapeChecked w).isOk = true ↔
      2 * w.bottom0.height ≤ INT_MAX ∧ 2 * w.bottom0.width ≤ INT_MAX ∧
      Blob.ReshapeFits [w.bottom0.num, w.bottom0.channels, 2 * w.bottom0.height,
        2 * w.bottom0.width] = true := by
  unfold ReshapeChecked
  simp only []
  by_cases h1 : INT_MAX < 2 * w.bottom0.height ∨ INT_MAX < 2 * w.bottom0.width
  · rw [if_pos h1]
    constructor
    · intro h; cases h
    · rintro ⟨a, b, _⟩; omega
  · rw [if_neg h1]
    by_cases h2 : Blob.ReshapeFits [w.bottom0.num, w.bottom0.channels, 2 * w.bottom0.height,
        2 * w.bottom0.width] = true
    · rw [if_pos h2]
      exact ⟨fun _ => ⟨by omega, by omega, h2⟩, fun _ => rfl⟩
    · rw [if_neg h2]
      constructor
      · intro h; cases h
      · rintro ⟨_, _, c⟩; exact absurd c h2

/-- A shape of four positive extents whose product fits `int` is accepted by `Blob::Reshape`. -/
theorem ReshapeFits_of_count (a b c d : Nat) (ha : 0 < a) (hb : 0 < b) (hc : 0 < c)
    (hd : 0 < d) (h : a * b * c * d ≤ INT_MAX) : Blob.ReshapeFits [a, b, c, d] = true := by
  have h3 : a * b * c ≤ INT_MAX := le_trans (Nat.le_mul_of_pos_right _ hd) h
  have h2 : a * b ≤ INT_MAX := le_trans (Nat.le_mul_of_pos_right _ hc) h3
  have h1 : a ≤ INT_MAX := le_trans (Nat.le_mul_of_pos_right _ hb) h2
  have p1 : 0 < 1 * a := by omega
  have p2 : 0 < 1 * a * b := Nat.mul_pos p1 hb
  have p3 : 0 < 1 * a * b * c := Nat.mul_pos p2 hc
  have e1 : a ≤ INT_MAX / 1 := by rw [Nat.div_one]; exact h1
  have e2 : b ≤ INT_MAX / (1 * a) := (Nat.le_div_iff_mul_le p1).mpr (by
    rw [Nat.one_mul, Nat.mul_comm]; exact h2)
  have e3 : c ≤ INT_MAX / (1 * a * b) := (Nat.le_div_iff_mul_le p2).mpr (by
    rw [Nat.one_mul, Nat.mul_comm]; exact h3)
  have e4 : d ≤ INT_MAX / (1 * a * b * c) := (Nat.le_div_iff_mul_le p3).mpr (by
    rw [Nat.one_mul, Nat.mul_comm]; exact h)
  simp only [Nat.one_mul] at e2 e3 e4
  simp only [Blob.ReshapeFits, Blob.ReshapeFitsFrom, Nat.one_mul, Nat.div_one, Bool.and_true,
    Bool.and_eq_true, decide_eq_true_eq]
  exact ⟨Or.inr h1, Or.inr e2, Or.inr e3, Or.inr e4⟩

/-- Counterexample to C7 as stated: the input of shape `(1, 1, 2^30, 0)`, a shape that
`Blob::Reshape` accepts (no elements). Function `Reshape` halts at `2 * height_`, which
exceeds `INT_MAX`, so it does not set the output shape to `(1, 1, 2^31, 0)`. -/
theorem reshape_overflow_counterexample :
    nnWrapWorld.bottom0.shape = [1, 1, 1073741824, 0] ∧
    Blob.ReshapeFits nnWrapWorld.bottom0.shape = true ∧
    ReshapeChecked nnWrapWorld = Outcome.fault Fault.int_overflow nnWrapWorld ∧
    ¬ ∃ s, ReshapeChecked nnWrapWorld = Outcome.ok s ∧
      s.top0.shape = [1, 1, 2 * 1073741824, 2 * 0] := by
  refine ⟨rfl, by decide, by decide, ?_⟩
  rintro ⟨s, hs, _⟩
  have h : ReshapeChecked nnWrapWorld = Outcome.fault Fault.int_overflow nnWrapWorld := by
    decide
  rw [h] at hs
  cases hs

/-- C7 as amended. Shape law of `NearestNeighborLayer::Reshape` with the `int` arithmetic of
the source: for an input of shape `(N, C, H, W)` the call returns exactly when `2H` and `2W`
are at most `INT_MAX` and `Blob::Reshape` accepts `(N, C, 2H, 2W)` (which it does when the
four extents are positive and `4*N*C*H*W` is at most `INT_MAX`), and otherwise halts; when
it returns, the output shape is exactly `(N, C, 2H, 2W)`, so the output element count is 4
times the input element count. -/
theorem reshape_shape_law (w : World) (N C H W : Nat) (hshape : w.bottom0.shape = [N, C, H, W]) :
    ((ReshapeChecked w).isOk = true ↔
      2 * H ≤ INT_MAX ∧ 2 * W ≤ INT_MAX ∧ Blob.ReshapeFits [N, C, 2 * H, 2 * W] = true) ∧
    (0 < N → 0 < C → 0 < H → 0 < W → 4 * (N * C * H * W) ≤ INT_MAX →
      (ReshapeChecked w).isOk = true) ∧
    (∀ s, ReshapeChecked w = Outcome.ok s →
      s = Reshape w ∧ s.top0.shape = [N, C, 2 * H, 2 * W] ∧
      s.top0.count = 4 * w.bottom0.count) := by
  obtain ⟨hn, hc, hh, hw⟩ := legacy_of_shape w.bottom0 N C H W hshape
  have hiff := ReshapeChecked_isOk w
  rw [hn, hc, hh, hw] at hiff
  refine ⟨hiff, ?_, ?_⟩
  · intro pn pc ph pw hcnt
    have e : N * C * (2 * H) * (2 * W) = 4 * (N * C * H * W) := by ring
    have hfit := ReshapeFits_of_count N C (2 * H) (2 * W) pn pc (by omega) (by omega)
      (by rw [e]; exact hcnt)
    have hH : 2 * H ≤ INT_MAX := by
      have h1 : 2 * H ≤ N * C * (2 * H) := Nat.le_mul_of_pos_left _ (Nat.mul_pos pn pc)
      have h2 : N * C * (2 * H) ≤ N * C * (2 * H) * (2 * W) :=
        Nat.le_mul_of_pos_right _ (by omega)
      omega
    have hW : 2 * W ≤ INT_MAX := by
      have h1 : 2 * W ≤ N * C * (2 * H) * (2 * W) :=
        Nat.le_mul_of_pos_left _ (Nat.mul_pos (Nat.mul_pos pn pc) (by omega))
      omega
    exact hiff.mpr ⟨hH, hW, hfit⟩
  · intro s hs
    have hsr := ReshapeChecked_ok w s hs
    subst hsr
    have hsh := (Reshape_facts w N C H W hshape).2.2.2.1
    refine ⟨rfl, hsh, ?_⟩
    simp only [Blob.count, hsh, hshape, List.prod_cons, List.prod_nil]
    ring

/-- Witness of C7 at the test shape `(2, 4, 4, 5)`: the call returns with the output shape
`(2, 4, 8, 10)`. -/
theorem reshape_shape_law_witness :
    nnTestWorld.bottom0.shape = [2, 4, 4, 5] ∧
    (ReshapeChecked nnTestWorld).isOk = true ∧
    (∀ s, ReshapeChecked nnTestWorld = Outcome.ok s →
      s = Reshape nnTestWorld ∧ s.top0.shape = [2, 4, 2 * 4, 2 * 5] ∧
      s.top0.count = 4 * nnTestWorld.bottom0.count) :=
  ⟨rfl,
    (reshape_shape_law nnTestWorld 2 4 4 5 rfl).2.1 (by decide) (by decide) (by decide)
      (by decide) (by decide),
    (reshape_shape_law nnTestWorld 2 4 4 5 rfl).2.2⟩

/-- C8. `NearestNeighborLayer::Backward_cpu` halts for every state (output gradient, inputs)
and every propagate vector: it never returns normally, the fault is the not-implemented one,
and the state, with every input gradient in it, is the one it was called with. -/
theorem backward_always_faults (w : World) (propagate_down : List Bool) :
    (Backward_cpu w propagate_down).isOk = false ∧
    (Backward_cpu w propagate_down).fault? = some Fault.not_implemented ∧
    (Backward_cpu w propagate_down).state = w :=
  ⟨rfl, rfl, rfl⟩

/-- Counterexample to C9 at the test shape `(2, 4, 4, 5)` with an output gradient of ones:
the backward pass does not complete, so there is no final state in which the gradient of the
input element `(0, 0, 0, 0)` is the sum of the output gradient over its 2x2 block. -/
theorem gradient_check_counterexample :
    ¬ ∃ s : World,
      Backward_cpu
        { (Forward_cpu (Reshape nnTestWorld)) with
          top0 := { (Forward_cpu (Reshape nnTestWorld)).top0 with
            cpu_diff := List.replicate 640 1 } } [true] = Outcome.ok s ∧
      s.bottom0.cpu_diff[0]? = some (1 + 1 + 1 + 1) := by
  rintro ⟨s, hs, _⟩
  cases hs

/-- C9 as amended. For an input of shape `(N, C, H, W)` whose buffer holds its elements, the
forward pass copies the input element `(n, c, i, j)` to the four outputs `(2i, 2j)`,
`(2i, 2j+1)`, `(2i+1, 2j)`, `(2i+1, 2j+1)` of its 2x2 block, and the backward pass on the CPU,
for every output gradient `g` and propagate vector, halts as not implemented and leaves the
gradient of the input as it was. -/
theorem forward_block_and_backward_unimplemented (w : World) (N C H W n c i j : Nat)
    (g : List Dtype) (propagate_down : List Bool)
    (hshape : w.bottom0.shape = [N, C, H, W])
    (hbuf : w.bottom0.count ≤ w.bottom0.cpu_data.length)
    (hn : n < N) (hc : c < C) (hi : i < H) (hj : j < W) :
    (∃ v, w.bottom0.cpu_data[((n * C + c) * H + i) * W + j]? = some v ∧
      ∀ a, a < 2 → ∀ b, b < 2 →
        (Forward_cpu (Reshape w)).top0.cpu_data[
          ((n * C + c) * (2 * H) + (2 * i + a)) * (2 * W) + (2 * j + b)]? = some v) ∧
    (let wg : World := { (Forward_cpu (Reshape w)) with
        top0 := { (Forward_cpu (Reshape w)).top0 with cpu_diff := g } }
     (Backward_cpu wg propagate_down).fault? = some Fault.not_implemented ∧
     (Backward_cpu wg propagate_down).state.bottom0.cpu_diff = w.bottom0.cpu_diff) := by
  refine ⟨?_, rfl, rfl⟩
  have hk : n * C + c < N * C := block_offset_lt n N c C hn hc
  have e1 : ((n * C + c) * H + i) * W + j = (n * C + c) * (H * W) + (i * W + j) := by ring
  refine ⟨w.bottom0.cpu_data.getD ((n * C + c) * (H * W) + (i * W + j)) 0, ?_, ?_⟩
  · rw [e1]
    exact input_elem w.bottom0 N C H W _ i j hshape hbuf hk hi hj
  · intro a ha b hb
    have e2 : ((n * C + c) * (2 * H) + (2 * i + a)) * (2 * W) + (2 * j + b) =
        (n * C + c) * (2 * H * (2 * W)) + ((2 * i + a) * (2 * W) + (2 * j + b)) := by ring
    have e3 : (2 * i + a) / 2 = i := by omega
    have e4 : (2 * j + b) / 2 = j := by omega
    have hel := Forward_cpu_elem w N C H W (n * C + c) (2 * i + a) (2 * j + b) hshape hk
      (by omega) (by omega)
    rw [e3, e4] at hel
    rw [e2]
    exact hel

/-- Witness of the amended C9 at the test shape `(2, 4, 4, 5)`, input element `(1, 3, 3, 4)`. -/
theorem forward_block_and_backward_unimplemented_witness :
    nnTestWorld.bottom0.shape = [2, 4, 4, 5] ∧
    (∃ v, nnTestWorld.bottom0.cpu_data[((1 * 4 + 3) * 4 + 3) * 5 + 4]? = some v ∧
      ∀ a, a < 2 → ∀ b, b < 2 →
        (Forward_cpu (Reshape nnTestWorld)).top0.cpu_data[
          ((1 * 4 + 3) * (2 * 4) + (2 * 3 + a)) * (2 * 5) + (2 * 4 + b)]? = some v) ∧
    (let wg : World := { (Forward_cpu (Reshape nnTestWorld)) with
        top0 := { (Forward_cpu (Reshape nnTestWorld)).top0 with cpu_diff := List.replicate 640 1 } }
     (Backward_cpu wg [true]).fault? = some Fault.not_implemented ∧
     (Backward_cpu wg [true]).state.bottom0.cpu_diff = nnTestWorld.bottom0.cpu_diff) :=
  ⟨rfl, forward_block_and_backward_unimplemented nnTestWorld 2 4 4 5 1 3 3 4
    (List.replicate 640 1) [true] rfl (by simp [nnTestWorld, plainBlob, Blob.count])
    (by decide) (by decide) (by decide) (by decide)⟩

end NearestNeighborLayer

/-! ## MKLEltwiseLayer: setup and reshape -/

namespace MKLEltwiseLayer

theorem setupDescrStep_bottom (dim : Nat) (ss : List Nat × List Nat) (i : Nat) (w : World) :
    (setupDescrStep dim ss i w).state.bottom = w.bottom := by
  unfold setupDescrStep
  simp only []
  split <;> rfl

theorem setupDescrStep_isOk (dim : Nat) (ss : List Nat × List Nat) (i : Nat) (w : World) :
    (setupDescrStep dim ss i w).isOk = true ↔ dim = (w.bottomAt i).shape.length := by
  unfold setupDescrStep
  have e : World.bottomAt { w with layer := { w.layer with
      fwd_bottom_data := w.layer.fwd_bottom_data ++ [MKLData.fresh] } } i = w.bottomAt i := rfl
  simp only [e]
  by_cases h : dim = (w.bottomAt i).shape.length
  · rw [if_pos h]; simp [Outcome.isOk, h]
  · rw [if_neg h]; simp [Outcome.isOk, h]

theorem setupLayouts_isOk (w : World) (hN : 1 ≤ w.bottom.length)
    (hn : w.layer.num_bottoms = w.bottom.length) :
    (setupLayouts w).isOk = true ↔
      ∀ i, i < w.bottom.length → (w.bottomAt i).shape.length = (w.bottomAt 0).shape.length := by
  unfold setupLayouts
  cases hbot : w.bottom with
  | nil => rw [hbot] at hN; simp at hN
  | cons b0 rest =>
    simp only []
    have h0 : w.bottomAt 0 = b0 := by simp [World.bottomAt, hbot]
    have hloop := forLoopM_isOk_iff (fun s : World => s.bottom = w.bottom)
      (fun i => b0.shape.length = (w.bottomAt i).shape.length) 0 w.layer.num_bottoms
      (setupDescrStep b0.shape.length (sizesStrides b0.shape)) w rfl
      (fun i s hs => (setupDescrStep_bottom _ _ i s).trans hs)
      (fun i s hs => by
        rw [setupDescrStep_isOk]
        simp only [World.bottomAt, hs])
    rw [← hbot, ← hn, h0]
    cases hl : forLoopM 0 w.layer.num_bottoms
        (setupDescrStep b0.shape.length (sizesStrides b0.shape)) w with
    | ok s1 =>
      rw [hl] at hloop
      simp only [Outcome.andThen, setupTopLayout, Outcome.isOk, true_iff]
      intro i hi
      have := hloop.1 rfl i hi
      simp only [Nat.zero_add] at this
      exact this.symm
    | fault f s1 =>
      rw [hl] at hloop
      simp only [Outcome.andThen, Outcome.isOk]
      constructor
      · intro hf; cases hf
      · intro hall
        have := hloop.2 (fun k hk => by simp only [Nat.zero_add]; exact (hall k hk).symm)
        cases this

/-- C4. Setup validation of `MKLEltwiseLayer::LayerSetUp`: with `N >= 1` inputs, setup returns
normally if and only if the selector is SUM, the coefficient list has length 0 or `N`, and
every input has as many dimensions as the first input. -/
theorem setup_ok_iff (w : World) (hN : 1 ≤ w.bottom.length) :
    (LayerSetUp w).isOk = true ↔
      (w.layer.layer_param_.operation = EltwiseOp.SUM ∧
       (w.layer.layer_param_.coeff.length = 0 ∨
        w.layer.layer_param_.coeff.length = w.bottom.length) ∧
       ∀ i, i < w.bottom.length → (w.bottomAt i).shape.length = (w.bottomAt 0).shape.length) := by
  unfold LayerSetUp
  simp only [EltwiseParameter.coeff_size]
  by_cases hc : w.layer.layer_param_.coeff.length = 0 ∨
      w.layer.layer_param_.coeff.length = w.bottom.length
  swap
  · rw [if_pos hc]
    simp only [Outcome.isOk]
    constructor
    · intro hf; cases hf
    · intro h; exact absurd h.2.1 hc
  rw [if_neg (not_not.mpr hc)]
  by_cases hop : w.layer.layer_param_.operation = EltwiseOp.SUM
  swap
  · have hf : ∀ o : Outcome World, (o = Outcome.fault Fault.coeff_with_prod w ∨
        o = Outcome.fault Fault.not_sum w) → (o.isOk = true ↔
          (w.layer.layer_param_.operation = EltwiseOp.SUM ∧
           (w.layer.layer_param_.coeff.length = 0 ∨
            w.layer.layer_param_.coeff.length = w.bottom.length) ∧
           ∀ i, i < w.bottom.length →
            (w.bottomAt i).shape.length = (w.bottomAt 0).shape.length)) := by
      intro o ho
      rcases ho with rfl | rfl <;> simp [Outcome.isOk, hop]
    apply hf
    by_cases hp : w.layer.layer_param_.operation = EltwiseOp.PROD ∧
        w.layer.layer_param_.coeff.length ≠ 0
    · left; rw [if_pos hp]
    · right; rw [if_neg hp, if_pos hop]
  have hp : ¬ (w.layer.layer_param_.operation = EltwiseOp.PROD ∧
      w.layer.layer_param_.coeff.length ≠ 0) := by
    rw [hop]; simp
  rw [if_neg hp, if_neg (not_not.mpr hop)]
  have h := setupLayouts_isOk (setupMembers w) hN rfl
  rw [h]
  simp only [hop, hc, true_and]
  exact Iff.rfl

/-- Witness of C4 on the end-to-end example (two inputs, SUM, coefficients `[1, 1]`). -/
theorem setup_ok_iff_witness :
    1 ≤ eltTestWorld.bottom.length ∧
    ((LayerSetUp eltTestWorld).isOk = true ↔
      (eltTestWorld.layer.layer_param_.operation = EltwiseOp.SUM ∧
       (eltTestWorld.layer.layer_param_.coeff.length = 0 ∨
        eltTestWorld.layer.layer_param_.coeff.length = eltTestWorld.bottom.length) ∧
       ∀ i, i < eltTestWorld.bottom.length →
        (eltTestWorld.bottomAt i).shape.length = (eltTestWorld.bottomAt 0).shape.length)) :=
  ⟨Nat.succ_le_succ (Nat.zero_le _), setup_ok_iff eltTestWorld (Nat.succ_le_succ (Nat.zero_le _))⟩

theorem reshapeCheck_state (i : Nat) (w : World) : (reshapeCheck i w).state = w := by
  unfold reshapeCheck
  split <;> rfl

theorem reshapeCheck_isOk (i : Nat) (w : World) :
    (reshapeCheck i w).isOk = true ↔ (w.bottomAt i).shape = (w.bottomAt 0).shape := by
  unfold reshapeCheck
  by_cases h : (w.bottomAt i).shape = (w.bottomAt 0).shape
  · rw [if_pos h]; simp [Outcome.isOk, h]
  · rw [if_neg h]; simp [Outcome.isOk, h]

theorem reshapeTop_ok (w : World) (hN : 1 ≤ w.bottom.length) :
    ∃ s, reshapeTop w = Outcome.ok s ∧ s.top0 = w.top0.ReshapeLike (w.bottomAt 0) ∧
      s.bottom = w.bottom := by
  unfold reshapeTop
  cases hbot : w.bottom with
  | nil => rw [hbot] at hN; simp at hN
  | cons b0 rest =>
    have h0 : w.bottomAt 0 = b0 := by simp [World.bottomAt, hbot]
    simp only [h0]
    split
    · exact ⟨_, rfl, rfl, rfl⟩
    · exact ⟨_, rfl, rfl, rfl⟩

/-- C5. Reshape validation of `MKLEltwiseLayer::Reshape`: with `N >= 1` inputs, `Reshape` halts
if and only if the shape of some input differs from the shape of the first input; when it
halts the output blob is the one it was called with (the halt comes before the output is
resized), and when it returns the shape of the output is the shape of the first input. -/
theorem reshape_fault_iff (w : World) (hN : 1 ≤ w.bottom.length) :
    ((Reshape w).isOk = false ↔
      ∃ i, i < w.bottom.length ∧ (w.bottomAt i).shape ≠ (w.bottomAt 0).shape) ∧
    ((Reshape w).isOk = false → (Reshape w).state.top0 = w.top0) ∧
    ((Reshape w).isOk = true → (Reshape w).state.top0.shape = (w.bottomAt 0).shape) := by
  have hst := forLoopM_state_inv (fun s : World => s = w) 1 (w.bottom.length - 1) reshapeCheck w
    rfl (fun i s hs => (reshapeCheck_state i s).trans hs)
  have hloop := forLoopM_isOk_iff (fun s : World => s = w)
    (fun i => (w.bottomAt i).shape = (w.bottomAt 0).shape) 1 (w.bottom.length - 1)
    reshapeCheck w rfl (fun i s hs => (reshapeCheck_state i s).trans hs)
    (fun i s hs => by rw [reshapeCheck_isOk, hs])
  cases hl : forLoopM 1 (w.bottom.length - 1) reshapeCheck w with
  | ok s1 =>
    rw [hl] at hst hloop
    have hs1 : s1 = w := hst
    subst hs1
    obtain ⟨s2, hs2, htop, _⟩ := reshapeTop_ok s1 hN
    have hall := hloop.1 rfl
    have hR : Reshape s1 = Outcome.ok s2 := by
      unfold Reshape; rw [hl]; exact hs2
    rw [hR]
    refine ⟨⟨fun hf => by simp [Outcome.isOk] at hf, ?_⟩,
      fun hf => by simp [Outcome.isOk] at hf, fun _ => ?_⟩
    · rintro ⟨i, hi, hne⟩
      rcases Nat.eq_zero_or_pos i with h0 | hpos
      · subst h0; exact absurd rfl hne
      · have := hall (i - 1) (by omega)
        have e : 1 + (i - 1) = i := by omega
        simp only [e] at this
        exact absurd this hne
    · show s2.top0.shape = _
      rw [htop]
      exact Blob_Reshape_shape _ _
  | fault f s1 =>
    rw [hl] at hst hloop
    have hs1 : s1 = w := hst
    subst hs1
    have hR : Reshape s1 = Outcome.fault f s1 := by
      unfold Reshape; rw [hl]; rfl
    rw [hR]
    refine ⟨⟨fun _ => ?_, fun _ => rfl⟩, fun _ => rfl, fun hf => by simp [Outcome.isOk] at hf⟩
    by_contra hno
    have hall : ∀ k, k < s1.bottom.length - 1 →
        (s1.bottomAt (1 + k)).shape = (s1.bottomAt 0).shape := by
      intro k hk
      by_contra hne
      exact hno ⟨1 + k, by omega, hne⟩
    have := hloop.2 hall
    simp [Outcome.isOk] at this

/-- Witness of C5 on the end-to-end example (two inputs of shape `(2, 4, 4, 5)`). -/
theorem reshape_fault_iff_witness :
    1 ≤ eltTestWorld.bottom.length ∧
    ((Reshape eltTestWorld).isOk = false ↔
      ∃ i, i < eltTestWorld.bottom.length ∧
        (eltTestWorld.bottomAt i).shape ≠ (eltTestWorld.bottomAt 0).shape) ∧
    ((Reshape eltTestWorld).isOk = false → (Reshape eltTestWorld).state.top0 = eltTestWorld.top0) ∧
    ((Reshape eltTestWorld).isOk = true →
      (Reshape eltTestWorld).state.top0.shape = (eltTestWorld.bottomAt 0).shape) :=
  ⟨Nat.succ_le_succ (Nat.zero_le _),
    reshape_fault_iff eltTestWorld (Nat.succ_le_succ (Nat.zero_le _))⟩

/-! ## MKLEltwiseLayer: what a successful setup establishes -/

theorem readCoeffs_eq (param : EltwiseParameter) (n : Nat) (hlen : param.coeff.length = n) :
    readCoeffs param n (List.replicate n 1) = param.coeff := by
  have hf : Fills (fun j => ∃ i, i < n ∧ j = i) (fun j => param.coeff.getD j 0)
      (List.replicate n 1) (readCoeffs param n (List.replicate n 1)) := by
    unfold readCoeffs
    apply Fills.forLoop
    intro i _ buf
    exact Fills.set _ buf i _ rfl
  apply List.ext_getElem?
  intro j
  by_cases hj : j < n
  · rw [hf.2.2 j ⟨j, hj, rfl⟩ (by simpa using hj)]
    have hj2 : j < param.coeff.length := by omega
    beta_reduce
    rw [List.getD_eq_getElem _ _ hj2]
    exact (List.getElem?_eq_getElem hj2).symm
  · have h1 : (readCoeffs param n (List.replicate n 1)).length ≤ j := by
      rw [hf.1]; simp; omega
    rw [List.getElem?_eq_none h1, List.getElem?_eq_none (by omega)]

/-- The coefficients in force after setup: ones when none are supplied, else the supplied
list. -/
theorem setupMembers_coeffs (w : World)
    (hc : w.layer.layer_param_.coeff.length = 0 ∨
      w.layer.layer_param_.coeff.length = w.bottom.length) :
    (setupMembers w).layer.coeffs_ =
      if w.layer.layer_param_.coeff = [] then List.replicate w.bottom.length 1
      else w.layer.layer_param_.coeff := by
  unfold setupMembers
  simp only [EltwiseParameter.coeff_size]
  by_cases h0 : w.layer.layer_param_.coeff = []
  · simp [h0]
  · have hne : w.layer.layer_param_.coeff.length ≠ 0 := by
      intro h; exact h0 (List.length_eq_zero.mp h)
    rw [if_pos hne, if_neg h0]
    exact readCoeffs_eq _ _ (hc.resolve_left hne)

theorem SameCore_refl (w : World) : SameCore w w :=
  ⟨rfl, rfl, rfl, rfl, rfl, rfl, rfl, rfl, rfl, rfl⟩

theorem SameCore_trans {a b c : World} (h1 : SameCore a b) (h2 : SameCore b c) :
    SameCore a c := by
  obtain ⟨a1, a2, a3, a4, a5, a6, a7, a8, a9, a10⟩ := h1
  obtain ⟨b1, b2, b3, b4, b5, b6, b7, b8, b9, b10⟩ := h2
  exact ⟨b1.trans a1, b2.trans a2, b3.trans a3, b4.trans a4, b5.trans a5, b6.trans a6,
    b7.trans a7, b8.trans a8, b9.trans a9, b10.trans a10⟩

theorem setupDescrStep_frame (dim : Nat) (ss : List Nat × List Nat) (i : Nat) (w : World) :
    SameCore w (setupDescrStep dim ss i w).state := by
  unfold setupDescrStep
  simp only []
  split
  · exact ⟨rfl, rfl, rfl, rfl, rfl, rfl, rfl, rfl, rfl, rfl⟩
  · exact ⟨rfl, rfl, rfl, rfl, rfl, rfl, rfl, rfl, rfl, rfl⟩

theorem setupLayouts_frame (w : World) : SameCore w (setupLayouts w).state := by
  unfold setupLayouts
  split
  · exact SameCore_refl w
  · rename_i b0 rest _
    simp only []
    have hst := forLoopM_state_inv (fun s : World => SameCore w s) 0
      w.layer.num_bottoms (setupDescrStep b0.shape.length (sizesStrides b0.shape)) w
      (SameCore_refl w) (fun i s hs => SameCore_trans hs (setupDescrStep_frame _ _ i s))
    cases hl : forLoopM 0 w.layer.num_bottoms
        (setupDescrStep b0.shape.length (sizesStrides b0.shape)) w with
    | ok s1 =>
      rw [hl] at hst
      exact SameCore_trans hst ⟨rfl, rfl, rfl, rfl, rfl, rfl, rfl, rfl, rfl, rfl⟩
    | fault f s1 =>
      rw [hl] at hst
      exact hst

/-- What a successful `LayerSetUp` establishes: the selector stored is SUM, there is one
coefficient per input (ones when none were supplied, else the supplied ones), and the
inputs, the output, the plan handle and the trace are as before. -/
theorem setup_ok_facts (w0 w1 : World) (hsetup : LayerSetUp w0 = Outcome.ok w1) :
    w1.layer.op_ = EltwiseOp.SUM ∧
    w1.layer.coeffs_ = (if w0.layer.layer_param_.coeff = [] then
        List.replicate w0.bottom.length 1 else w0.layer.layer_param_.coeff) ∧
    w1.layer.coeffs_.length = w0.bottom.length ∧
    w1.layer.num_bottoms = w0.bottom.length ∧
    w1.bottom = w0.bottom ∧ w1.top0 = w0.top0 ∧ w1.trace = w0.trace ∧
    w1.layer.sumPrimitive = w0.layer.sumPrimitive ∧
    w1.layer.layer_param_ = w0.layer.layer_param_ := by
  unfold LayerSetUp at hsetup
  simp only [EltwiseParameter.coeff_size] at hsetup
  by_cases hc : w0.layer.layer_param_.coeff.length = 0 ∨
      w0.layer.layer_param_.coeff.length = w0.bottom.length
  swap
  · rw [if_pos hc] at hsetup; cases hsetup
  rw [if_neg (not_not.mpr hc)] at hsetup
  by_cases hp : w0.layer.layer_param_.operation = EltwiseOp.PROD ∧
      w0.layer.layer_param_.coeff.length ≠ 0
  · rw [if_pos hp] at hsetup; cases hsetup
  rw [if_neg hp] at hsetup
  by_cases hop : w0.layer.layer_param_.operation = EltwiseOp.SUM
  swap
  · rw [if_pos hop] at hsetup; cases hsetup
  rw [if_neg (not_not.mpr hop)] at hsetup
  have hfr := setupLayouts_frame (setupMembers w0)
  rw [hsetup] at hfr
  obtain ⟨f1, f2, f3, f4, f5, f6, _, f8, f9, _⟩ := hfr
  have g1 : (Outcome.ok w1 : Outcome World).state = w1 := rfl
  rw [g1] at f1 f2 f3 f4 f5 f6 f8 f9
  have hco := setupMembers_coeffs w0 hc
  have hlen : (setupMembers w0).layer.coeffs_.length = w0.bottom.length := by
    rw [hco]
    by_cases h0 : w0.layer.layer_param_.coeff = []
    · simp [h0]
    · rw [if_neg h0]
      have hne : w0.layer.layer_param_.coeff.length ≠ 0 := by
        intro h; exact h0 (List.length_eq_zero.mp h)
      exact hc.resolve_left hne
  refine ⟨f5.trans hop, f6.trans hco, ?_, f8, f1, f2, f3, f9, f4⟩
  rw [f6]; exact hlen

/-! ## MKLEltwiseLayer: backward -/

theorem bottomAt_setBottom_ne (w : World) (i j : Nat) (b : Blob) (h : i ≠ j) :
    (w.setBottom i b).bottomAt j = w.bottomAt j := by
  simp only [World.bottomAt, World.setBottom, List.getD_eq_getElem?_getD]
  rw [List.getElem?_set_ne h]

theorem bottomAt_setBottom_self (w : World) (i : Nat) (b : Blob) (h : i < w.bottom.length) :
    (w.setBottom i b).bottomAt i = b := by
  simp only [World.bottomAt, World.setBottom, List.getD_eq_getElem?_getD]
  rw [List.getElem?_set_self h]
  rfl

/-- The three ways a step of the backward loop can go when the selector is SUM. -/
theorem backwardStep_cases (p : List Bool) (i : Nat) (w : World)
    (hop : w.layer.op_ = EltwiseOp.SUM) :
    (p[i]? = some false ∧ backwardStep p i w = Outcome.ok w) ∨
    (p[i]? = some true ∧ w.layer.coeffs_[i]? = some 1 ∧
      backwardStep p i w = Outcome.ok (writeDiff w i)) ∨
    ((p[i]? = none ∨ (p[i]? = some true ∧ w.layer.coeffs_[i]? ≠ some 1)) ∧
      ∃ f, backwardStep p i w = Outcome.fault f w) := by
  unfold backwardStep
  cases hp : p[i]? with
  | none => exact Or.inr (Or.inr ⟨Or.inl rfl, _, rfl⟩)
  | some b =>
    cases b with
    | false => exact Or.inl ⟨rfl, rfl⟩
    | true =>
      rw [hop]
      cases hc : w.layer.coeffs_[i]? with
      | none => exact Or.inr (Or.inr ⟨Or.inr ⟨rfl, by simp⟩, _, rfl⟩)
      | some c =>
        by_cases h1 : c = 1
        · subst h1
          exact Or.inr (Or.inl ⟨rfl, rfl, by simp⟩)
        · refine Or.inr (Or.inr ⟨Or.inr ⟨rfl, ?_⟩, Fault.coeff_not_one, ?_⟩)
          · intro h; exact h1 (Option.some.inj h)
          · simp [h1]

/-- The check a step of the backward loop makes on input `i`. -/
theorem backwardStep_isOk (p : List Bool) (i : Nat) (w : World)
    (hop : w.layer.op_ = EltwiseOp.SUM) :
    (backwardStep p i w).isOk = true ↔
      (p[i]? = some false ∨ (p[i]? = some true ∧ w.layer.coeffs_[i]? = some 1)) := by
  rcases backwardStep_cases p i w hop with ⟨h1, h2⟩ | ⟨h1, h2, h3⟩ | ⟨h1, f, h2⟩
  · rw [h2]; simp [Outcome.isOk, h1]
  · rw [h3]; simp [Outcome.isOk, h1, h2]
  · rw [h2]
    simp only [Outcome.isOk]
    constructor
    · intro hf; cases hf
    · rintro (h | ⟨h, hc⟩)
      · rcases h1 with h1 | ⟨h1, _⟩ <;> rw [h1] at h <;> cases h
      · rcases h1 with h1 | ⟨_, h1⟩
        · rw [h1] at h; cases h
        · exact absurd hc h1

/-- A step of the backward loop changes nothing but the blob `bottom[i]`. -/
theorem backwardStep_frame (p : List Bool) (i : Nat) (w : World)
    (hop : w.layer.op_ = EltwiseOp.SUM) :
    (backwardStep p i w).state.layer = w.layer ∧ (backwardStep p i w).state.top0 = w.top0 ∧
    (backwardStep p i w).state.bottom.length = w.bottom.length ∧
    ∀ j, j ≠ i → (backwardStep p i w).state.bottomAt j = w.bottomAt j := by
  rcases backwardStep_cases p i w hop with ⟨_, h2⟩ | ⟨_, _, h3⟩ | ⟨_, f, h2⟩
  · rw [h2]; exact ⟨rfl, rfl, rfl, fun _ _ => rfl⟩
  · rw [h3]
    refine ⟨rfl, rfl, ?_, fun j hj => ?_⟩
    · simp [Outcome.state, writeDiff, World.setBottom]
    · exact bottomAt_setBottom_ne _ _ _ _ (Ne.symm hj)
  · rw [h2]; exact ⟨rfl, rfl, rfl, fun _ _ => rfl⟩

/-- The backward loop returns exactly when every step passes its check. -/
theorem Backward_cpu_isOk (w : World) (p : List Bool) (hop : w.layer.op_ = EltwiseOp.SUM) :
    (Backward_cpu w p).isOk = true ↔
      ∀ k, k < w.bottom.length →
        (p[k]? = some false ∨ (p[k]? = some true ∧ w.layer.coeffs_[k]? = some 1)) := by
  have h := forLoopM_isOk_iff (fun s : World => s.layer = w.layer)
    (fun i => p[i]? = some false ∨ (p[i]? = some true ∧ w.layer.coeffs_[i]? = some 1))
    0 w.bottom.length (backwardStep p) w rfl
    (fun i s hs => ((backwardStep_frame p i s (by rw [hs]; exact hop)).1).trans hs)
    (fun i s hs => by
      rw [backwardStep_isOk p i s (by rw [hs]; exact hop), hs])
  unfold Backward_cpu
  rw [h]
  simp only [Nat.zero_add]

/-- An input that is propagated with a coefficient other than 1 is never written. -/
theorem Backward_cpu_not_written (w : World) (p : List Bool) (i : Nat)
    (hop : w.layer.op_ = EltwiseOp.SUM) (hpi : p[i]? = some true)
    (hci : w.layer.coeffs_[i]? ≠ some 1) :
    (Backward_cpu w p).state.bottomAt i = w.bottomAt i := by
  have h := forLoopM_state_inv
    (fun s : World => s.layer = w.layer ∧ s.bottomAt i = w.bottomAt i)
    0 w.bottom.length (backwardStep p) w ⟨rfl, rfl⟩
    (fun j s hs => by
      have hops : s.layer.op_ = EltwiseOp.SUM := by rw [hs.1]; exact hop
      have hfr := backwardStep_frame p j s hops
      refine ⟨hfr.1.trans hs.1, ?_⟩
      by_cases hji : i = j
      · subst hji
        rcases backwardStep_cases p i s hops with ⟨h1, _⟩ | ⟨_, h2, _⟩ | ⟨_, f, h2⟩
        · rw [hpi] at h1; cases h1
        · rw [hs.1] at h2; exact absurd h2 hci
        · rw [h2]; exact hs.2
      · exact (hfr.2.2.2 i hji).trans hs.2)
  exact h.2

/-- C3. Unsupported-coefficient gradient fault: after a successful setup, for a backward call
with one propagate flag per input, `Backward_cpu` halts if and only if some input `i` has
`propagate_down[i] = true` and `coeffs_[i] != 1`; so when every coefficient other than 1 sits
on an input whose flag is false the call returns; and an input that is propagated with a
coefficient other than 1 is left as it was, never written with a gradient. -/
theorem backward_fault_iff (w0 w1 w : World) (p : List Bool)
    (hsetup : LayerSetUp w0 = Outcome.ok w1)
    (hop : w.layer.op_ = w1.layer.op_) (hco : w.layer.coeffs_ = w1.layer.coeffs_)
    (hN : w.bottom.length = w0.bottom.length) (hp : p.length = w.bottom.length) :
    ((Backward_cpu w p).isOk = false ↔
      ∃ i, i < w.bottom.length ∧ p[i]? = some true ∧ w.layer.coeffs_[i]? ≠ some 1) ∧
    ((∀ i, i < w.bottom.length → w.layer.coeffs_[i]? ≠ some 1 → p[i]? = some false) →
      (Backward_cpu w p).isOk = true) ∧
    (∀ i, p[i]? = some true → w.layer.coeffs_[i]? ≠ some 1 →
      (Backward_cpu w p).state.bottomAt i = w.bottomAt i) := by
  have hfacts := setup_ok_facts w0 w1 hsetup
  have hsum : w.layer.op_ = EltwiseOp.SUM := hop.trans hfacts.1
  have hlen : w.layer.coeffs_.length = w.bottom.length := by
    rw [hco, hN]; exact hfacts.2.2.1
  have hok := Backward_cpu_isOk w p hsum
  refine ⟨?_, ?_, fun i hpi hci => Backward_cpu_not_written w p i hsum hpi hci⟩
  · constructor
    · intro hf
      by_contra hno
      have : (Backward_cpu w p).isOk = true := by
        rw [hok]
        intro k hk
        have hpk : k < p.length := by omega
        have hpk2 : p[k]? = some p[k] := List.getElem?_eq_getElem hpk
        cases hb : p[k] with
        | false => left; rw [hpk2, hb]
        | true =>
          right
          refine ⟨by rw [hpk2, hb], ?_⟩
          by_contra hc
          exact hno ⟨k, hk, by rw [hpk2, hb], hc⟩
      rw [this] at hf
      cases hf
    · rintro ⟨i, hi, hpi, hci⟩
      cases hb : (Backward_cpu w p).isOk with
      | false => rfl
      | true =>
        rcases hok.1 hb i hi with h | ⟨_, h⟩
        · rw [hpi] at h; cases h
        · exact absurd h hci
  · intro hall
    rw [hok]
    intro k hk
    have hpk : k < p.length := by omega
    have hpk2 : p[k]? = some p[k] := List.getElem?_eq_getElem hpk
    cases hb : p[k] with
    | false => left; rw [hpk2, hb]
    | true =>
      right
      refine ⟨by rw [hpk2, hb], ?_⟩
      by_contra hc
      have := hall k hk hc
      rw [hpk2, hb] at this
      cases this

/-- Witness of C3: coefficients `[2, 1]`, propagate flags `[false, true]`. -/
theorem backward_fault_iff_witness :
    LayerSetUp eltCoeffWorld = Outcome.ok (LayerSetUp eltCoeffWorld).state ∧
    ((Backward_cpu (LayerSetUp eltCoeffWorld).state [false, true]).isOk = false ↔
      ∃ i, i < (LayerSetUp eltCoeffWorld).state.bottom.length ∧
        [false, true][i]? = some true ∧
        (LayerSetUp eltCoeffWorld).state.layer.coeffs_[i]? ≠ some 1) ∧
    ((∀ i, i < (LayerSetUp eltCoeffWorld).state.bottom.length →
        (LayerSetUp eltCoeffWorld).state.layer.coeffs_[i]? ≠ some 1 →
        [false, true][i]? = some false) →
      (Backward_cpu (LayerSetUp eltCoeffWorld).state [false, true]).isOk = true) ∧
    (∀ i, [false, true][i]? = some true →
      (LayerSetUp eltCoeffWorld).state.layer.coeffs_[i]? ≠ some 1 →
      (Backward_cpu (LayerSetUp eltCoeffWorld).state [false, true]).state.bottomAt i =
        (LayerSetUp eltCoeffWorld).state.bottomAt i) :=
  ⟨rfl, backward_fault_iff eltCoeffWorld (LayerSetUp eltCoeffWorld).state
    (LayerSetUp eltCoeffWorld).state [false, true] rfl rfl rfl rfl rfl⟩

theorem caffe_copy_take (n : Nat) (x y : List Dtype) (h : n ≤ x.length) :
    (caffe_copy n x y).take n = x.take n := by
  unfold caffe_copy
  rw [List.take_append_of_le_length (by simp; exact h)]
  simp

theorem copyDiff_plain (top0 b : Blob) (h : top0.prv_diff = none) :
    copyDiff top0 b = { b with cpu_diff := caffe_copy top0.count top0.cpu_diff b.cpu_diff } := by
  simp [copyDiff, topDiff, h]

theorem copyDiff_prv (top0 b : Blob) (g : List Dtype) (h : top0.prv_diff = some g) :
    copyDiff top0 b = { b with
      prv_diff := some (caffe_copy top0.prv_diff_count g (b.prv_diff.getD []))
      prv_diff_count := top0.prv_diff_count
      prv_descriptor_diff := top0.prv_descriptor_diff } := by
  simp [copyDiff, topDiff, h]

/-- With every propagated coefficient equal to 1 the backward loop returns, and every input
blob is either the one with the gradient copied in (flag true) or untouched (flag false). -/
theorem Backward_cpu_result (w : World) (p : List Bool) (hop : w.layer.op_ = EltwiseOp.SUM)
    (hp : p.length = w.bottom.length)
    (hones : ∀ i, i < w.bottom.length → w.layer.coeffs_[i]? = some 1) :
    ∃ s, Backward_cpu w p = Outcome.ok s ∧ s.layer = w.layer ∧ s.top0 = w.top0 ∧
      s.bottom.length = w.bottom.length ∧
      ∀ i, i < w.bottom.length →
        s.bottomAt i = if p[i]? = some true then copyDiff w.top0 (w.bottomAt i)
          else w.bottomAt i := by
  have h := forLoopM_ok_inv
    (fun k (s : World) => s.layer = w.layer ∧ s.top0 = w.top0 ∧
      s.bottom.length = w.bottom.length ∧
      ∀ i, i < w.bottom.length →
        s.bottomAt i = if i < k ∧ p[i]? = some true then copyDiff w.top0 (w.bottomAt i)
          else w.bottomAt i)
    0 w.bottom.length (backwardStep p) w
    ⟨rfl, rfl, rfl, fun i _ => by simp⟩
    (fun k hk s hs => by
      obtain ⟨hl, ht, hbl, hb⟩ := hs
      have hops : s.layer.op_ = EltwiseOp.SUM := by rw [hl]; exact hop
      rw [Nat.zero_add]
      rcases backwardStep_cases p k s hops with ⟨h1, h2⟩ | ⟨h1, _, h3⟩ | ⟨h1, _⟩
      · refine ⟨s, h2, hl, ht, hbl, fun i hi => ?_⟩
        rw [hb i hi]
        by_cases hik : i = k
        · subst hik; simp [h1]
        · have e : (i < k + 1) ↔ (i < k) := by
            constructor <;> intro h <;> omega
          simp only [e]
      · refine ⟨writeDiff s k, h3, hl, ht, ?_, fun i hi => ?_⟩
        · simp [writeDiff, World.setBottom, hbl]
        · by_cases hik : i = k
          · subst hik
            unfold writeDiff
            rw [bottomAt_setBottom_self _ _ _ (by omega), ht, hb i hi]
            simp [h1]
          · unfold writeDiff
            rw [bottomAt_setBottom_ne _ _ _ _ (Ne.symm hik), hb i hi]
            have e : (i < k + 1) ↔ (i < k) := by
              constructor <;> intro h <;> omega
            simp only [e]
      · exfalso
        rcases h1 with h1 | ⟨_, h1⟩
        · have hk2 : k < p.length := by omega
          rw [List.getElem?_eq_getElem hk2] at h1
          cases h1
        · rw [hl] at h1
          exact h1 (hones k hk))
  obtain ⟨s, hs, hl, ht, hbl, hb⟩ := h
  refine ⟨s, hs, hl, ht, hbl, fun i hi => ?_⟩
  rw [hb i hi]
  simp [hi]

/-- C2. Gradient identity of `MKLEltwiseLayer::Backward_cpu`: after a successful setup in
which every coefficient is 1, for a backward call with one propagate flag per input and an
output gradient whose buffer holds the `count` elements read, `Backward_cpu` returns; every
input `i` with `propagate_down[i] = true` then holds in its gradient buffer (the plain one
when the output gradient is plain, the optimized one when it is optimized) the first `count`
elements of the output gradient, unscaled and not accumulated; and every input with
`propagate_down[i] = false` is the blob it was, gradient buffer and descriptor included. -/
theorem backward_gradient_identity (w0 w1 w : World) (p : List Bool)
    (hsetup : LayerSetUp w0 = Outcome.ok w1)
    (hones : ∀ c, c ∈ w0.layer.layer_param_.coeff → c = 1)
    (hop : w.layer.op_ = w1.layer.op_) (hco : w.layer.coeffs_ = w1.layer.coeffs_)
    (hN : w.bottom.length = w0.bottom.length) (hp : p.length = w.bottom.length)
    (hcount : (topDiff w.top0).2.1 ≤ (topDiff w.top0).1.length) :
    ∃ s, Backward_cpu w p = Outcome.ok s ∧
      ∀ i, i < w.bottom.length →
        (p[i]? = some true →
          (w.top0.prv_diff = none →
            (s.bottomAt i).cpu_diff.take w.top0.count = w.top0.cpu_diff.take w.top0.count) ∧
          (∀ g, w.top0.prv_diff = some g →
            ∃ buf, (s.bottomAt i).prv_diff = some buf ∧
              buf.take w.top0.prv_diff_count = g.take w.top0.prv_diff_count)) ∧
        (p[i]? = some false → s.bottomAt i = w.bottomAt i) := by
  obtain ⟨hsum, hcoef, hlen, _⟩ := setup_ok_facts w0 w1 hsetup
  have hall : ∀ i, i < w.bottom.length → w.layer.coeffs_[i]? = some 1 := by
    intro i hi
    have hi2 : i < w.layer.coeffs_.length := by rw [hco, hlen, ← hN]; exact hi
    rw [List.getElem?_eq_getElem hi2]
    congr 1
    have hmem : w.layer.coeffs_[i] ∈ w1.layer.coeffs_ := by
      rw [← hco]; exact List.getElem_mem hi2
    rw [hcoef] at hmem
    by_cases h0 : w0.layer.layer_param_.coeff = []
    · rw [if_pos h0] at hmem
      exact (List.mem_replicate.mp hmem).2
    · rw [if_neg h0] at hmem
      exact hones _ hmem
  obtain ⟨s, hs, _, _, _, hb⟩ := Backward_cpu_result w p (hop.trans hsum) hp hall
  refine ⟨s, hs, fun i hi => ⟨fun hpi => ⟨fun hnone => ?_, fun g hg => ?_⟩, fun hpi => ?_⟩⟩
  · rw [hb i hi, if_pos hpi, copyDiff_plain _ _ hnone]
    have hc : w.top0.count ≤ w.top0.cpu_diff.length := by
      simpa [topDiff, hnone] using hcount
    exact caffe_copy_take _ _ _ hc
  · rw [hb i hi, if_pos hpi, copyDiff_prv _ _ g hg]
    have hc : w.top0.prv_diff_count ≤ g.length := by
      simpa [topDiff, hg] using hcount
    exact ⟨_, rfl, caffe_copy_take _ _ _ hc⟩
  · rw [hb i hi, if_neg (by rw [hpi]; simp)]

/-- Witness of C2 on the end-to-end example: two inputs of shape `(2, 4, 4, 5)`, coefficients
`[1, 1]`, propagate flags `[true, true]`. -/
theorem backward_gradient_identity_witness :
    LayerSetUp eltTestWorld = Outcome.ok (LayerSetUp eltTestWorld).state ∧
    ∃ s, Backward_cpu eltTestBackward [true, true] = Outcome.ok s ∧
      ∀ i, i < eltTestBackward.bottom.length →
        ([true, true][i]? = some true →
          (eltTestBackward.top0.prv_diff = none →
            (s.bottomAt i).cpu_diff.take eltTestBackward.top0.count =
              eltTestBackward.top0.cpu_diff.take eltTestBackward.top0.count) ∧
          (∀ g, eltTestBackward.top0.prv_diff = some g →
            ∃ buf, (s.bottomAt i).prv_diff = some buf ∧
              buf.take eltTestBackward.top0.prv_diff_count =
                g.take eltTestBackward.top0.prv_diff_count)) ∧
        ([true, true][i]? = some false → s.bottomAt i = eltTestBackward.bottomAt i) :=
  ⟨rfl, backward_gradient_identity eltTestWorld (LayerSetUp eltTestWorld).state eltTestBackward
    [true, true] rfl (by simp [eltTestWorld, MKLEltwiseLayer.fresh]) rfl rfl rfl rfl
    (by
      show [2, 4, 4, 5].prod ≤ ((List.range 160).map (fun k => Int.ofNat k + 1)).length
      simp)⟩

/-! ## MKLEltwiseLayer: the plan is built once -/

theorem planConstructions_append (a b : List VendorCall) :
    planConstructions (a ++ b) = planConstructions a + planConstructions b := by
  simp [planConstructions, List.countP_append]

theorem internalLayoutsCreated_append (a b : List VendorCall) :
    internalLayoutsCreated (a ++ b) = internalLayoutsCreated a + internalLayoutsCreated b := by
  simp [internalLayoutsCreated, List.countP_append]

/-- Resolving the sources leaves the plan handle, the selector and the trace alone. -/
theorem resolveSources_frame (w : World) (bd : List Resource) :
    (resolveSources w bd).1.layer.sumPrimitive = w.layer.sumPrimitive ∧
    (resolveSources w bd).1.trace = w.trace := by
  unfold resolveSources
  apply forLoop_inv (fun st : World × List Resource =>
    st.1.layer.sumPrimitive = w.layer.sumPrimitive ∧ st.1.trace = w.trace)
  · exact ⟨rfl, rfl⟩
  · intro i st _ hst
    simp only []
    split
    · exact hst
    · exact hst

theorem resolveDst_frame (w : World) :
    (resolveDst w).1.layer.sumPrimitive = w.layer.sumPrimitive ∧
    (resolveDst w).1.trace = w.trace := by
  unfold resolveDst
  split <;> exact ⟨rfl, rfl⟩

theorem storeResult_frame (w : World) (p : dnnPrimitive) (src : List Resource) (dst : Ptr) :
    (storeResult w p src dst).layer.sumPrimitive = w.layer.sumPrimitive ∧
    (storeResult w p src dst).trace = w.trace := by
  unfold storeResult
  simp only []
  split <;> exact ⟨rfl, rfl⟩

/-- The switch on `op_` builds no plan and derives no internal layout. -/
theorem execute_frame (v : Vendor) (w s : World) (bd : List Resource)
    (h : execute v w bd = Outcome.ok s) :
    s.layer.sumPrimitive = w.layer.sumPrimitive ∧
    planConstructions s.trace = planConstructions w.trace ∧
    internalLayoutsCreated s.trace = internalLayoutsCreated w.trace := by
  unfold execute at h
  cases hop : w.layer.op_ with
  | PROD => rw [hop] at h; cases h
  | MAX => rw [hop] at h; cases h
  | unknown x => rw [hop] at h; cases h
  | SUM =>
    rw [hop] at h
    simp only [] at h
    obtain ⟨f1, f2⟩ := resolveSources_frame w bd
    obtain ⟨g1, g2⟩ := resolveDst_frame (resolveSources w bd).1
    split at h
    · split at h
      · rename_i p hp
        cases h
        obtain ⟨k1, k2⟩ := storeResult_frame
          { (resolveDst (resolveSources w bd).1).1 with
            trace := (resolveDst (resolveSources w bd).1).1.trace ++
              [VendorCall.execute (resolveDst (resolveSources w bd).1).1.layer.sumPrimitive
                (resolveSources w bd).2 (resolveDst (resolveSources w bd).1).2] }
          p (resolveSources w bd).2 (resolveDst (resolveSources w bd).1).2
        refine ⟨k1.trans (g1.trans f1), ?_, ?_⟩
        · rw [k2]
          simp only []
          rw [planConstructions_append, g2, f2]
          simp [planConstructions]
        · rw [k2]
          simp only []
          rw [internalLayoutsCreated_append, g2, f2]
          simp [internalLayoutsCreated]
      · cases h
    · cases h

/-- A successful `dnnSumCreate` sets the handle and adds one plan construction to the
trace. -/
theorem sumCreate_ok (v : Vendor) (w s : World) (layout : Option dnnLayout)
    (h : sumCreate v w layout = Outcome.ok s) : s = withPlan w layout := by
  unfold sumCreate at h
  split at h
  · cases h; rfl
  · cases h

theorem withPlan_constructions (w : World) (layout : Option dnnLayout) :
    planConstructions (withPlan w layout).trace = planConstructions w.trace + 1 := by
  unfold withPlan
  simp only []
  rw [planConstructions_append]
  simp [planConstructions]

theorem setDescr_frame (w : World) (i : Nat) (d : MKLData) :
    (w.setDescr i d).layer.sumPrimitive = w.layer.sumPrimitive ∧
    (w.setDescr i d).trace = w.trace ∧ (w.setDescr i d).bottom = w.bottom ∧
    (w.setDescr i d).layer.num_bottoms = w.layer.num_bottoms ∧
    (w.setDescr i d).layer.coeffs_ = w.layer.coeffs_ ∧
    (w.setDescr i d).layer.op_ = w.layer.op_ :=
  ⟨rfl, rfl, rfl, rfl, rfl, rfl⟩

/-- Adopting the descriptors of the optimized inputs leaves the plan handle and the trace
alone. -/
theorem adoptDescriptors_frame (w : World) :
    (adoptDescriptors w).state.1.layer.sumPrimitive = w.layer.sumPrimitive ∧
    (adoptDescriptors w).state.1.trace = w.trace := by
  unfold adoptDescriptors
  apply forLoopM_state_inv (fun st : World × Option dnnLayout =>
    st.1.layer.sumPrimitive = w.layer.sumPrimitive ∧ st.1.trace = w.trace)
  · exact ⟨rfl, rfl⟩
  · intro i st hst
    split
    · exact hst
    · split
      · exact hst
      · exact hst
      · exact hst

/-- Deriving the internal layouts keeps the plan handle and constructs no plan. -/
theorem deriveInternalLayouts_frame (w : World) (p : dnnPrimitive) :
    (deriveInternalLayouts w p).layer.sumPrimitive = w.layer.sumPrimitive ∧
    planConstructions (deriveInternalLayouts w p).trace = planConstructions w.trace := by
  unfold deriveInternalLayouts
  apply forLoop_inv (fun s : World =>
    s.layer.sumPrimitive = w.layer.sumPrimitive ∧
    planConstructions s.trace = planConstructions w.trace)
  · refine ⟨rfl, ?_⟩
    show planConstructions (w.trace ++ _) = _
    rw [planConstructions_append]
    simp [planConstructions]
  · intro i s _ hs
    split
    · refine ⟨hs.1, ?_⟩
      show planConstructions (s.trace ++ _) = _
      rw [planConstructions_append, hs.2]
      simp [planConstructions]
    · exact hs

/-- With the handle set, lines 92-128 do nothing. -/
theorem buildPlan_some (v : Vendor) (w : World) (b : Bool) (p : dnnPrimitive)
    (hp : w.layer.sumPrimitive = some p) : buildPlan v w b = Outcome.ok w := by
  unfold buildPlan
  cases b <;> simp [hp]

theorem buildPlan_plain (v : Vendor) (w : World) (hp : w.layer.sumPrimitive = none) :
    buildPlan v w false = sumCreate v w w.layer.fwd_top_data.layout_usr := by
  unfold buildPlan
  simp [hp]

theorem buildPlan_optimized (v : Vendor) (w : World) (hp : w.layer.sumPrimitive = none) :
    buildPlan v w true = buildPlanOptimized v w := by
  unfold buildPlan
  simp [hp]

/-- With the handle null, lines 92-128 construct the plan exactly once. -/
theorem buildPlan_none (v : Vendor) (w s : World) (b : Bool)
    (hp : w.layer.sumPrimitive = none) (h : buildPlan v w b = Outcome.ok s) :
    ∃ plan, s.layer.sumPrimitive = some plan ∧
      planConstructions s.trace = planConstructions w.trace + 1 := by
  cases b with
  | false =>
    rw [buildPlan_plain v w hp] at h
    have hs := sumCreate_ok v w s _ h
    subst hs
    exact ⟨_, rfl, withPlan_constructions w _⟩
  | true =>
    rw [buildPlan_optimized v w hp] at h
    unfold buildPlanOptimized at h
    have hfr := adoptDescriptors_frame w
    cases had : adoptDescriptors w with
    | fault f st => rw [had] at h; cases h
    | ok st =>
      rw [had] at h hfr
      have h2 : (sumCreate v st.1 st.2).andThen deriveAfterCreate = Outcome.ok s := h
      cases hsc : sumCreate v st.1 st.2 with
      | fault f s1 => rw [hsc] at h2; cases h2
      | ok s1 =>
        rw [hsc] at h2
        have hs1 := sumCreate_ok v st.1 s1 st.2 hsc
        subst hs1
        have htr : planConstructions (withPlan st.1 st.2).trace =
            planConstructions w.trace + 1 := by
          rw [withPlan_constructions]
          have e : st.1.trace = w.trace := hfr.2
          rw [e]
        have h3 : Outcome.ok (deriveInternalLayouts (withPlan st.1 st.2) (newPlan st.1 st.2))
            = Outcome.ok s := h2
        cases h3
        obtain ⟨d1, d2⟩ := deriveInternalLayouts_frame (withPlan st.1 st.2) (newPlan st.1 st.2)
        exact ⟨_, d1, d2.trans htr⟩

/-- A forward call that returns has passed through plan building and execution. -/
theorem Forward_cpu_ok_split (v : Vendor) (w s : World) (h : Forward_cpu v w = Outcome.ok s) :
    ∃ s1, buildPlan v w (probe w).2 = Outcome.ok s1 ∧
      execute v s1 (probe w).1 = Outcome.ok s := by
  unfold Forward_cpu at h
  split at h
  · cases h
  · cases hb : buildPlan v w (probe w).2 with
    | ok s1 =>
      simp only [hb, Outcome.andThen] at h
      exact ⟨s1, rfl, h⟩
    | fault f s1 =>
      simp only [hb, Outcome.andThen] at h
      cases h

/-- The first forward call: the plan is constructed, once. -/
theorem Forward_cpu_first (v : Vendor) (w s : World) (hp : w.layer.sumPrimitive = none)
    (h : Forward_cpu v w = Outcome.ok s) :
    ∃ plan, s.layer.sumPrimitive = some plan ∧
      planConstructions s.trace = planConstructions w.trace + 1 := by
  obtain ⟨s1, hb, he⟩ := Forward_cpu_ok_split v w s h
  obtain ⟨plan, h1, h2⟩ := buildPlan_none v w s1 _ hp hb
  obtain ⟨e1, e2, _⟩ := execute_frame v s1 s _ he
  exact ⟨plan, e1.trans h1, e2.trans h2⟩

/-- A later forward call: the handle is kept, no plan is constructed, no internal layout is
derived. -/
theorem Forward_cpu_later (v : Vendor) (w s : World) (plan : dnnPrimitive)
    (hp : w.layer.sumPrimitive = some plan) (h : Forward_cpu v w = Outcome.ok s) :
    s.layer.sumPrimitive = some plan ∧
    planConstructions s.trace = planConstructions w.trace ∧
    internalLayoutsCreated s.trace = internalLayoutsCreated w.trace := by
  obtain ⟨s1, hb, he⟩ := Forward_cpu_ok_split v w s h
  rw [buildPlan_some v w _ plan hp] at hb
  cases hb
  obtain ⟨e1, e2, e3⟩ := execute_frame v w s _ he
  exact ⟨e1.trans hp, e2, e3⟩

/-- Every prefix of a sequence of forward calls that returns, run on an instance whose plan is
built, returns with the same plan and without a plan construction or layout derivation. -/
theorem forwardCalls_later (v : Vendor) (plan : dnnPrimitive) (cs : List (List Blob × Blob)) :
    ∀ (w wn : World), w.layer.sumPrimitive = some plan →
      forwardCalls v w cs = Outcome.ok wn →
      ∀ k, k ≤ cs.length → ∃ wk, forwardCalls v w (cs.take k) = Outcome.ok wk ∧
        wk.layer.sumPrimitive = some plan ∧
        planConstructions wk.trace = planConstructions w.trace ∧
        internalLayoutsCreated wk.trace = internalLayoutsCreated w.trace := by
  induction cs with
  | nil =>
    intro w wn hp _ k _
    exact ⟨w, by simp [forwardCalls], hp, rfl, rfl⟩
  | cons c cs ih =>
    intro w wn hp hrun k hk
    cases k with
    | zero => exact ⟨w, by simp [forwardCalls], hp, rfl, rfl⟩
    | succ k =>
      unfold forwardCalls at hrun
      cases hf : Forward_cpu v { w with bottom := c.1, top0 := c.2 } with
      | fault f s1 => rw [hf] at hrun; cases hrun
      | ok s1 =>
        rw [hf] at hrun
        have hp1 : ({ w with bottom := c.1, top0 := c.2 } : World).layer.sumPrimitive =
            some plan := hp
        obtain ⟨a1, a2, a3⟩ := Forward_cpu_later v _ s1 plan hp1 hf
        obtain ⟨wk, b0, b1, b2, b3⟩ := ih s1 wn a1 hrun k (by simpa using hk)
        refine ⟨wk, ?_, b1, b2.trans a2, b3.trans a3⟩
        rw [List.take_succ_cons]
        unfold forwardCalls
        rw [hf]
        exact b0

/-- C10. Plan-once invariant of `MKLEltwiseLayer`: on a new instance after a successful setup,
for every sequence of `Forward_cpu` calls that return, whatever inputs (plain or optimized)
each call sees, the first call constructs the sum plan, exactly once; after every later call
the plan handle is the one built on the first call, the number of plan constructions is still
one more than before the first call, and no internal-layout descriptor has been derived
since the first call. -/
theorem plan_built_once (v : Vendor) (w0 w1 wn : World) (c : List Blob × Blob)
    (calls : List (List Blob × Blob))
    (hnew : w0.layer.sumPrimitive = none)
    (hsetup : LayerSetUp w0 = Outcome.ok w1)
    (hrun : forwardCalls v w1 (c :: calls) = Outcome.ok wn) :
    ∃ wf plan, Forward_cpu v { w1 with bottom := c.1, top0 := c.2 } = Outcome.ok wf ∧
      wf.layer.sumPrimitive = some plan ∧
      planConstructions wf.trace = planConstructions w0.trace + 1 ∧
      ∀ k, k ≤ calls.length → ∃ wk, forwardCalls v wf (calls.take k) = Outcome.ok wk ∧
        wk.layer.sumPrimitive = some plan ∧
        planConstructions wk.trace = planConstructions w0.trace + 1 ∧
        internalLayoutsCreated wk.trace = internalLayoutsCreated wf.trace := by
  obtain ⟨_, _, _, _, _, _, htr, hprim, _⟩ := setup_ok_facts w0 w1 hsetup
  unfold forwardCalls at hrun
  cases hf : Forward_cpu v { w1 with bottom := c.1, top0 := c.2 } with
  | fault f s1 => rw [hf] at hrun; cases hrun
  | ok wf =>
    rw [hf] at hrun
    have hp1 : ({ w1 with bottom := c.1, top0 := c.2 } : World).layer.sumPrimitive = none :=
      hprim.trans hnew
    obtain ⟨plan, a1, a2⟩ := Forward_cpu_first v _ wf hp1 hf
    have a3 : planConstructions wf.trace = planConstructions w0.trace + 1 := by
      rw [a2]
      show planConstructions w1.trace + 1 = _
      rw [htr]
    refine ⟨wf, plan, rfl, a1, a3, fun k hk => ?_⟩
    obtain ⟨wk, b0, b1, b2, b3⟩ := forwardCalls_later v plan calls wf wn a1 hrun k hk
    exact ⟨wk, b0, b1, b2.trans a3, b3⟩

/-- Witness of C10: three calls (plain, one optimized input, plain) after setup. -/
theorem plan_built_once_witness :
    eltSmallWorld.layer.sumPrimitive = none ∧
    LayerSetUp eltSmallWorld = Outcome.ok (LayerSetUp eltSmallWorld).state ∧
    forwardCalls Vendor.reliable (LayerSetUp eltSmallWorld).state eltSmallCalls =
      Outcome.ok (forwardCalls Vendor.reliable (LayerSetUp eltSmallWorld).state
        eltSmallCalls).state ∧
    ∃ wf plan, Forward_cpu Vendor.reliable
        { (LayerSetUp eltSmallWorld).state with
          bottom := [plainBlob [2] [1, 2], plainBlob [2] [3, 4]], top0 := plainBlob [2] [0, 0] }
        = Outcome.ok wf ∧
      wf.layer.sumPrimitive = some plan ∧
      planConstructions wf.trace = planConstructions eltSmallWorld.trace + 1 ∧
      ∀ k, k ≤ (eltSmallCalls.tail).length →
        ∃ wk, forwardCalls Vendor.reliable wf ((eltSmallCalls.tail).take k) = Outcome.ok wk ∧
          wk.layer.sumPrimitive = some plan ∧
          planConstructions wk.trace = planConstructions eltSmallWorld.trace + 1 ∧
          internalLayoutsCreated wk.trace = internalLayoutsCreated wf.trace :=
  ⟨rfl, rfl, rfl,
    plan_built_once Vendor.reliable eltSmallWorld (LayerSetUp eltSmallWorld).state
      (forwardCalls Vendor.reliable (LayerSetUp eltSmallWorld).state eltSmallCalls).state
      ([plainBlob [2] [1, 2], plainBlob [2] [3, 4]], plainBlob [2] [0, 0])
      eltSmallCalls.tail rfl rfl rfl⟩

/-! ## MKLEltwiseLayer: the plain layout and the descriptors after setup -/

/-- The extents computed by the loop of lines 45-49 are the shape reversed. -/
theorem sizesStrides_sizes (shape : List Nat) : (sizesStrides shape).1 = shape.reverse := by
  have hfst : (sizesStrides shape).1 = forLoop shape.length
      (fun d (sizes : List Nat) => sizes.set d (shape.getD (shape.length - d - 1) 0))
      (List.replicate shape.length 0) := by
    unfold sizesStrides
    exact forLoop_fst _ _ _ (fun _ _ => rfl) _
  have hf : Fills (fun j => ∃ d, d < shape.length ∧ j = d)
      (fun j => shape.getD (shape.length - j - 1) 0) (List.replicate shape.length 0)
      (sizesStrides shape).1 := by
    rw [hfst]
    apply Fills.forLoop
    intro d _ buf
    exact Fills.set _ buf d _ rfl
  apply List.ext_getElem?
  intro j
  by_cases hj : j < shape.length
  · rw [hf.2.2 j ⟨j, hj, rfl⟩ (by simpa using hj)]
    beta_reduce
    have h1 : shape.length - j - 1 < shape.length := by omega
    rw [List.getD_eq_getElem _ _ h1, List.getElem?_reverse hj]
    have e : shape.length - 1 - j = shape.length - j - 1 := by omega
    rw [e]
    exact (List.getElem?_eq_getElem h1).symm
  · have h1 : (sizesStrides shape).1.length ≤ j := by
      rw [hf.1]; simp; omega
    rw [List.getElem?_eq_none h1, List.getElem?_eq_none (by simp; omega)]

theorem sizesStrides_length (shape : List Nat) :
    (sizesStrides shape).1.length = shape.length ∧
    (sizesStrides shape).2.length = shape.length := by
  unfold sizesStrides
  apply forLoop_inv (fun st : List Nat × List Nat =>
    st.1.length = shape.length ∧ st.2.length = shape.length)
  · simp
  · intro d st _ hst
    simp [hst.1, hst.2]

/-- The descriptor that setup makes from a new one: the plain layout only, no conversion. -/
theorem create_user_layout_fresh (shape : List Nat) :
    MKLData.fresh.create_user_layout shape.length (sizesStrides shape).1 (sizesStrides shape).2
      = { MKLData.fresh with layout_usr := some (plainLayout shape) } := by
  obtain ⟨h1, h2⟩ := sizesStrides_length shape
  simp [MKLData.create_user_layout, MKLData.create_conversions, MKLData.fresh, plainLayout,
    List.take_of_length_le, h1, h2]

/-- A successful step of the descriptor loop on slot `k`, when `k` descriptors exist. -/
theorem setupDescrStep_push (shape : List Nat) (k : Nat) (s s2 : World)
    (hk : s.layer.fwd_bottom_data.length = k)
    (h : setupDescrStep shape.length (sizesStrides shape) k s = Outcome.ok s2) :
    s2.layer.fwd_bottom_data = s.layer.fwd_bottom_data ++
      [{ MKLData.fresh with layout_usr := some (plainLayout shape) }] ∧
    s2.layer.fwd_top_data = s.layer.fwd_top_data := by
  unfold setupDescrStep at h
  simp only [] at h
  split at h
  · cases h
    subst hk
    simp only [World.setDescr, World.descrAt]
    rw [List.getD_length_append_singleton, create_user_layout_fresh,
      List.set_length_append_singleton]
    constructor <;> first | rfl | trivial
  · cases h

/-- A successful setup has passed the three checks and run lines 30-58. -/
theorem setup_ok_layouts (w0 w1 : World) (hsetup : LayerSetUp w0 = Outcome.ok w1) :
    setupLayouts (setupMembers w0) = Outcome.ok w1 := by
  unfold LayerSetUp at hsetup
  simp only [EltwiseParameter.coeff_size] at hsetup
  by_cases hc : w0.layer.layer_param_.coeff.length = 0 ∨
      w0.layer.layer_param_.coeff.length = w0.bottom.length
  swap
  · rw [if_pos hc] at hsetup; cases hsetup
  rw [if_neg (not_not.mpr hc)] at hsetup
  by_cases hp : w0.layer.layer_param_.operation = EltwiseOp.PROD ∧
      w0.layer.layer_param_.coeff.length ≠ 0
  · rw [if_pos hp] at hsetup; cases hsetup
  rw [if_neg hp] at hsetup
  by_cases hop : w0.layer.layer_param_.operation = EltwiseOp.SUM
  swap
  · rw [if_pos hop] at hsetup; cases hsetup
  rw [if_neg (not_not.mpr hop)] at hsetup
  exact hsetup

/-- The descriptors after a successful setup of a new layer: one per input and one for the
output, each with the plain layout of the first input's shape and nothing else. -/
theorem setup_fresh_descrs (w0 w1 : World) (hsetup : LayerSetUp w0 = Outcome.ok w1)
    (hb : w0.layer.fwd_bottom_data = []) (ht : w0.layer.fwd_top_data = MKLData.fresh) :
    w1.layer.fwd_bottom_data = List.replicate w0.bottom.length
      { MKLData.fresh with layout_usr := some (plainLayout (w0.bottomAt 0).shape) } ∧
    w1.layer.fwd_top_data =
      { MKLData.fresh with layout_usr := some (plainLayout (w0.bottomAt 0).shape) } := by
  have h := setup_ok_layouts w0 w1 hsetup
  unfold setupLayouts at h
  split at h
  · cases h
  · rename_i b0 rest hbot
    have hbot0 : w0.bottom = b0 :: rest := hbot
    have h0 : w0.bottomAt 0 = b0 := by simp [World.bottomAt, hbot0]
    have hn : (setupMembers w0).layer.num_bottoms = w0.bottom.length := rfl
    rw [h0]
    have h2 : (forLoopM 0 (setupMembers w0).layer.num_bottoms
        (setupDescrStep b0.shape.length (sizesStrides b0.shape)) (setupMembers w0)).andThen
        (setupTopLayout b0.shape.length (sizesStrides b0.shape)) = Outcome.ok w1 := h
    cases hl : forLoopM 0 (setupMembers w0).layer.num_bottoms
        (setupDescrStep b0.shape.length (sizesStrides b0.shape)) (setupMembers w0) with
    | fault f s1 => rw [hl] at h2; cases h2
    | ok s1 =>
      rw [hl] at h2
      have hinv := forLoopM_index_inv
        (fun k (s : World) => s.layer.fwd_bottom_data = List.replicate k
            { MKLData.fresh with layout_usr := some (plainLayout b0.shape) } ∧
          s.layer.fwd_top_data = MKLData.fresh)
        0 (setupMembers w0).layer.num_bottoms
        (setupDescrStep b0.shape.length (sizesStrides b0.shape)) (setupMembers w0)
        ⟨hb, ht⟩
        (fun k _ s s2 hs hstep => by
          rw [Nat.zero_add] at hstep
          obtain ⟨p1, p2⟩ := setupDescrStep_push b0.shape k s s2 (by rw [hs.1]; simp) hstep
          refine ⟨?_, p2.trans hs.2⟩
          rw [p1, hs.1, List.replicate_succ'])
        s1 hl
      have h3 : Outcome.ok ({ s1 with layer := { s1.layer with
          fwd_top_data := s1.layer.fwd_top_data.create_user_layout b0.shape.length
            (sizesStrides b0.shape).1 (sizesStrides b0.shape).2 } } : World) = Outcome.ok w1 := h2
      cases h3
      refine ⟨?_, ?_⟩
      · rw [← hn]; exact hinv.1
      · show s1.layer.fwd_top_data.create_user_layout _ _ _ = _
        rw [hinv.2, create_user_layout_fresh]

/-! ## MKLEltwiseLayer: the forward pass on plain inputs -/

/-- The faults of a loop are faults of its steps. -/
theorem forLoopM_fault_of_step {σ : Type} (Q : Fault → Prop) (lo n : Nat)
    (body : Nat → σ → Outcome σ) (s : σ)
    (hbody : ∀ i s f s2, body i s = Outcome.fault f s2 → Q f) :
    ∀ f s2, forLoopM lo n body s = Outcome.fault f s2 → Q f := by
  induction n with
  | zero => intro f s2 h; cases h
  | succ n ih =>
    intro f s2 h
    rw [forLoopM_succ] at h
    cases h1 : forLoopM lo n body s with
    | ok s1 =>
      rw [h1] at h
      exact hbody _ _ _ _ h
    | fault f1 s1 =>
      rw [h1] at h
      cases h
      exact ih _ _ h1

/-- Lines 41-58 halt only on the unguarded read of `bottom[0]` or on the dimensionality
check. -/
theorem setupLayouts_fault (w : World) (f : Fault)
    (h : (setupLayouts w).fault? = some f) :
    f = Fault.out_of_range ∨ f = Fault.dim_mismatch := by
  unfold setupLayouts at h
  split at h
  · left
    exact (Option.some.inj h).symm
  · rename_i b0 rest _
    cases hl : forLoopM 0 w.layer.num_bottoms
        (setupDescrStep b0.shape.length (sizesStrides b0.shape)) w with
    | ok s1 =>
      simp only [hl, Outcome.andThen, setupTopLayout, Outcome.fault?] at h
      cases h
    | fault f1 s1 =>
      simp only [hl, Outcome.andThen, Outcome.fault?] at h
      right
      have hf : f1 = f := Option.some.inj h
      rw [← hf]
      refine forLoopM_fault_of_step (fun f => f = Fault.dim_mismatch) 0 w.layer.num_bottoms
        (setupDescrStep b0.shape.length (sizesStrides b0.shape)) w ?_ f1 s1 hl
      intro i s f2 s2 hstep
      unfold setupDescrStep at hstep
      simp only [] at hstep
      split at hstep
      · cases hstep
      · cases hstep
        rfl

/-- Counterexample to C12: with the PRODUCT selector and the coefficient list `[1, 1]` for two
inputs, the fault raised is the coefficients-with-product one of line 21, not the
operation-is-not-sum one of line 26. -/
theorem setup_check_order_counterexample :
    eltProdWorld.layer.layer_param_.operation = EltwiseOp.PROD ∧
    eltProdWorld.layer.layer_param_.coeff.length = eltProdWorld.bottom.length ∧
    (LayerSetUp eltProdWorld).fault? = some Fault.coeff_with_prod ∧
    (LayerSetUp eltProdWorld).fault? ≠ some Fault.not_sum := by
  refine ⟨rfl, rfl, rfl, ?_⟩
  intro h
  cases h

/-- C12 as amended. Order of the setup checks in `MKLEltwiseLayer::LayerSetUp`: the
coefficients-with-product check (line 21) comes before the sum-only check (line 26). The
coefficients-with-product fault is raised exactly when the selector is PRODUCT and the
coefficient list has length `N > 0`; the operation-is-not-sum fault is raised exactly when the
coefficient count is 0 or `N`, the selector is not SUM and it is not PRODUCT with
coefficients. -/
theorem setup_check_order (w : World) :
    ((LayerSetUp w).fault? = some Fault.coeff_with_prod ↔
      (w.layer.layer_param_.operation = EltwiseOp.PROD ∧
       w.layer.layer_param_.coeff.length ≠ 0 ∧
       w.layer.layer_param_.coeff.length = w.bottom.length)) ∧
    ((LayerSetUp w).fault? = some Fault.not_sum ↔
      ((w.layer.layer_param_.coeff.length = 0 ∨
        w.layer.layer_param_.coeff.length = w.bottom.length) ∧
       w.layer.layer_param_.operation ≠ EltwiseOp.SUM ∧
       ¬ (w.layer.layer_param_.operation = EltwiseOp.PROD ∧
          w.layer.layer_param_.coeff.length ≠ 0))) := by
  unfold LayerSetUp
  simp only [EltwiseParameter.coeff_size]
  by_cases hc : w.layer.layer_param_.coeff.length = 0 ∨
      w.layer.layer_param_.coeff.length = w.bottom.length
  swap
  · rw [if_pos hc]
    constructor
    · constructor
      · intro h; cases h
      · rintro ⟨_, h1, h2⟩; exact absurd (Or.inr h2) hc
    · constructor
      · intro h; cases h
      · rintro ⟨h1, _⟩; exact absurd h1 hc
  rw [if_neg (not_not.mpr hc)]
  by_cases hp : w.layer.layer_param_.operation = EltwiseOp.PROD ∧
      w.layer.layer_param_.coeff.length ≠ 0
  · rw [if_pos hp]
    constructor
    · constructor
      · intro _
        exact ⟨hp.1, hp.2, hc.resolve_left hp.2⟩
      · intro _; rfl
    · constructor
      · intro h; cases h
      · rintro ⟨_, _, h3⟩; exact absurd hp h3
  rw [if_neg hp]
  by_cases hop : w.layer.layer_param_.operation = EltwiseOp.SUM
  swap
  · rw [if_pos hop]
    constructor
    · constructor
      · intro h; cases h
      · rintro ⟨h1, h2, _⟩; exact absurd ⟨h1, h2⟩ hp
    · constructor
      · intro _; exact ⟨hc, hop, hp⟩
      · intro _; rfl
  rw [if_neg (not_not.mpr hop)]
  constructor
  · constructor
    · intro h
      rcases setupLayouts_fault _ _ h with h1 | h1 <;> cases h1
    · rintro ⟨h1, _, _⟩
      rw [hop] at h1
      cases h1
  · constructor
    · intro h
      rcases setupLayouts_fault _ _ h with h1 | h1 <;> cases h1
    · rintro ⟨_, h2, _⟩
      exact absurd hop h2

/-! ## MKLEltwiseLayer: setup with zero inputs -/

/-- Counterexample to C13: with zero inputs, the SUM selector and no coefficient, no check of
`LayerSetUp` fails; the call runs on to the read of `bottom[0]` that no check guards. -/
theorem setup_zero_inputs_counterexample :
    eltZeroWorld.bottom.length = 0 ∧
    LayerSetUp eltZeroWorld = Outcome.fault Fault.out_of_range (setupMembers eltZeroWorld) ∧
    (LayerSetUp eltZeroWorld).fault? ≠ some Fault.coeff_count ∧
    (LayerSetUp eltZeroWorld).fault? ≠ some Fault.coeff_with_prod ∧
    (LayerSetUp eltZeroWorld).fault? ≠ some Fault.not_sum ∧
    (LayerSetUp eltZeroWorld).fault? ≠ some Fault.dim_mismatch := by
  refine ⟨rfl, rfl, ?_, ?_, ?_, ?_⟩ <;> intro h <;> cases h

/-- C13 as amended. `MKLEltwiseLayer::LayerSetUp` called with zero inputs, the SUM selector and
an empty coefficient list passes its three checks (lines 18-28), assigns its members
(lines 30-40) and then reads the shape of `bottom[0]` (line 41) from the empty vector: the
requirement `N >= 1` is not checked by `LayerSetUp` itself. -/
theorem setup_zero_inputs (w : World) (hN : w.bottom = [])
    (hop : w.layer.layer_param_.operation = EltwiseOp.SUM)
    (hc : w.layer.layer_param_.coeff = []) :
    LayerSetUp w = Outcome.fault Fault.out_of_range (setupMembers w) ∧
    (setupMembers w).layer.op_ = EltwiseOp.SUM ∧
    (setupMembers w).layer.num_bottoms = 0 ∧
    (setupMembers w).layer.coeffs_ = [] := by
  have h1 : LayerSetUp w = setupLayouts (setupMembers w) := by
    unfold LayerSetUp
    simp [EltwiseParameter.coeff_size, hop, hc]
  have h2 : (setupMembers w).bottom = [] := hN
  refine ⟨?_, hop, ?_, ?_⟩
  · rw [h1]
    unfold setupLayouts
    rw [h2]
  · show w.bottom.length = 0
    rw [hN]; rfl
  · unfold setupMembers
    simp [EltwiseParameter.coeff_size, hc, hN]

/-- Witness of the amended C13 on a new layer without inputs. -/
theorem setup_zero_inputs_witness :
    eltZeroWorld.bottom = [] ∧
    eltZeroWorld.layer.layer_param_.operation = EltwiseOp.SUM ∧
    eltZeroWorld.layer.layer_param_.coeff = [] ∧
    LayerSetUp eltZeroWorld = Outcome.fault Fault.out_of_range (setupMembers eltZeroWorld) ∧
    (setupMembers eltZeroWorld).layer.op_ = EltwiseOp.SUM ∧
    (setupMembers eltZeroWorld).layer.num_bottoms = 0 ∧
    (setupMembers eltZeroWorld).layer.coeffs_ = [] :=
  ⟨rfl, rfl, rfl, setup_zero_inputs eltZeroWorld rfl rfl rfl⟩

/-! ## MKLEltwiseLayer: reshape after the plan is built -/

/-- When every input has the shape of the first, the check loop of `Reshape` passes. -/
theorem Reshape_eq_reshapeTop (w : World)
    (hsh : ∀ i, i < w.bottom.length → (w.bottomAt i).shape = (w.bottomAt 0).shape) :
    Reshape w = reshapeTop w := by
  have h := forLoopM_ok_inv (fun _ (s : World) => s = w) 1 (w.bottom.length - 1) reshapeCheck w
    rfl (fun k hk s hs => by
      subst hs
      refine ⟨s, ?_, rfl⟩
      unfold reshapeCheck
      rw [if_pos (hsh (1 + k) (by omega))])
  obtain ⟨s2, h1, h2⟩ := h
  subst h2
  unfold Reshape
  rw [h1]
  rfl

/-- Lines 67-72 touch the output blob and `max_idx_` only. -/
theorem reshapeTop_frame (w s : World) (h : reshapeTop w = Outcome.ok s) :
    s.layer.sumPrimitive = w.layer.sumPrimitive ∧
    s.layer.fwd_bottom_data = w.layer.fwd_bottom_data ∧
    s.layer.fwd_top_data = w.layer.fwd_top_data ∧
    s.layer.op_ = w.layer.op_ ∧ s.layer.coeffs_ = w.layer.coeffs_ ∧
    s.layer.num_bottoms = w.layer.num_bottoms ∧ s.trace = w.trace ∧ s.bottom = w.bottom := by
  unfold reshapeTop at h
  split at h
  · cases h
  · simp only [] at h
    split at h
    · cases h
      exact ⟨rfl, rfl, rfl, rfl, rfl, rfl, rfl, rfl⟩
    · cases h
      exact ⟨rfl, rfl, rfl, rfl, rfl, rfl, rfl, rfl⟩

/-- A forward call that returns leaves the plan handle set. -/
theorem Forward_cpu_plan (v : Vendor) (w s : World) (h : Forward_cpu v w = Outcome.ok s) :
    ∃ plan, s.layer.sumPrimitive = some plan := by
  cases hp : w.layer.sumPrimitive with
  | none =>
    obtain ⟨plan, h1, _⟩ := Forward_cpu_first v w s hp h
    exact ⟨plan, h1⟩
  | some plan => exact ⟨plan, (Forward_cpu_later v w s plan hp h).1⟩

/-- Counterexample to C14: after setup and one forward call on two inputs of shape `(2)` the
plan is built for that shape; a later `Reshape` whose inputs agree on the new shape `(3)`
returns normally, with the output reshaped and the plan handle as it was. -/
theorem reshape_after_plan_counterexample :
    (∃ plan, eltSmallReady.layer.sumPrimitive = some plan ∧
      plan.layout = some (plainLayout [2])) ∧
    (∀ b, b ∈ eltNewShapeBottom → b.shape = [3]) ∧
    (Reshape { eltSmallReady with bottom := eltNewShapeBottom }).isOk = true ∧
    (Reshape { eltSmallReady with bottom := eltNewShapeBottom }).state.top0.shape = [3] ∧
    (Reshape { eltSmallReady with bottom := eltNewShapeBottom }).state.layer.sumPrimitive =
      eltSmallReady.layer.sumPrimitive := by
  refine ⟨⟨_, rfl, rfl⟩, ?_, rfl, rfl, rfl⟩
  intro b hb
  simp only [eltNewShapeBottom, List.mem_cons, List.mem_singleton, List.not_mem_nil,
    or_false] at hb
  rcases hb with rfl | rfl <;> rfl

/-- C14 as amended. `MKLEltwiseLayer::Reshape` does not look at the plan: on an instance on
which `Forward_cpu` has completed once, a later `Reshape` call in which all `N >= 1` inputs
agree on a shape, new or not, returns normally; the output takes that shape, the plan handle
and the descriptors stay as they were, and a next forward call that returns reuses the plan
without constructing one. -/
theorem reshape_after_plan (v : Vendor) (w0 w1 : World) (bs : List Blob) (sh : List Nat)
    (hfwd : Forward_cpu v w0 = Outcome.ok w1)
    (hN : 1 ≤ bs.length) (hsh : ∀ b, b ∈ bs → b.shape = sh) :
    ∃ plan s, w1.layer.sumPrimitive = some plan ∧
      Reshape { w1 with bottom := bs } = Outcome.ok s ∧
      s.top0.shape = sh ∧ s.layer.sumPrimitive = some plan ∧
      s.layer.fwd_bottom_data = w1.layer.fwd_bottom_data ∧
      s.layer.fwd_top_data = w1.layer.fwd_top_data ∧
      ∀ s2, Forward_cpu v s = Outcome.ok s2 →
        s2.layer.sumPrimitive = some plan ∧
        planConstructions s2.trace = planConstructions w1.trace := by
  obtain ⟨plan, hplan⟩ := Forward_cpu_plan v w0 w1 hfwd
  have hat : ∀ i, i < bs.length →
      (World.bottomAt { w1 with bottom := bs } i).shape = sh := by
    intro i hi
    apply hsh
    simp only [World.bottomAt]
    rw [List.getD_eq_getElem _ _ hi]
    exact List.getElem_mem hi
  have hall : ∀ i, i < ({ w1 with bottom := bs } : World).bottom.length →
      (World.bottomAt { w1 with bottom := bs } i).shape =
        (World.bottomAt { w1 with bottom := bs } 0).shape := by
    intro i hi
    rw [hat i hi, hat 0 (by omega)]
  obtain ⟨s, hs, htop, _⟩ := reshapeTop_ok { w1 with bottom := bs } hN
  obtain ⟨f1, f2, f3, _, _, _, f7, _⟩ := reshapeTop_frame _ s hs
  refine ⟨plan, s, hplan, ?_, ?_, f1.trans hplan, f2, f3, ?_⟩
  · rw [Reshape_eq_reshapeTop _ hall]
    exact hs
  · rw [htop]
    unfold Blob.ReshapeLike
    rw [Blob_Reshape_shape]
    exact hat 0 (by omega)
  · intro s2 h2
    obtain ⟨a1, a2, _⟩ := Forward_cpu_later v s s2 plan (f1.trans hplan) h2
    refine ⟨a1, a2.trans ?_⟩
    rw [f7]

/-- Witness of the amended C14: the small example after one forward call, then inputs of the
new shape `(3)`. -/
theorem reshape_after_plan_witness :
    Forward_cpu Vendor.reliable (LayerSetUp eltSmallWorld).state = Outcome.ok eltSmallReady ∧
    1 ≤ eltNewShapeBottom.length ∧
    (∀ b, b ∈ eltNewShapeBottom → b.shape = [3]) ∧
    ∃ plan s, eltSmallReady.layer.sumPrimitive = some plan ∧
      Reshape { eltSmallReady with bottom := eltNewShapeBottom } = Outcome.ok s ∧
      s.top0.shape = [3] ∧ s.layer.sumPrimitive = some plan ∧
      s.layer.fwd_bottom_data = eltSmallReady.layer.fwd_bottom_data ∧
      s.layer.fwd_top_data = eltSmallReady.layer.fwd_top_data ∧
      ∀ s2, Forward_cpu Vendor.reliable s = Outcome.ok s2 →
        s2.layer.sumPrimitive = some plan ∧
        planConstructions s2.trace = planConstructions eltSmallReady.trace :=
  have hmem : ∀ b, b ∈ eltNewShapeBottom → b.shape = [3] := by
    intro b hb
    simp only [eltNewShapeBottom, List.mem_cons, List.mem_singleton, List.not_mem_nil,
      or_false] at hb
    rcases hb with rfl | rfl <;> rfl
  ⟨rfl, Nat.succ_le_succ (Nat.zero_le _), hmem,
    reshape_after_plan Vendor.reliable (LayerSetUp eltSmallWorld).state eltSmallReady
      eltNewShapeBottom [3] rfl (Nat.succ_le_succ (Nat.zero_le _)) hmem⟩

/-! ## MKLEltwiseLayer: layout preservation in backward -/

/-- When every propagated input has coefficient 1 the backward loop returns, and every input
blob is either the one with the gradient copied in (flag true) or untouched (flag false). -/
theorem Backward_cpu_result_of_checks (w : World) (p : List Bool)
    (hop : w.layer.op_ = EltwiseOp.SUM) (hp : p.length = w.bottom.length)
    (hones : ∀ i, i < w.bottom.length → p[i]? = some true → w.layer.coeffs_[i]? = some 1) :
    ∃ s, Backward_cpu w p = Outcome.ok s ∧ s.layer = w.layer ∧ s.top0 = w.top0 ∧
      s.bottom.length = w.bottom.length ∧
      ∀ i, i < w.bottom.length →
        s.bottomAt i = if p[i]? = some true then copyDiff w.top0 (w.bottomAt i)
          else w.bottomAt i := by
  have h := forLoopM_ok_inv
    (fun k (s : World) => s.layer = w.layer ∧ s.top0 = w.top0 ∧
      s.bottom.length = w.bottom.length ∧
      ∀ i, i < w.bottom.length →
        s.bottomAt i = if i < k ∧ p[i]? = some true then copyDiff w.top0 (w.bottomAt i)
          else w.bottomAt i)
    0 w.bottom.length (backwardStep p) w
    ⟨rfl, rfl, rfl, fun i _ => by simp⟩
    (fun k hk s hs => by
      obtain ⟨hl, ht, hbl, hb⟩ := hs
      have hops : s.layer.op_ = EltwiseOp.SUM := by rw [hl]; exact hop
      rw [Nat.zero_add]
      rcases backwardStep_cases p k s hops with ⟨h1, h2⟩ | ⟨h1, _, h3⟩ | ⟨h1, _⟩
      · refine ⟨s, h2, hl, ht, hbl, fun i hi => ?_⟩
        rw [hb i hi]
        by_cases hik : i = k
        · subst hik; simp [h1]
        · have e : (i < k + 1) ↔ (i < k) := by
            constructor <;> intro h <;> omega
          simp only [e]
      · refine ⟨writeDiff s k, h3, hl, ht, ?_, fun i hi => ?_⟩
        · simp [writeDiff, World.setBottom, hbl]
        · by_cases hik : i = k
          · subst hik
            unfold writeDiff
            rw [bottomAt_setBottom_self _ _ _ (by omega), ht, hb i hi]
            simp [h1]
          · unfold writeDiff
            rw [bottomAt_setBottom_ne _ _ _ _ (Ne.symm hik), hb i hi]
            have e : (i < k + 1) ↔ (i < k) := by
              constructor <;> intro h <;> omega
            simp only [e]
      · exfalso
        rcases h1 with h1 | ⟨h1, h2⟩
        · have hk2 : k < p.length := by omega
          rw [List.getElem?_eq_getElem hk2] at h1
          cases h1
        · rw [hl] at h2
          exact h2 (hones k hk h1))
  obtain ⟨s, hs, hl, ht, hbl, hb⟩ := h
  refine ⟨s, hs, hl, ht, hbl, fun i hi => ?_⟩
  rw [hb i hi]
  simp [hi]

/-- C16. Layout preservation in `MKLEltwiseLayer::Backward_cpu`: for a backward call that
returns (selector SUM, one flag per input) and every propagated input `i`: if the output
gradient has an optimized form, the optimized gradient buffer of the input receives the copy
of `prv_diff_count` elements of it, the gradient descriptor of the input becomes that of the
output, and the plain gradient buffer of the input is as before; if the output gradient has no
optimized form, the plain gradient buffer of the input receives the copy of `count()`
elements of the plain output gradient, and the gradient descriptor and optimized gradient
buffer of the input are as before. -/
theorem backward_layout_preserved (w s : World) (p : List Bool)
    (hop : w.layer.op_ = EltwiseOp.SUM) (hp : p.length = w.bottom.length)
    (hret : Backward_cpu w p = Outcome.ok s) :
    ∀ i, i < w.bottom.length → p[i]? = some true →
      (∀ g, w.top0.prv_diff = some g →
        (s.bottomAt i).prv_diff =
          some (caffe_copy w.top0.prv_diff_count g ((w.bottomAt i).prv_diff.getD [])) ∧
        (s.bottomAt i).prv_descriptor_diff = w.top0.prv_descriptor_diff ∧
        (s.bottomAt i).cpu_diff = (w.bottomAt i).cpu_diff) ∧
      (w.top0.prv_diff = none →
        (s.bottomAt i).cpu_diff =
          caffe_copy w.top0.count w.top0.cpu_diff (w.bottomAt i).cpu_diff ∧
        (s.bottomAt i).prv_descriptor_diff = (w.bottomAt i).prv_descriptor_diff ∧
        (s.bottomAt i).prv_diff = (w.bottomAt i).prv_diff) := by
  have hok : (Backward_cpu w p).isOk = true := by rw [hret]; rfl
  have hchk := (Backward_cpu_isOk w p hop).1 hok
  have hones : ∀ i, i < w.bottom.length → p[i]? = some true →
      w.layer.coeffs_[i]? = some 1 := by
    intro i hi hpi
    rcases hchk i hi with h | ⟨_, h⟩
    · rw [hpi] at h; cases h
    · exact h
  obtain ⟨s2, hs2, _, _, _, hb⟩ := Backward_cpu_result_of_checks w p hop hp hones
  rw [hret] at hs2
  cases hs2
  intro i hi hpi
  rw [hb i hi, if_pos hpi]
  refine ⟨fun g hg => ?_, fun hnone => ?_⟩
  · rw [copyDiff_prv _ _ g hg]
    exact ⟨rfl, rfl, rfl⟩
  · rw [copyDiff_plain _ _ hnone]
    exact ⟨rfl, rfl, rfl⟩

/-- Witness of C16: an optimized output gradient `[5, 6]`, propagate flags `[true, false]`. -/
theorem backward_layout_preserved_witness :
    eltPrvBackward.layer.op_ = EltwiseOp.SUM ∧
    Backward_cpu eltPrvBackward [true, false] =
      Outcome.ok (Backward_cpu eltPrvBackward [true, false]).state ∧
    ∀ i, i < eltPrvBackward.bottom.length → [true, false][i]? = some true →
      (∀ g, eltPrvBackward.top0.prv_diff = some g →
        ((Backward_cpu eltPrvBackward [true, false]).state.bottomAt i).prv_diff =
          some (caffe_copy eltPrvBackward.top0.prv_diff_count g
            ((eltPrvBackward.bottomAt i).prv_diff.getD [])) ∧
        ((Backward_cpu eltPrvBackward [true, false]).state.bottomAt i).prv_descriptor_diff =
          eltPrvBackward.top0.prv_descriptor_diff ∧
        ((Backward_cpu eltPrvBackward [true, false]).state.bottomAt i).cpu_diff =
          (eltPrvBackward.bottomAt i).cpu_diff) ∧
      (eltPrvBackward.top0.prv_diff = none →
        ((Backward_cpu eltPrvBackward [true, false]).state.bottomAt i).cpu_diff =
          caffe_copy eltPrvBackward.top0.count eltPrvBackward.top0.cpu_diff
            (eltPrvBackward.bottomAt i).cpu_diff ∧
        ((Backward_cpu eltPrvBackward [true, false]).state.bottomAt i).prv_descriptor_diff =
          (eltPrvBackward.bottomAt i).prv_descriptor_diff ∧
        ((Backward_cpu eltPrvBackward [true, false]).state.bottomAt i).prv_diff =
          (eltPrvBackward.bottomAt i).prv_diff) :=
  ⟨rfl, rfl, backward_layout_preserved eltPrvBackward
    (Backward_cpu eltPrvBackward [true, false]).state [true, false] rfl rfl rfl⟩

/-! ## MKLEltwiseLayer: the selector after setup -/

theorem adoptDescriptors_op (w : World) :
    (adoptDescriptors w).state.1.layer.op_ = w.layer.op_ := by
  unfold adoptDescriptors
  apply forLoopM_state_inv (fun st : World × Option dnnLayout =>
    st.1.layer.op_ = w.layer.op_)
  · rfl
  · intro i st hst
    split
    · exact hst
    · split
      · exact hst
      · exact hst
      · exact hst

theorem adoptDescriptors_fault (w : World) (f : Fault) (st : World × Option dnnLayout)
    (h : adoptDescriptors w = Outcome.fault f st) :
    f = Fault.null_descr ∨ f = Fault.descr_type := by
  unfold adoptDescriptors at h
  refine forLoopM_fault_of_step (fun f => f = Fault.null_descr ∨ f = Fault.descr_type)
    0 w.layer.num_bottoms _ (w, none) ?_ f st h
  intro i s f2 s2 hstep
  split at hstep
  · cases hstep
  · split at hstep
    · cases hstep; exact Or.inl rfl
    · cases hstep; exact Or.inr rfl
    · cases hstep

theorem sumCreate_op (v : Vendor) (w : World) (layout : Option dnnLayout) :
    (sumCreate v w layout).state.layer.op_ = w.layer.op_ ∧
    ∀ f s, sumCreate v w layout = Outcome.fault f s → f = Fault.sum_create := by
  unfold sumCreate
  split
  · exact ⟨rfl, fun f s h => by cases h⟩
  · exact ⟨rfl, fun f s h => by cases h; rfl⟩

theorem deriveInternalLayouts_op (w : World) (p : dnnPrimitive) :
    (deriveInternalLayouts w p).layer.op_ = w.layer.op_ := by
  unfold deriveInternalLayouts
  apply forLoop_inv (fun s : World => s.layer.op_ = w.layer.op_)
  · rfl
  · intro i s _ hs
    split
    · exact hs
    · exact hs

theorem deriveAfterCreate_op (w : World) :
    ∃ s, deriveAfterCreate w = Outcome.ok s ∧ s.layer.op_ = w.layer.op_ := by
  unfold deriveAfterCreate
  split
  · exact ⟨_, rfl, deriveInternalLayouts_op w _⟩
  · exact ⟨_, rfl, rfl⟩

/-- Lines 92-128 keep the selector and halt only on a descriptor check or a failed
`dnnSumCreate`. -/
theorem buildPlan_op (v : Vendor) (w : World) (b : Bool) :
    (buildPlan v w b).state.layer.op_ = w.layer.op_ ∧
    ∀ f s, buildPlan v w b = Outcome.fault f s →
      f = Fault.null_descr ∨ f = Fault.descr_type ∨ f = Fault.sum_create := by
  cases hp : w.layer.sumPrimitive with
  | some p =>
    rw [buildPlan_some v w b p hp]
    exact ⟨rfl, fun f s h => by cases h⟩
  | none =>
    cases b with
    | false =>
      rw [buildPlan_plain v w hp]
      obtain ⟨h1, h2⟩ := sumCreate_op v w w.layer.fwd_top_data.layout_usr
      exact ⟨h1, fun f s h => Or.inr (Or.inr (h2 f s h))⟩
    | true =>
      rw [buildPlan_optimized v w hp]
      unfold buildPlanOptimized
      have hop := adoptDescriptors_op w
      cases had : adoptDescriptors w with
      | fault f st =>
        rw [had] at hop
        refine ⟨hop, fun f2 s2 h => ?_⟩
        have h2 : Outcome.fault f st.1 = Outcome.fault f2 s2 := h
        cases h2
        rcases adoptDescriptors_fault w _ st had with h3 | h3
        · exact Or.inl h3
        · exact Or.inr (Or.inl h3)
      | ok st =>
        rw [had] at hop
        have hop1 : st.1.layer.op_ = w.layer.op_ := hop
        obtain ⟨h1, h2⟩ := sumCreate_op v st.1 st.2
        show ((sumCreate v st.1 st.2).andThen deriveAfterCreate).state.layer.op_ = _ ∧
          ∀ f s, (sumCreate v st.1 st.2).andThen deriveAfterCreate = Outcome.fault f s → _
        cases hsc : sumCreate v st.1 st.2 with
        | fault f s1 =>
          rw [hsc] at h1
          refine ⟨h1.trans hop1, fun f2 s2 h => ?_⟩
          have h3 : Outcome.fault f s1 = Outcome.fault f2 s2 := h
          cases h3
          exact Or.inr (Or.inr (h2 _ _ hsc))
        | ok s1 =>
          rw [hsc] at h1
          obtain ⟨s3, hs3, hop3⟩ := deriveAfterCreate_op s1
          have e : (Outcome.ok s1).andThen deriveAfterCreate = Outcome.ok s3 := hs3
          rw [e]
          exact ⟨hop3.trans (h1.trans hop1), fun f s h => by cases h⟩

theorem resolveSources_op (w : World) (bd : List Resource) :
    (resolveSources w bd).1.layer.op_ = w.layer.op_ := by
  unfold resolveSources
  apply forLoop_inv (fun st : World × List Resource => st.1.layer.op_ = w.layer.op_)
  · rfl
  · intro i st _ hst
    simp only []
    split
    · exact hst
    · exact hst

theorem resolveDst_op (w : World) : (resolveDst w).1.layer.op_ = w.layer.op_ := by
  unfold resolveDst
  split <;> rfl

theorem storeResult_op (w : World) (p : dnnPrimitive) (src : List Resource) (dst : Ptr) :
    (storeResult w p src dst).layer.op_ = w.layer.op_ := by
  unfold storeResult
  simp only []
  split <;> rfl

/-- With the selector SUM the switch of lines 130-161 keeps the selector and halts only on a
failed `dnnExecute`. -/
theorem execute_op (v : Vendor) (w : World) (bd : List Resource)
    (hop : w.layer.op_ = EltwiseOp.SUM) :
    (execute v w bd).state.layer.op_ = EltwiseOp.SUM ∧
    ∀ f s, execute v w bd = Outcome.fault f s → f = Fault.execute := by
  have h1 := resolveSources_op w bd
  have h2 := resolveDst_op (resolveSources w bd).1
  have h3 : (resolveDst (resolveSources w bd).1).1.layer.op_ = EltwiseOp.SUM :=
    h2.trans (h1.trans hop)
  unfold execute
  rw [hop]
  simp only []
  split
  · split
    · refine ⟨?_, fun f s h => by cases h⟩
      show (storeResult _ _ _ _).layer.op_ = _
      rw [storeResult_op]
      exact h3
    · exact ⟨h3, fun f s h => by cases h; rfl⟩
  · exact ⟨h3, fun f s h => by cases h; rfl⟩

theorem NotOpFault_ok (s : World) : NotOpFault (Outcome.ok s) := by
  unfold NotOpFault
  exact ⟨fun h => (by cases h), fun h => (by cases h)⟩

theorem NotOpFault_fault (f : Fault) (s : World) (h1 : f ≠ Fault.unsupported_op)
    (h2 : f ≠ Fault.unknown_op) : NotOpFault (Outcome.fault f s) := by
  unfold NotOpFault
  exact ⟨fun h => h1 (Option.some.inj h), fun h => h2 (Option.some.inj h)⟩

/-- A forward call on an instance whose selector is SUM keeps the selector and takes neither
operation-fault branch. -/
theorem Forward_cpu_op (v : Vendor) (w : World) (hop : w.layer.op_ = EltwiseOp.SUM) :
    (Forward_cpu v w).state.layer.op_ = EltwiseOp.SUM ∧ NotOpFault (Forward_cpu v w) := by
  unfold Forward_cpu
  split
  · exact ⟨hop, NotOpFault_fault _ _ (by decide) (by decide)⟩
  · obtain ⟨b1, b2⟩ := buildPlan_op v w (probe w).2
    simp only []
    cases hb : buildPlan v w (probe w).2 with
    | fault f s1 =>
      rw [hb] at b1
      refine ⟨b1.trans hop, ?_⟩
      rcases b2 f s1 hb with h | h | h <;> subst h <;>
        exact NotOpFault_fault _ _ (by decide) (by decide)
    | ok s1 =>
      rw [hb] at b1
      have hop1 : s1.layer.op_ = EltwiseOp.SUM := b1.trans hop
      obtain ⟨e1, e2⟩ := execute_op v s1 (probe w).1 hop1
      show (execute v s1 (probe w).1).state.layer.op_ = _ ∧ NotOpFault (execute v s1 (probe w).1)
      refine ⟨e1, ?_⟩
      cases he : execute v s1 (probe w).1 with
      | ok s2 => exact NotOpFault_ok s2
      | fault f s2 =>
        have := e2 f s2 he
        subst this
        exact NotOpFault_fault _ _ (by decide) (by decide)

/-- A halt of a step of the backward loop with the selector SUM is an out-of-range read or
the coefficient check. -/
theorem backwardStep_fault (p : List Bool) (i : Nat) (w s : World) (f : Fault)
    (hop : w.layer.op_ = EltwiseOp.SUM) (h : backwardStep p i w = Outcome.fault f s) :
    f = Fault.out_of_range ∨ f = Fault.coeff_not_one := by
  unfold backwardStep at h
  split at h
  · cases h; exact Or.inl rfl
  · cases h
  · rw [hop] at h
    simp only [] at h
    split at h
    · cases h; exact Or.inl rfl
    · split at h
      · cases h
      · cases h; exact Or.inr rfl

/-- A backward call on an instance whose selector is SUM keeps the selector and takes
neither operation-fault branch. -/
theorem Backward_cpu_op (w : World) (p : List Bool) (hop : w.layer.op_ = EltwiseOp.SUM) :
    (Backward_cpu w p).state.layer.op_ = EltwiseOp.SUM ∧ NotOpFault (Backward_cpu w p) := by
  have hst := forLoopM_state_inv (fun s : World => s.layer = w.layer) 0 w.bottom.length
    (backwardStep p) w rfl
    (fun i s hs => ((backwardStep_frame p i s (by rw [hs]; exact hop)).1).trans hs)
  have hst2 : (Backward_cpu w p).state.layer = w.layer := hst
  refine ⟨by rw [hst2]; exact hop, ?_⟩
  cases hb : Backward_cpu w p with
  | ok s => exact NotOpFault_ok s
  | fault f s =>
    have hq : ∀ (P : Fault → Prop), (∀ i s f s2, s.layer.op_ = EltwiseOp.SUM →
        backwardStep p i s = Outcome.fault f s2 → P f) → P f := by
      intro P hP
      have key : ∀ n, ∀ f s, forLoopM 0 n (backwardStep p) w = Outcome.fault f s → P f := by
        intro n
        induction n with
        | zero => intro f s h; cases h
        | succ n ih =>
          intro f s h
          rw [forLoopM_succ] at h
          have hstn := forLoopM_state_inv (fun s : World => s.layer = w.layer) 0 n
            (backwardStep p) w rfl
            (fun i s hs => ((backwardStep_frame p i s (by rw [hs]; exact hop)).1).trans hs)
          cases h1 : forLoopM 0 n (backwardStep p) w with
          | ok s1 =>
            rw [h1] at h hstn
            have hl : s1.layer = w.layer := hstn
            exact hP _ s1 f s (by rw [hl]; exact hop) h
          | fault f1 s1 =>
            rw [h1] at h
            cases h
            exact ih _ _ h1
      exact key w.bottom.length f s hb
    have hf := hq (fun f => f = Fault.out_of_range ∨ f = Fault.coeff_not_one)
      (fun i s f s2 hops h => backwardStep_fault p i s s2 f hops h)
    rcases hf with h | h <;> subst h <;> exact NotOpFault_fault _ _ (by decide) (by decide)

/-- A reshape call keeps the selector and takes neither operation-fault branch. -/
theorem Reshape_op (w : World) :
    (Reshape w).state.layer.op_ = w.layer.op_ ∧ NotOpFault (Reshape w) := by
  have hst := forLoopM_state_inv (fun s : World => s = w) 1 (w.bottom.length - 1) reshapeCheck w
    rfl (fun i s hs => (reshapeCheck_state i s).trans hs)
  unfold Reshape
  cases hl : forLoopM 1 (w.bottom.length - 1) reshapeCheck w with
  | fault f s1 =>
    rw [hl] at hst
    have hs1 : s1 = w := hst
    subst hs1
    refine ⟨rfl, ?_⟩
    have hf := forLoopM_fault_of_step (fun f => f = Fault.shape_mismatch) 1
      (s1.bottom.length - 1) reshapeCheck s1
      (fun i s f s2 h => by
        unfold reshapeCheck at h
        split at h
        · cases h
        · cases h; rfl) f s1 hl
    subst hf
    exact NotOpFault_fault _ _ (by decide) (by decide)
  | ok s1 =>
    rw [hl] at hst
    have hs1 : s1 = w := hst
    subst hs1
    show (reshapeTop s1).state.layer.op_ = _ ∧ NotOpFault (reshapeTop s1)
    cases ht : reshapeTop s1 with
    | ok s2 =>
      exact ⟨(reshapeTop_frame s1 s2 ht).2.2.2.1, NotOpFault_ok s2⟩
    | fault f s2 =>
      unfold reshapeTop at ht
      split at ht
      · cases ht
        exact ⟨rfl, NotOpFault_fault _ _ (by decide) (by decide)⟩
      · simp only [] at ht
        split at ht <;> cases ht

/-- One call on an instance whose selector is SUM keeps the selector and takes neither
operation-fault branch. -/
theorem runCall_op (v : Vendor) (w : World) (c : LayerCall) (hop : w.layer.op_ = EltwiseOp.SUM) :
    (runCall v w c).state.layer.op_ = EltwiseOp.SUM ∧ NotOpFault (runCall v w c) := by
  cases c with
  | reshape bs t =>
    obtain ⟨h1, h2⟩ := Reshape_op { w with bottom := bs, top0 := t }
    exact ⟨h1.trans hop, h2⟩
  | forward bs t => exact Forward_cpu_op v { w with bottom := bs, top0 := t } hop
  | backward bs t p => exact Backward_cpu_op { w with bottom := bs, top0 := t } p hop

/-- A sequence of calls on an instance whose selector is SUM keeps the selector and takes
neither operation-fault branch. -/
theorem runCalls_op (v : Vendor) (calls : List LayerCall) :
    ∀ w : World, w.layer.op_ = EltwiseOp.SUM →
      (runCalls v w calls).state.layer.op_ = EltwiseOp.SUM ∧ NotOpFault (runCalls v w calls) := by
  induction calls with
  | nil => intro w hop; exact ⟨hop, NotOpFault_ok w⟩
  | cons c cs ih =>
    intro w hop
    obtain ⟨h1, h2⟩ := runCall_op v w c hop
    unfold runCalls
    cases hc : runCall v w c with
    | ok w1 =>
      rw [hc] at h1
      exact ih w1 h1
    | fault f w1 =>
      rw [hc] at h1 h2
      exact ⟨h1, h2⟩

/-- C18: on every instance whose `LayerSetUp` returned, the stored selector `op_` is SUM;
after every sequence of later `Reshape`, `Forward_cpu` and `Backward_cpu` calls, with any
blobs and any vendor statuses, the selector is still SUM, and the sequence does not halt in
the "Unsupported elementwise operation" branch nor in the "Unknown elementwise operation"
branch (a sequence stops at its first halt, so no call of it takes either branch). -/
theorem unsupported_op_unreachable (v : Vendor) (w0 w1 : World) (calls : List LayerCall)
    (hsetup : LayerSetUp w0 = Outcome.ok w1) :
    w1.layer.op_ = EltwiseOp.SUM ∧
    (runCalls v w1 calls).state.layer.op_ = EltwiseOp.SUM ∧
    (runCalls v w1 calls).fault? ≠ some Fault.unsupported_op ∧
    (runCalls v w1 calls).fault? ≠ some Fault.unknown_op := by
  have hop := (setup_ok_facts w0 w1 hsetup).1
  obtain ⟨h1, h2⟩ := runCalls_op v calls w1 hop
  unfold NotOpFault at h2
  exact ⟨hop, h1, h2.1, h2.2⟩

/-- Witness for C18: setup of the two-input instance followed by a reshape, a forward and a
backward call. -/
theorem unsupported_op_unreachable_witness :
    LayerSetUp eltSmallWorld = Outcome.ok (LayerSetUp eltSmallWorld).state ∧
    (LayerSetUp eltSmallWorld).state.layer.op_ = EltwiseOp.SUM ∧
    (runCalls Vendor.reliable (LayerSetUp eltSmallWorld).state eltOpCalls).state.layer.op_
      = EltwiseOp.SUM ∧
    (runCalls Vendor.reliable (LayerSetUp eltSmallWorld).state eltOpCalls).fault?
      ≠ some Fault.unsupported_op ∧
    (runCalls Vendor.reliable (LayerSetUp eltSmallWorld).state eltOpCalls).fault?
      ≠ some Fault.unknown_op :=
  ⟨rfl, unsupported_op_unreachable Vendor.reliable eltSmallWorld _ eltOpCalls rfl⟩

/-! ## Strides of the plain layout -/

theorem rowMajorOffsetFrom_acc (shape : List Nat) :
    ∀ (acc : Nat) (idx : List Nat),
      rowMajorOffsetFrom acc shape idx = acc * shape.prod + rowMajorOffsetFrom 0 shape idx := by
  induction shape with
  | nil => intro acc idx; simp [rowMajorOffsetFrom]
  | cons s rest ih =>
    intro acc idx
    show rowMajorOffsetFrom (acc * s + idx.headD 0) rest idx.tail =
      acc * (s :: rest).prod + rowMajorOffsetFrom (0 * s + idx.headD 0) rest idx.tail
    rw [ih (acc * s + idx.headD 0), ih (0 * s + idx.headD 0), List.prod_cons]
    ring

theorem rowMajorOffset_cons (s i : Nat) (rest irest : List Nat) :
    rowMajorOffset (s :: rest) (i :: irest) = i * rest.prod + rowMajorOffset rest irest := by
  show rowMajorOffsetFrom (0 * s + i) rest irest = _
  rw [rowMajorOffsetFrom_acc]
  simp [rowMajorOffset]

/-- The row-major offset of the legacy four-axis form is the nested expression of
`Blob::offset(n, c, h, w)`. -/
theorem rowMajorOffset_four (N C H W n c h w : Nat) :
    rowMajorOffset [N, C, H, W] [n, c, h, w] = ((n * C + c) * H + h) * W + w := by
  simp [rowMajorOffset, rowMajorOffsetFrom]

/-- A coordinate within the extents has a row-major offset below the element count. -/
theorem rowMajorOffset_lt (shape : List Nat) :
    ∀ idx : List Nat, idx.length = shape.length →
      (∀ k, k < shape.length → idx.getD k 0 < shape.getD k 0) →
      rowMajorOffset shape idx < shape.prod := by
  induction shape with
  | nil => intro idx _ _; simp [rowMajorOffset, rowMajorOffsetFrom]
  | cons s rest ih =>
    intro idx hlen hb
    cases idx with
    | nil => simp at hlen
    | cons i irest =>
      rw [rowMajorOffset_cons, List.prod_cons]
      have h0 : i < s := by simpa using hb 0 (by simp)
      have hr : rowMajorOffset rest irest < rest.prod :=
        ih irest (by simpa using hlen) (fun k hk => by
          have := hb (k + 1) (by simpa using hk)
          simpa using this)
      calc i * rest.prod + rowMajorOffset rest irest
          < i * rest.prod + rest.prod := Nat.add_lt_add_left hr _
        _ = (i + 1) * rest.prod := by ring
        _ ≤ s * rest.prod := Nat.mul_le_mul_right _ h0

/-- The coordinate-times-stride sum over the reversed axes is the row-major offset. -/
theorem stride_sum_eq (shape : List Nat) :
    ∀ idx : List Nat, idx.length = shape.length →
      ∑ d ∈ Finset.range shape.length,
        idx.getD (shape.length - 1 - d) 0 * (shape.reverse.take d).prod
        = rowMajorOffset shape idx := by
  induction shape with
  | nil => intro idx _; simp [rowMajorOffset, rowMajorOffsetFrom]
  | cons s rest ih =>
    intro idx hlen
    cases idx with
    | nil => simp at hlen
    | cons i irest =>
      have hl : irest.length = rest.length := by simpa using hlen
      rw [rowMajorOffset_cons, ← ih irest hl]
      show ∑ d ∈ Finset.range (rest.length + 1), _ = _
      rw [Finset.sum_range_succ, Nat.add_comm]
      congr 1
      · have e : rest.length + 1 - 1 - rest.length = 0 := by omega
        show (i :: irest).getD (rest.length + 1 - 1 - rest.length) 0 * _ = _
        rw [e, List.reverse_cons, List.take_append_of_le_length (by simp)]
        have ht : List.take rest.length rest.reverse = rest.reverse :=
          List.take_of_length_le (by simp)
        rw [ht, List.prod_reverse]
        rfl
      · apply Finset.sum_congr rfl
        intro d hd
        have hd2 : d < rest.length := Finset.mem_range.mp hd
        have e : rest.length + 1 - 1 - d = (rest.length - 1 - d) + 1 := by omega
        show (i :: irest).getD (rest.length + 1 - 1 - d) 0 * _ = _
        rw [e, List.getD_cons_succ, List.reverse_cons,
          List.take_append_of_le_length (by simp; omega)]

/-- The loop of lines 45-49 after `k` iterations: the first `k` extents are the shape read
backwards and the first `k` strides are the products of the extents before them, modulo
`2^64`. -/
theorem sizesStrides_loop (shape : List Nat) (k : Nat) (hk : k ≤ shape.length) :
    (forLoop k (fun d (st : List Nat × List Nat) =>
        ((st.1.set d (shape.getD (shape.length - d - 1) 0)),
         (st.2.set d (if d = 0 then 1 else (st.2.getD (d - 1) 0 *
           (st.1.set d (shape.getD (shape.length - d - 1) 0)).getD (d - 1) 0) % 2 ^ 64))))
      (List.replicate shape.length 0, List.replicate shape.length 0)).1.length = shape.length ∧
    (forLoop k (fun d (st : List Nat × List Nat) =>
        ((st.1.set d (shape.getD (shape.length - d - 1) 0)),
         (st.2.set d (if d = 0 then 1 else (st.2.getD (d - 1) 0 *
           (st.1.set d (shape.getD (shape.length - d - 1) 0)).getD (d - 1) 0) % 2 ^ 64))))
      (List.replicate shape.length 0, List.replicate shape.length 0)).2.length = shape.length ∧
    ∀ d, d < k →
      (forLoop k (fun d (st : List Nat × List Nat) =>
        ((st.1.set d (shape.getD (shape.length - d - 1) 0)),
         (st.2.set d (if d = 0 then 1 else (st.2.getD (d - 1) 0 *
           (st.1.set d (shape.getD (shape.length - d - 1) 0)).getD (d - 1) 0) % 2 ^ 64))))
        (List.replicate shape.length 0, List.replicate shape.length 0)).1.getD d 0
        = shape.reverse.getD d 0 ∧
      (forLoop k (fun d (st : List Nat × List Nat) =>
        ((st.1.set d (shape.getD (shape.length - d - 1) 0)),
         (st.2.set d (if d = 0 then 1 else (st.2.getD (d - 1) 0 *
           (st.1.set d (shape.getD (shape.length - d - 1) 0)).getD (d - 1) 0) % 2 ^ 64))))
        (List.replicate shape.length 0, List.replicate shape.length 0)).2.getD d 0
        = (shape.reverse.take d).prod % 2 ^ 64 := by
  induction k with
  | zero =>
    refine ⟨by simp [forLoop], by simp [forLoop], fun d hd => absurd hd (Nat.not_lt_zero d)⟩
  | succ k ih =>
    obtain ⟨l1, l2, hp⟩ := ih (Nat.le_of_succ_le hk)
    rw [forLoop_succ]
    generalize forLoop k _ _ = st at l1 l2 hp
    have hk1 : k < shape.length := hk
    have hrev : shape.getD (shape.length - k - 1) 0 = shape.reverse.getD k 0 := by
      have h1 : shape.length - k - 1 < shape.length := by omega
      have h2 : k < shape.reverse.length := by simpa using hk1
      rw [List.getD_eq_getElem _ _ h1, List.getD_eq_getElem _ _ h2, List.getElem_reverse]
      congr 1
      omega
    refine ⟨by simp [l1], by simp [l2], ?_⟩
    intro d hd
    by_cases hdk : d = k
    · subst hdk
      constructor
      · show (st.1.set d _).getD d 0 = _
        rw [List.getD_eq_getElem _ _ (by simp [l1]; exact hk1), List.getElem_set_self]
        exact hrev
      · show (st.2.set d _).getD d 0 = _
        rw [List.getD_eq_getElem _ _ (by simp [l2]; exact hk1), List.getElem_set_self]
        by_cases h0 : d = 0
        · subst h0; simp
        · rw [if_neg h0]
          obtain ⟨e, rfl⟩ : ∃ e, d = e + 1 := ⟨d - 1, by omega⟩
          have he := hp e (Nat.lt_succ_self e)
          have hset : (st.1.set (e + 1) (shape.getD (shape.length - (e + 1) - 1) 0)).getD
              (e + 1 - 1) 0 = st.1.getD e 0 := by
            simp [List.getD_eq_getElem?_getD, List.getElem?_set]
          rw [hset]
          show (st.2.getD e 0 * st.1.getD e 0) % 2 ^ 64 = _
          rw [he.1, he.2, List.prod_take_succ _ _ (by simp; omega),
            List.getD_eq_getElem _ _ (by simp; omega), Nat.mod_mul_mod]
    · have hd2 : d < k := by omega
      have he := hp d hd2
      constructor
      · show (st.1.set k _).getD d 0 = _
        rw [← he.1]
        simp [List.getD_eq_getElem?_getD, List.getElem?_set, Ne.symm hdk]
      · show (st.2.set k _).getD d 0 = _
        rw [← he.2]
        simp [List.getD_eq_getElem?_getD, List.getElem?_set, Ne.symm hdk]

/-- The strides computed by lines 45-49: `strides[d]` is the product of the first `d`
extents of the reversed shape, modulo `2^64`. -/
theorem sizesStrides_strides (shape : List Nat) (d : Nat) (hd : d < shape.length) :
    (sizesStrides shape).2.getD d 0 = (shape.reverse.take d).prod % 2 ^ 64 :=
  ((sizesStrides_loop shape shape.length (Nat.le_refl _)).2.2 d hd).2

/-- With every extent at least 1, the product of the first `d` extents is at most the
product of all of them. -/
theorem prod_take_le (l : List Nat) (d : Nat) (hpos : ∀ s, s ∈ l → 1 ≤ s) :
    (l.take d).prod ≤ l.prod := by
  have h := List.prod_take_mul_prod_drop l d
  have hdrop : 0 < (l.drop d).prod :=
    List.prod_pos (fun a ha => hpos a (List.mem_of_mem_drop ha))
  calc (l.take d).prod ≤ (l.take d).prod * (l.drop d).prod := Nat.le_mul_of_pos_right _ hdrop
    _ = l.prod := h

/-- Counterexample to C17 as stated: a first input of shape `(0, 2^31-1, 2^31-1, 2^31-1)`
(a blob without elements). `LayerSetUp` returns, the extents of the descriptor are the
shape reversed, and `strides[3]` is `4611686024869838847`, the product
`(2^31-1)^3 = 9903520300447984150353281023` of `sizes[0..2]` wrapped modulo `2^64`, not
that product. -/
theorem stride_wrap_counterexample :
    LayerSetUp eltWrapWorld = Outcome.ok (LayerSetUp eltWrapWorld).state ∧
    (LayerSetUp eltWrapWorld).state.layer.fwd_top_data.layout_usr = some (dnnLayout.plain
      [2147483647, 2147483647, 2147483647, 0]
      [1, 2147483647, 4611686014132420609, 4611686024869838847]) ∧
    ((sizesStrides (eltWrapWorld.bottomAt 0).shape).1.take 3).prod
      = 9903520300447984150353281023 ∧
    ¬ (∀ d, d < (eltWrapWorld.bottomAt 0).shape.length →
      (sizesStrides (eltWrapWorld.bottomAt 0).shape).2.getD d 0
        = ((sizesStrides (eltWrapWorld.bottomAt 0).shape).1.take d).prod) :=
  ⟨rfl, rfl, by decide, fun h => absurd (h 3 (by decide)) (by decide)⟩

/-- C17 as amended: the plain layout that `LayerSetUp` of a new layer builds from a first
input of shape `(s_0, ..., s_{D-1})`, `D ≥ 1`. The extents are the shape reversed
(`sizes[d] = s_{D-1-d}`); `strides[0] = 1` and `strides[d]` is the product of
`sizes[0..d-1]` modulo `2^64` (the arithmetic of `size_t`). When none of these products
reaches `2^64`, which is the case when every extent is at least 1 and the element count is
below `2^64`, `strides[d]` is the product itself, for every coordinate
`(i_0, ..., i_{D-1})` with `i_k < s_k` the sum over `d` of `i_{D-1-d} * strides[d]` is the
row-major flat offset of the coordinate, which lies below the element count, and
`strides[D-1] * sizes[D-1]` is the element count. Every input's descriptor and the output's
descriptor carry exactly these extents and strides. -/
theorem plain_layout_row_major (w0 w1 : World) (hsetup : LayerSetUp w0 = Outcome.ok w1)
    (hb : w0.layer.fwd_bottom_data = []) (ht : w0.layer.fwd_top_data = MKLData.fresh)
    (hD : 1 ≤ (w0.bottomAt 0).shape.length) :
    (sizesStrides (w0.bottomAt 0).shape).1 = (w0.bottomAt 0).shape.reverse ∧
    (sizesStrides (w0.bottomAt 0).shape).2.length = (w0.bottomAt 0).shape.length ∧
    (∀ d, d < (w0.bottomAt 0).shape.length →
      (sizesStrides (w0.bottomAt 0).shape).1.getD d 0
        = (w0.bottomAt 0).shape.getD ((w0.bottomAt 0).shape.length - 1 - d) 0) ∧
    (sizesStrides (w0.bottomAt 0).shape).2.getD 0 0 = 1 ∧
    (∀ d, d < (w0.bottomAt 0).shape.length →
      (sizesStrides (w0.bottomAt 0).shape).2.getD d 0
        = ((sizesStrides (w0.bottomAt 0).shape).1.take d).prod % 2 ^ 64) ∧
    ((∀ d, d < (w0.bottomAt 0).shape.length →
        ((sizesStrides (w0.bottomAt 0).shape).1.take d).prod < 2 ^ 64) →
      (∀ d, d < (w0.bottomAt 0).shape.length →
        (sizesStrides (w0.bottomAt 0).shape).2.getD d 0
          = ((sizesStrides (w0.bottomAt 0).shape).1.take d).prod) ∧
      (∀ idx : List Nat, idx.length = (w0.bottomAt 0).shape.length →
        (∀ k, k < (w0.bottomAt 0).shape.length →
          idx.getD k 0 < (w0.bottomAt 0).shape.getD k 0) →
        ∑ d ∈ Finset.range (w0.bottomAt 0).shape.length,
            idx.getD ((w0.bottomAt 0).shape.length - 1 - d) 0 *
              (sizesStrides (w0.bottomAt 0).shape).2.getD d 0
          = rowMajorOffset (w0.bottomAt 0).shape idx ∧
        rowMajorOffset (w0.bottomAt 0).shape idx < (w0.bottomAt 0).count) ∧
      (sizesStrides (w0.bottomAt 0).shape).2.getD ((w0.bottomAt 0).shape.length - 1) 0 *
        (sizesStrides (w0.bottomAt 0).shape).1.getD ((w0.bottomAt 0).shape.length - 1) 0
        = (w0.bottomAt 0).count) ∧
    ((∀ s, s ∈ (w0.bottomAt 0).shape → 1 ≤ s) → (w0.bottomAt 0).count < 2 ^ 64 →
      ∀ d, d < (w0.bottomAt 0).shape.length →
        ((sizesStrides (w0.bottomAt 0).shape).1.take d).prod < 2 ^ 64) ∧
    w1.layer.fwd_bottom_data.length = w0.bottom.length ∧
    (∀ i, i < w0.bottom.length →
      (w1.descrAt i).layout_usr = some (dnnLayout.plain
        (sizesStrides (w0.bottomAt 0).shape).1 (sizesStrides (w0.bottomAt 0).shape).2)) ∧
    w1.layer.fwd_top_data.layout_usr = some (dnnLayout.plain
      (sizesStrides (w0.bottomAt 0).shape).1 (sizesStrides (w0.bottomAt 0).shape).2) := by
  generalize hsh : (w0.bottomAt 0).shape = shape at hD
  have hcount : (w0.bottomAt 0).count = shape.prod := by rw [Blob.count, hsh]
  rw [hcount]
  have hsz := sizesStrides_sizes shape
  have hst := sizesStrides_strides shape
  obtain ⟨hdb, hdt⟩ := setup_fresh_descrs w0 w1 hsetup hb ht
  rw [hsh] at hdb hdt
  refine ⟨hsz, (sizesStrides_length shape).2, ?_, ?_, ?_, ?_, ?_, ?_, ?_, ?_⟩
  · intro d hd
    rw [hsz, List.getD_eq_getElem _ _ (by simpa using hd), List.getElem_reverse,
      List.getD_eq_getElem _ _ (by omega)]
  · rw [hst 0 hD]; rfl
  · intro d hd
    rw [hst d hd, hsz]
  · intro hnw
    rw [hsz] at hnw
    have hex : ∀ d, d < shape.length →
        (sizesStrides shape).2.getD d 0 = (shape.reverse.take d).prod := by
      intro d hd
      rw [hst d hd, Nat.mod_eq_of_lt (hnw d hd)]
    refine ⟨?_, ?_, ?_⟩
    · intro d hd
      rw [hex d hd, hsz]
    · intro idx hlen hbd
      refine ⟨?_, rowMajorOffset_lt shape idx hlen hbd⟩
      rw [← stride_sum_eq shape idx hlen]
      apply Finset.sum_congr rfl
      intro d hd
      rw [hex d (Finset.mem_range.mp hd)]
    · have hlt : shape.length - 1 < shape.reverse.length := by simp; omega
      rw [hex _ (by omega), hsz, List.getD_eq_getElem _ _ hlt,
        ← List.prod_take_succ _ _ hlt, List.take_of_length_le (by simp; omega),
        List.prod_reverse]
  · intro hpos hlt d _
    rw [hsz]
    have hle := prod_take_le shape.reverse d (fun s hs => hpos s (List.mem_reverse.mp hs))
    rw [List.prod_reverse] at hle
    omega
  · rw [hdb]; simp
  · intro i hi
    unfold World.descrAt
    rw [hdb, List.getD_eq_getElem _ _ (by simpa using hi)]
    simp [plainLayout]
  · rw [hdt]; rfl

/-- Witness for C17: the end-to-end example, whose first input has shape `(2, 4, 4, 5)`. -/
theorem plain_layout_row_major_witness :
    LayerSetUp eltTestWorld = Outcome.ok (LayerSetUp eltTestWorld).state ∧
    eltTestWorld.layer.fwd_bottom_data = [] ∧
    eltTestWorld.layer.fwd_top_data = MKLData.fresh ∧
    1 ≤ (eltTestWorld.bottomAt 0).shape.length ∧
    (sizesStrides (eltTestWorld.bottomAt 0).shape).1 = (eltTestWorld.bottomAt 0).shape.reverse ∧
    (sizesStrides (eltTestWorld.bottomAt 0).shape).2.getD 0 0 = 1 ∧
    (∀ d, d < (eltTestWorld.bottomAt 0).shape.length →
      (sizesStrides (eltTestWorld.bottomAt 0).shape).2.getD d 0
        = ((sizesStrides (eltTestWorld.bottomAt 0).shape).1.take d).prod % 2 ^ 64) ∧
    (LayerSetUp eltTestWorld).state.layer.fwd_top_data.layout_usr = some (dnnLayout.plain
      (sizesStrides (eltTestWorld.bottomAt 0).shape).1
      (sizesStrides (eltTestWorld.bottomAt 0).shape).2) :=
  ⟨rfl, rfl, rfl, Nat.succ_le_succ (Nat.zero_le _),
    (plain_layout_row_major eltTestWorld _ rfl rfl rfl (Nat.succ_le_succ (Nat.zero_le _))).1,
    (plain_layout_row_major eltTestWorld _ rfl rfl rfl
      (Nat.succ_le_succ (Nat.zero_le _))).2.2.2.1,
    (plain_layout_row_major eltTestWorld _ rfl rfl rfl
      (Nat.succ_le_succ (Nat.zero_le _))).2.2.2.2.1,
    (plain_layout_row_major eltTestWorld _ rfl rfl rfl
      (Nat.succ_le_succ (Nat.zero_le _))).2.2.2.2.2.2.2.2.2⟩

/-! ## Layout of the resources on later forward calls -/

/-- C20 (divergence): on the two-input example, after a first forward call with both inputs
plain (the plan is built on the plain layout and no descriptor requires a conversion), a
second forward call whose input 1 carries an optimized buffer in the internal layout 7
returns normally, keeps the plan built on the plain layout, and hands to that plan, for
source position 1, the optimized buffer `bottom[1]->prv_data()` in the internal layout 7,
not a plain-layout buffer; the output `[35, 46]` is computed from the values of that
buffer read as they lie. -/
theorem stale_plan_mixed_layout :
    (forwardCalls Vendor.reliable (LayerSetUp eltSmallWorld).state (eltSmallCalls.take 2)).isOk
      = true ∧
    (forwardCalls Vendor.reliable (LayerSetUp eltSmallWorld).state
      (eltSmallCalls.take 1)).state.layer.sumPrimitive
      = some { nSummands := 2, layout := some (plainLayout [2]), coeffs := [1, 1] } ∧
    (forwardCalls Vendor.reliable (LayerSetUp eltSmallWorld).state
      (eltSmallCalls.take 1)).state.layer.fwd_bottom_data.map MKLData.convert_to_int
      = [false, false] ∧
    (forwardCalls Vendor.reliable (LayerSetUp eltSmallWorld).state
      (eltSmallCalls.take 2)).state.layer.sumPrimitive
      = some { nSummands := 2, layout := some (plainLayout [2]), coeffs := [1, 1] } ∧
    (forwardCalls Vendor.reliable (LayerSetUp eltSmallWorld).state
      (eltSmallCalls.take 2)).state.trace.getLast?
      = some (VendorCall.execute
          (some { nSummands := 2, layout := some (plainLayout [2]), coeffs := [1, 1] })
          [{ ptr := Ptr.bottom_cpu 0, layout := some (plainLayout [2]), vals := [5, 6] },
           { ptr := Ptr.bottom_prv 1, layout := some (dnnLayout.internal 7 [2]),
             vals := [30, 40] }]
          Ptr.top_cpu) ∧
    some (dnnLayout.internal 7 [2]) ≠ some (plainLayout [2]) ∧
    (forwardCalls Vendor.reliable (LayerSetUp eltSmallWorld).state
      (eltSmallCalls.take 2)).state.top0.cpu_data = [35, 46] :=
  ⟨rfl, rfl, rfl, rfl, rfl, by decide, rfl⟩

/-! ## Layout selection on the first forward call -/

/-- An invariant indexed by the number of iterations done. -/
theorem forLoop_index_inv {σ : Type} (J : Nat → σ → Prop) (n : Nat) (body : Nat → σ → σ) (s : σ)
    (h0 : J 0 s) (hstep : ∀ k, k < n → ∀ s, J k s → J (k + 1) (body k s)) :
    J n (forLoop n body s) := by
  induction n with
  | zero => exact h0
  | succ n ih =>
    rw [forLoop_succ]
    exact hstep n (Nat.lt_succ_self n) _ (ih (fun k hk => hstep k (Nat.lt_succ_of_lt hk)))

theorem descrAt_setDescr (w : World) (i k : Nat) (d : MKLData)
    (hi : i < w.layer.fwd_bottom_data.length) :
    (w.setDescr i d).descrAt k = if k = i then d else w.descrAt k := by
  unfold World.setDescr World.descrAt
  simp only [List.getD_eq_getElem?_getD, List.getElem?_set]
  by_cases hk : k = i
  · subst hk; simp [hi]
  · simp [hk, Ne.symm hk]

/-- With an optimized input among the first `num_bottoms`, the probe sets `num_prv`. -/
theorem probe_optimized (w : World) (j : Nat) (p : List Dtype) (hj : j < w.layer.num_bottoms)
    (hopt : (w.bottomAt j).prv_data = some p) : (probe w).2 = true := by
  unfold probe
  have h := forLoop_index_inv
    (fun k (st : List Resource × Bool) => j < k → st.2 = true) w.layer.num_bottoms
    (fun i (st : List Resource × Bool) =>
      match (w.bottomAt i).prv_data with
      | some p =>
        (st.1 ++ [{ ptr := Ptr.bottom_prv i, layout := prvLayout (w.bottomAt i), vals := p }],
          true)
      | none =>
        (st.1 ++ [{ ptr := Ptr.bottom_cpu i, layout := some (plainLayout (w.bottomAt i).shape),
                    vals := (w.bottomAt i).cpu_data }], st.2)) ([], false)
    (fun h => absurd h (Nat.not_lt_zero j))
    (fun k _ st hst hjk => by
      by_cases hk : j = k
      · subst hk
        simp only [hopt]
      · have := hst (by omega)
        beta_reduce
        split
        · rfl
        · exact this)
  exact h hj

/-- The loop of lines 95-108 when every optimized input carries an MKL2017 descriptor and
the lowest-index optimized input `j` has the internal layout `L`: the loop returns, the slot
of every optimized input holds the descriptor the input arrived with, the other slots are
as they were, and `int_layout` is `L`. -/
theorem adoptDescriptors_spec (w : World) (j : Nat) (pj : List Dtype) (dj : MKLData)
    (L : dnnLayout)
    (hlen : w.layer.num_bottoms ≤ w.layer.fwd_bottom_data.length)
    (hdescr : ∀ i p, i < w.layer.num_bottoms → (w.bottomAt i).prv_data = some p →
      ∃ d, (w.bottomAt i).prv_descriptor_data = some (PrvMemDescr.mkl2017 d))
    (hj : j < w.layer.num_bottoms) (hopt : (w.bottomAt j).prv_data = some pj)
    (hmin : ∀ i, i < j → (w.bottomAt i).prv_data = none)
    (hdj : (w.bottomAt j).prv_descriptor_data = some (PrvMemDescr.mkl2017 dj))
    (hL : dj.layout_int = some L) :
    ∃ wa, adoptDescriptors w = Outcome.ok (wa, some L) ∧ SameCore w wa ∧
      wa.layer.fwd_top_data = w.layer.fwd_top_data ∧
      wa.layer.fwd_bottom_data.length = w.layer.fwd_bottom_data.length ∧
      (∀ i, (w.layer.num_bottoms ≤ i ∨ (w.bottomAt i).prv_data = none) →
        wa.descrAt i = w.descrAt i) ∧
      (∀ i p d, i < w.layer.num_bottoms → (w.bottomAt i).prv_data = some p →
        (w.bottomAt i).prv_descriptor_data = some (PrvMemDescr.mkl2017 d) →
        wa.descrAt i = d) := by
  have key := forLoopM_ok_inv
    (fun k (st : World × Option dnnLayout) =>
      SameCore w st.1 ∧ st.1.layer.fwd_top_data = w.layer.fwd_top_data ∧
      st.1.layer.fwd_bottom_data.length = w.layer.fwd_bottom_data.length ∧
      (∀ i, (k ≤ i ∨ (w.bottomAt i).prv_data = none) → st.1.descrAt i = w.descrAt i) ∧
      (∀ i p d, i < k → (w.bottomAt i).prv_data = some p →
        (w.bottomAt i).prv_descriptor_data = some (PrvMemDescr.mkl2017 d) →
        st.1.descrAt i = d) ∧
      (k ≤ j → st.2 = none) ∧ (j < k → st.2 = some L))
    0 w.layer.num_bottoms
    (fun i (st : World × Option dnnLayout) =>
      match (st.1.bottomAt i).prv_data with
      | none => Outcome.ok st
      | some _ =>
        match (st.1.bottomAt i).prv_descriptor_data with
        | none => Outcome.fault Fault.null_descr st
        | some PrvMemDescr.other => Outcome.fault Fault.descr_type st
        | some (PrvMemDescr.mkl2017 mem_descr) =>
          Outcome.ok (st.1.setDescr i mem_descr,
            if st.2 = none then mem_descr.layout_int else st.2)) (w, none)
    ⟨SameCore_refl w, rfl, rfl, fun _ _ => rfl,
      fun i _ _ hi => absurd hi (Nat.not_lt_zero i), fun _ => rfl,
      fun h => absurd h (Nat.not_lt_zero j)⟩
    (by
      intro k hk st ⟨hc, ht, hl, hkeep, hset, hn, hs⟩
      have hb : st.1.bottomAt k = w.bottomAt k := by
        unfold World.bottomAt; rw [hc.1]
      rw [Nat.zero_add]
      beta_reduce
      rw [hb]
      cases hpk : (w.bottomAt k).prv_data with
      | none =>
        refine ⟨st, rfl, hc, ht, hl, ?_, ?_, ?_, ?_⟩
        · intro i hi
          exact hkeep i (hi.elim (fun h => Or.inl (by omega)) Or.inr)
        · intro i p d hi hpi hdi
          have hik : i ≠ k := fun e => by rw [e, hpk] at hpi; cases hpi
          exact hset i p d (by omega) hpi hdi
        · intro hkj
          exact hn (by omega)
        · intro hjk
          have hjk2 : j ≠ k := fun e => by rw [e, hpk] at hopt; cases hopt
          exact hs (by omega)
      | some p =>
        obtain ⟨d, hd⟩ := hdescr k p hk hpk
        simp only [hd]
        have hkl : k < st.1.layer.fwd_bottom_data.length := by omega
        refine ⟨_, rfl, ?_, ht, ?_, ?_, ?_, ?_, ?_⟩
        · exact hc
        · show (st.1.layer.fwd_bottom_data.set k d).length = _
          rw [List.length_set]; exact hl
        · intro i hi
          have hik : i ≠ k := by
            rcases hi with h | h
            · omega
            · intro e; rw [e, hpk] at h; cases h
          rw [descrAt_setDescr _ _ _ _ hkl, if_neg hik]
          exact hkeep i (hi.elim (fun h => Or.inl (by omega)) Or.inr)
        · intro i p2 d2 hi hpi hdi
          rw [descrAt_setDescr _ _ _ _ hkl]
          by_cases hik : i = k
          · rw [if_pos hik]
            rw [hik, hd] at hdi
            cases hdi
            rfl
          · rw [if_neg hik]
            exact hset i p2 d2 (by omega) hpi hdi
        · intro hkj
          have : k < j := by omega
          rw [hmin k this] at hpk
          cases hpk
        · intro hjk
          by_cases hjk2 : j = k
          · subst hjk2
            rw [hdj] at hd
            cases hd
            show (if st.2 = none then dj.layout_int else st.2) = some L
            rw [if_pos (hn (Nat.le_refl _)), hL]
          · have h2 := hs (by omega)
            show (if st.2 = none then d.layout_int else st.2) = some L
            rw [h2]
            rfl)
  obtain ⟨st, hst, hc, ht, hl, hkeep, hset, _, hs⟩ := key
  have h2 : st.2 = some L := hs hj
  refine ⟨st.1, ?_, hc, ht, hl, hkeep, hset⟩
  unfold adoptDescriptors
  rw [hst, ← h2]

/-- Lines 113-120 on a plan `p`: the output descriptor derives its internal layout for the
destination role, the descriptor of every input that is not optimized derives its internal
layout for its own source role, the other slots are as they were, and the vendor calls made
are the one for the destination and one for each input that is not optimized, in order. -/
theorem deriveInternalLayouts_spec (w : World) (p : dnnPrimitive)
    (hlen : w.layer.num_bottoms ≤ w.layer.fwd_bottom_data.length) :
    (deriveInternalLayouts w p).bottom = w.bottom ∧
    (deriveInternalLayouts w p).top0 = w.top0 ∧
    (deriveInternalLayouts w p).layer.sumPrimitive = w.layer.sumPrimitive ∧
    (deriveInternalLayouts w p).layer.fwd_top_data =
      w.layer.fwd_top_data.create_internal_layout p dnnResourceType_t.dnnResourceDst ∧
    (∀ i, (w.layer.num_bottoms ≤ i ∨ (w.bottomAt i).prv_data ≠ none) →
      (deriveInternalLayouts w p).descrAt i = w.descrAt i) ∧
    (∀ i, i < w.layer.num_bottoms → (w.bottomAt i).prv_data = none →
      (deriveInternalLayouts w p).descrAt i =
        (w.descrAt i).create_internal_layout p (dnnResourceType_t.dnnResourceMultipleSrc i)) ∧
    (deriveInternalLayouts w p).trace =
      w.trace ++ [VendorCall.layoutCreateFromPrimitive p dnnResourceType_t.dnnResourceDst] ++
        ((List.range w.layer.num_bottoms).filter
          (fun i => (w.bottomAt i).prv_data.isNone)).map
          (fun i => VendorCall.layoutCreateFromPrimitive p
            (dnnResourceType_t.dnnResourceMultipleSrc i)) := by
  have key := forLoop_index_inv
    (fun k (s : World) =>
      s.bottom = w.bottom ∧ s.top0 = w.top0 ∧ s.layer.sumPrimitive = w.layer.sumPrimitive ∧
      s.layer.fwd_top_data =
        w.layer.fwd_top_data.create_internal_layout p dnnResourceType_t.dnnResourceDst ∧
      s.layer.fwd_bottom_data.length = w.layer.fwd_bottom_data.length ∧
      (∀ i, (k ≤ i ∨ (w.bottomAt i).prv_data ≠ none) → s.descrAt i = w.descrAt i) ∧
      (∀ i, i < k → (w.bottomAt i).prv_data = none →
        s.descrAt i =
          (w.descrAt i).create_internal_layout p (dnnResourceType_t.dnnResourceMultipleSrc i)) ∧
      s.trace =
        w.trace ++ [VendorCall.layoutCreateFromPrimitive p dnnResourceType_t.dnnResourceDst] ++
          ((List.range k).filter (fun i => (w.bottomAt i).prv_data.isNone)).map
            (fun i => VendorCall.layoutCreateFromPrimitive p
              (dnnResourceType_t.dnnResourceMultipleSrc i)))
    w.layer.num_bottoms
    (fun i (w : World) =>
      match (w.bottomAt i).prv_data with
      | none =>
        let role := dnnResourceType_t.dnnResourceMultipleSrc i
        let w2 := w.setDescr i ((w.descrAt i).create_internal_layout p role)
        { w2 with trace := w2.trace ++ [VendorCall.layoutCreateFromPrimitive p role] }
      | some _ => w)
    { w with
      layer := { w.layer with fwd_top_data :=
        w.layer.fwd_top_data.create_internal_layout p dnnResourceType_t.dnnResourceDst }
      trace := w.trace ++ [VendorCall.layoutCreateFromPrimitive p dnnResourceType_t.dnnResourceDst] }
    ⟨rfl, rfl, rfl, rfl, rfl, fun _ _ => rfl, fun i hi => absurd hi (Nat.not_lt_zero i),
      by simp⟩
    (by
      intro k hk s ⟨hb, ht, hp, hf, hl, hkeep, hset, htr⟩
      have hbk : s.bottomAt k = w.bottomAt k := by
        unfold World.bottomAt; rw [hb]
      beta_reduce
      rw [hbk]
      have hkl : k < s.layer.fwd_bottom_data.length := by omega
      cases hpk : (w.bottomAt k).prv_data with
      | some q =>
        refine ⟨hb, ht, hp, hf, hl, ?_, ?_, ?_⟩
        · intro i hi
          exact hkeep i (hi.elim (fun h => Or.inl (by omega)) Or.inr)
        · intro i hi hpi
          have hik : i ≠ k := fun e => by rw [e, hpk] at hpi; cases hpi
          exact hset i (by omega) hpi
        · rw [htr, List.range_succ, List.filter_append]
          simp [hpk]
      | none =>
        refine ⟨hb, ht, hp, hf, ?_, ?_, ?_, ?_⟩
        · show (s.layer.fwd_bottom_data.set k _).length = _
          rw [List.length_set]; exact hl
        · intro i hi
          have hik : i ≠ k := by
            rcases hi with h | h
            · omega
            · intro e; rw [e] at h; exact h hpk
          show (s.setDescr k _).descrAt i = _
          rw [descrAt_setDescr _ _ _ _ hkl, if_neg hik]
          exact hkeep i (hi.elim (fun h => Or.inl (by omega)) Or.inr)
        · intro i hi hpi
          show (s.setDescr k _).descrAt i = _
          rw [descrAt_setDescr _ _ _ _ hkl]
          by_cases hik : i = k
          · rw [if_pos hik, hik, hkeep k (Or.inl (Nat.le_refl k))]
          · rw [if_neg hik]
            exact hset i (by omega) hpi
        · show s.trace ++ _ = _
          rw [htr, List.range_succ, List.filter_append]
          simp [hpk])
  obtain ⟨hb, ht, hp, hf, _, hkeep, hset, htr⟩ := key
  exact ⟨hb, ht, hp, hf, hkeep, hset, htr⟩

/-- Lines 92-121 on a first call with an optimized input: the plan built, the descriptors
derived and the vendor calls made. -/
theorem buildPlan_first_optimized (v : Vendor) (w : World) (j : Nat) (pj : List Dtype)
    (dj : MKLData) (L : dnnLayout)
    (hp : w.layer.sumPrimitive = none)
    (hlenb : w.layer.num_bottoms ≤ w.bottom.length)
    (hlen : w.layer.num_bottoms ≤ w.layer.fwd_bottom_data.length)
    (hdescr : ∀ i p, i < w.layer.num_bottoms → (w.bottomAt i).prv_data = some p →
      ∃ d, (w.bottomAt i).prv_descriptor_data = some (PrvMemDescr.mkl2017 d))
    (hj : j < w.layer.num_bottoms) (hopt : (w.bottomAt j).prv_data = some pj)
    (hmin : ∀ i, i < j → (w.bottomAt i).prv_data = none)
    (hdj : (w.bottomAt j).prv_descriptor_data = some (PrvMemDescr.mkl2017 dj))
    (hL : dj.layout_int = some L)
    (hv : v.sumCreateStatus w.layer.num_bottoms (some L) w.layer.coeffs_ = E_SUCCESS) :
    ∃ s, buildPlan v w (probe w).2 = Outcome.ok s ∧
      Forward_cpu v w = execute v s (probe w).1 ∧
      s.layer.sumPrimitive = some
        { nSummands := w.layer.num_bottoms, layout := some L, coeffs := w.layer.coeffs_ } ∧
      s.layer.fwd_top_data = w.layer.fwd_top_data.create_internal_layout
        { nSummands := w.layer.num_bottoms, layout := some L, coeffs := w.layer.coeffs_ }
        dnnResourceType_t.dnnResourceDst ∧
      (∀ i, i < w.layer.num_bottoms → (w.bottomAt i).prv_data = none →
        s.descrAt i = (w.descrAt i).create_internal_layout
          { nSummands := w.layer.num_bottoms, layout := some L, coeffs := w.layer.coeffs_ }
          (dnnResourceType_t.dnnResourceMultipleSrc i)) ∧
      (∀ i p d, i < w.layer.num_bottoms → (w.bottomAt i).prv_data = some p →
        (w.bottomAt i).prv_descriptor_data = some (PrvMemDescr.mkl2017 d) →
        s.descrAt i = d) ∧
      s.trace = w.trace ++
        [VendorCall.sumCreate w.layer.num_bottoms (some L) w.layer.coeffs_,
         VendorCall.layoutCreateFromPrimitive
          { nSummands := w.layer.num_bottoms, layout := some L, coeffs := w.layer.coeffs_ }
          dnnResourceType_t.dnnResourceDst] ++
        ((List.range w.layer.num_bottoms).filter
          (fun i => (w.bottomAt i).prv_data.isNone)).map
          (fun i => VendorCall.layoutCreateFromPrimitive
            { nSummands := w.layer.num_bottoms, layout := some L, coeffs := w.layer.coeffs_ }
            (dnnResourceType_t.dnnResourceMultipleSrc i)) := by
  obtain ⟨wa, hwa, hc, ht, hl, hkeep, hset⟩ :=
    adoptDescriptors_spec w j pj dj L hlen hdescr hj hopt hmin hdj hL
  obtain ⟨hcb, hct, hctr, _, _, hcc, _, hcn, hcp, _⟩ := hc
  have hpr : (probe w).2 = true := probe_optimized w j pj hj hopt
  have hplan : newPlan wa (some L) =
      { nSummands := w.layer.num_bottoms, layout := some L, coeffs := w.layer.coeffs_ } := by
    unfold newPlan; rw [hcn, hcc]
  have hbuild : buildPlan v w (probe w).2 = Outcome.ok
      (deriveInternalLayouts (withPlan wa (some L)) (newPlan wa (some L))) := by
    rw [hpr, buildPlan_optimized v w hp]
    unfold buildPlanOptimized
    rw [hwa]
    have hsc : sumCreate v wa (some L) = Outcome.ok (withPlan wa (some L)) := by
      unfold sumCreate
      rw [hcn, hcc, if_pos hv]
    show (sumCreate v wa (some L)).andThen deriveAfterCreate = _
    rw [hsc]
    rfl
  have hbat : ∀ i, (withPlan wa (some L)).bottomAt i = w.bottomAt i := by
    intro i
    show wa.bottom.getD i emptyBlob = w.bottom.getD i emptyBlob
    rw [hcb]
  have hnb : (withPlan wa (some L)).layer.num_bottoms = w.layer.num_bottoms := hcn
  obtain ⟨_, _, sp, sf, skeep, sset, str⟩ := deriveInternalLayouts_spec
    (withPlan wa (some L)) (newPlan wa (some L)) (by rw [hnb]; exact hl ▸ hlen)
  rw [hnb] at skeep sset str
  simp only [hbat] at skeep sset str
  rw [hplan] at sp sf skeep sset str hbuild
  refine ⟨_, hbuild, ?_, ?_, ?_, ?_, ?_, ?_⟩
  · unfold Forward_cpu
    rw [if_neg (by omega)]
    show (buildPlan v w (probe w).2).andThen _ = _
    rw [hbuild]
    rfl
  · rw [sp]
    show some (newPlan wa (some L)) = _
    rw [hplan]
  · rw [sf]
    show wa.layer.fwd_top_data.create_internal_layout _ _ = _
    rw [ht]
  · intro i hi hpi
    rw [sset i hi hpi]
    show (wa.descrAt i).create_internal_layout _ _ = _
    rw [hkeep i (Or.inr hpi)]
  · intro i p d hi hpi hdi
    rw [skeep i (Or.inr (by rw [hpi]; exact fun h => by cases h))]
    exact hset i p d hi hpi hdi
  · rw [str]
    show wa.trace ++ [VendorCall.sumCreate wa.layer.num_bottoms (some L) wa.layer.coeffs_] ++ _
      ++ _ = _
    rw [hctr, hcn, hcc]
    simp

/-- C15: layout selection on the first `Forward_cpu` call (no plan yet) with at least one
optimized input, every optimized input carrying an MKL2017 descriptor and the lowest-index
optimized input `j` having the internal layout `L`, the vendor accepting the plan. The
plan-building part of the call returns; the plan is built with `L` and the coefficient list
`coeffs_`; the output descriptor derives its internal layout from the new plan for the
destination role; every input `i` that is not optimized gets its descriptor's internal
layout derived for the role multiple-source + `i`; the slot of every optimized input holds
the descriptor the input arrived with; and the vendor calls made are the plan construction,
the derivation for the destination, and one derivation for each input that is not
optimized (none for an optimized input). -/
theorem first_call_layout_selection (v : Vendor) (w : World) (j : Nat) (pj : List Dtype)
    (dj : MKLData) (L : dnnLayout)
    (hp : w.layer.sumPrimitive = none)
    (hlenb : w.layer.num_bottoms ≤ w.bottom.length)
    (hlen : w.layer.num_bottoms ≤ w.layer.fwd_bottom_data.length)
    (hdescr : ∀ i p, i < w.layer.num_bottoms → (w.bottomAt i).prv_data = some p →
      ∃ d, (w.bottomAt i).prv_descriptor_data = some (PrvMemDescr.mkl2017 d))
    (hj : j < w.layer.num_bottoms) (hopt : (w.bottomAt j).prv_data = some pj)
    (hmin : ∀ i, i < j → (w.bottomAt i).prv_data = none)
    (hdj : (w.bottomAt j).prv_descriptor_data = some (PrvMemDescr.mkl2017 dj))
    (hL : dj.layout_int = some L)
    (hv : v.sumCreateStatus w.layer.num_bottoms (some L) w.layer.coeffs_ = E_SUCCESS) :
    ∃ s, buildPlan v w (probe w).2 = Outcome.ok s ∧
      Forward_cpu v w = execute v s (probe w).1 ∧
      s.layer.sumPrimitive = some
        { nSummands := w.layer.num_bottoms, layout := some L, coeffs := w.layer.coeffs_ } ∧
      s.layer.fwd_top_data = w.layer.fwd_top_data.create_internal_layout
        { nSummands := w.layer.num_bottoms, layout := some L, coeffs := w.layer.coeffs_ }
        dnnResourceType_t.dnnResourceDst ∧
      (∀ i, i < w.layer.num_bottoms → (w.bottomAt i).prv_data = none →
        s.descrAt i = (w.descrAt i).create_internal_layout
          { nSummands := w.layer.num_bottoms, layout := some L, coeffs := w.layer.coeffs_ }
          (dnnResourceType_t.dnnResourceMultipleSrc i)) ∧
      (∀ i p d, i < w.layer.num_bottoms → (w.bottomAt i).prv_data = some p →
        (w.bottomAt i).prv_descriptor_data = some (PrvMemDescr.mkl2017 d) →
        s.descrAt i = d) ∧
      s.trace = w.trace ++
        [VendorCall.sumCreate w.layer.num_bottoms (some L) w.layer.coeffs_,
         VendorCall.layoutCreateFromPrimitive
          { nSummands := w.layer.num_bottoms, layout := some L, coeffs := w.layer.coeffs_ }
          dnnResourceType_t.dnnResourceDst] ++
        ((List.range w.layer.num_bottoms).filter
          (fun i => (w.bottomAt i).prv_data.isNone)).map
          (fun i => VendorCall.layoutCreateFromPrimitive
            { nSummands := w.layer.num_bottoms, layout := some L, coeffs := w.layer.coeffs_ }
            (dnnResourceType_t.dnnResourceMultipleSrc i)) :=
  buildPlan_first_optimized v w j pj dj L hp hlenb hlen hdescr hj hopt hmin hdj hL hv

/-- Witness for C15: the two-input example with input 0 plain and input 1 optimized in the
internal layout 7; the plan is built on that layout. -/
theorem first_call_layout_selection_witness :
    eltMixedWorld.layer.sumPrimitive = none ∧
    eltMixedWorld.layer.num_bottoms ≤ eltMixedWorld.bottom.length ∧
    eltMixedWorld.layer.num_bottoms ≤ eltMixedWorld.layer.fwd_bottom_data.length ∧
    1 < eltMixedWorld.layer.num_bottoms ∧
    (eltMixedWorld.bottomAt 1).prv_data = some [30, 40] ∧
    (eltMixedWorld.bottomAt 0).prv_data = none ∧
    ∃ s, buildPlan Vendor.reliable eltMixedWorld (probe eltMixedWorld).2 = Outcome.ok s ∧
      s.layer.sumPrimitive = some
        { nSummands := eltMixedWorld.layer.num_bottoms,
          layout := some (dnnLayout.internal 7 [2]),
          coeffs := eltMixedWorld.layer.coeffs_ } := by
  refine ⟨rfl, by decide, by decide, by decide, rfl, rfl, ?_⟩
  obtain ⟨s, h1, _, h3, _⟩ := first_call_layout_selection Vendor.reliable eltMixedWorld 1
    [30, 40]
    { layout_usr := some (plainLayout [2])
      layout_int := some (dnnLayout.internal 7 [2])
      convert_to_int := true, convert_from_int := true, internal_ptr := [30, 40] }
    (dnnLayout.internal 7 [2]) rfl (by decide) (by decide)
    (by
      intro i p hi h
      have hi2 : i < 2 := hi
      have hcases : i = 0 ∨ i = 1 := by omega
      rcases hcases with rfl | rfl
      · exact Option.noConfusion h
      · exact ⟨_, rfl⟩)
    (by decide) rfl
    (by
      intro i hi
      have : i = 0 := by omega
      subst this
      rfl)
    rfl rfl rfl
  exact ⟨s, h1, h3⟩

/-! ## Mixed-layout equivalence -/

end MKLEltwiseLayer

namespace NearestNeighborLayer

/-! ## Accesses of the nearest-neighbour forward pass -/

theorem forLoop_log {α β : Type} (n : Nat) (body : Nat → α × List β → α × List β)
    (g : Nat → List β) (hg : ∀ i st, (body i st).2 = st.2 ++ g i) (st : α × List β) :
    (forLoop n body st).2 = st.2 ++ (List.range n).flatMap g := by
  induction n with
  | zero => simp [forLoop]
  | succ n ih =>
    rw [forLoop_succ, hg, ih, List.range_succ, List.flatMap_append, List.append_assoc]
    simp

theorem range_blocks (a b : Nat) :
    (List.range a).flatMap (fun k => (List.range b).map (fun r => k * b + r)) =
      List.range (a * b) := by
  induction a with
  | zero => simp
  | succ a ih =>
    rw [List.range_succ, List.flatMap_append, ih, Nat.succ_mul, List.range_add]
    simp

/-- The buffer computed with the log is the buffer of `planeLoop`. -/
theorem planeLoopLog_fst (l : NearestNeighborLayer) (bd : List Dtype) (th tw : Nat) (c : Cursor)
    (log : List Access) : (planeLoopLog l bd th tw c log).1 = planeLoop l bd th tw c := by
  unfold planeLoopLog planeLoop
  exact forLoop_fst th _ _ (fun h st => forLoop_fst tw _ _ (fun _ _ => rfl) st) _

/-- The log of one plane. -/
theorem planeLoopLog_snd (l : NearestNeighborLayer) (bd : List Dtype) (H W k : Nat) (c : Cursor)
    (log : List Access) (hw : l.width_ = W) (htw : l.top_width_ = 2 * W)
    (hto : c.top_off = k * (2 * H * (2 * W))) (hbo : c.bottom_off = k * (H * W)) :
    (planeLoopLog l bd (2 * H) (2 * W) c log).2 = log ++ planeAccesses H W k := by
  unfold planeLoopLog planeAccesses
  rw [forLoop_log (2 * H) _ (fun h => (List.range (2 * W)).map fun x =>
    ({ read := k * (H * W) + ((h / 2) * W + x / 2),
       write := k * (2 * H * (2 * W)) + (h * (2 * W) + x) } : Access))]
  intro h st
  rw [forLoop_log (2 * W) _ (fun x =>
    [({ read := k * (H * W) + ((h / 2) * W + x / 2),
        write := k * (2 * H * (2 * W)) + (h * (2 * W) + x) } : Access)])]
  · congr 1
    induction (List.range (2 * W)) with
    | nil => rfl
    | cons a t ih => simp [List.flatMap_cons, ih]
  · intro x st2
    simp only [hw, htw, hto, hbo]

/-- The cursor and the log after `m` channel steps from the start of the buffers. -/
theorem channelStepsLog_facts (l : NearestNeighborLayer) (bottom0 top0 : Blob) (H W : Nat)
    (buf0 : List Dtype) (hw : l.width_ = W) (htw : l.top_width_ = 2 * W)
    (hth : top0.height = 2 * H) (htW : top0.width = 2 * W)
    (hbh : bottom0.height = H) (hbw : bottom0.width = W) (m : Nat) :
    (forLoop m (fun _ => channelStepLog l bottom0 top0)
      ({ top_buf := buf0, bottom_off := 0, top_off := 0 }, [])).1 =
      forLoop m (fun _ => channelStep l bottom0 top0)
        { top_buf := buf0, bottom_off := 0, top_off := 0 } ∧
    (forLoop m (fun _ => channelStepLog l bottom0 top0)
      ({ top_buf := buf0, bottom_off := 0, top_off := 0 }, [])).2 =
      (List.range m).flatMap (planeAccesses H W) := by
  induction m with
  | zero => exact ⟨rfl, rfl⟩
  | succ m ih =>
    obtain ⟨h1, h2⟩ := ih
    obtain ⟨hb, ht, _⟩ := channelSteps_fills l bottom0 top0 H W buf0 hw htw hth htW hbh hbw m
    rw [forLoop_succ, forLoop_succ]
    generalize forLoop m (fun _ => channelStepLog l bottom0 top0)
      ({ top_buf := buf0, bottom_off := 0, top_off := 0 }, []) = cl at h1 h2
    constructor
    · show ({ top_buf := (planeLoopLog l bottom0.cpu_data top0.height top0.width cl.1 cl.2).1,
              bottom_off := cl.1.bottom_off + bottom0.offset 0 1,
              top_off := cl.1.top_off + top0.offset 0 1 } : Cursor) = _
      rw [planeLoopLog_fst, h1]
      rfl
    · show (planeLoopLog l bottom0.cpu_data top0.height top0.width cl.1 cl.2).2 = _
      rw [hth, htW, planeLoopLog_snd l bottom0.cpu_data H W m cl.1 cl.2 hw htw
        (by rw [h1]; exact ht) (by rw [h1]; exact hb), h2, List.range_succ,
        List.flatMap_append]
      simp

/-- The instrumented forward pass after `Reshape`, for an input of shape `(N, C, H, W)`:
its state is that of `Forward_cpu` and its log lists the planes in order. -/
theorem Forward_cpu_log_facts (w : World) (N C H W : Nat)
    (hshape : w.bottom0.shape = [N, C, H, W]) :
    (Forward_cpu_log (Reshape w)).1 = Forward_cpu (Reshape w) ∧
    (Forward_cpu_log (Reshape w)).2 = (List.range (N * C)).flatMap (planeAccesses H W) := by
  obtain ⟨hw, htw, hb, hts, _⟩ := Reshape_facts w N C H W hshape
  obtain ⟨hn, hc, hh, hx⟩ := legacy_of_shape (Reshape w).top0 N C (2 * H) (2 * W) hts
  obtain ⟨_, _, hbh, hbw⟩ := legacy_of_shape w.bottom0 N C H W hshape
  obtain ⟨k1, k2⟩ := channelStepsLog_facts (Reshape w).layer (Reshape w).bottom0 (Reshape w).top0
    H W (Reshape w).top0.cpu_data hw htw hh hx (hb ▸ hbh) (hb ▸ hbw) (N * C)
  have hnest := forLoop_nested_const
    (channelStepLog (Reshape w).layer (Reshape w).bottom0 (Reshape w).top0) N C
    ({ top_buf := (Reshape w).top0.cpu_data, bottom_off := 0, top_off := 0 }, [])
  have hnest2 := forLoop_nested_const
    (channelStep (Reshape w).layer (Reshape w).bottom0 (Reshape w).top0) N C
    { top_buf := (Reshape w).top0.cpu_data, bottom_off := 0, top_off := 0 }
  rw [← hnest] at k1 k2
  rw [← hnest2] at k1
  constructor
  · simp only [Forward_cpu_log, Forward_cpu, hn, hc]
    rw [k1]
  · simp only [Forward_cpu_log, hn, hc]
    exact k2

/-- The offsets written by the planes `0 .. m-1`, in order, are `0, 1, ..., m*(2H*2W) - 1`. -/
theorem planeAccesses_writes (H W m : Nat) :
    ((List.range m).flatMap (planeAccesses H W)).map Access.write =
      List.range (m * (2 * H * (2 * W))) := by
  rw [← range_blocks m (2 * H * (2 * W)), List.map_flatMap]
  congr 1
  funext k
  rw [← range_blocks (2 * H) (2 * W)]
  unfold planeAccesses
  rw [List.map_flatMap, List.map_flatMap]
  congr 1
  funext h
  simp [List.map_map, Function.comp_def]

/-- An access is in the log of the planes `0 .. N*C-1` exactly when it is the access of some
`n < N`, `c < C`, `h < 2H`, `x < 2W`. -/
theorem mem_planeAccesses (N C H W : Nat) (a : Access) :
    a ∈ (List.range (N * C)).flatMap (planeAccesses H W) ↔
      ∃ n c h x, n < N ∧ c < C ∧ h < 2 * H ∧ x < 2 * W ∧
        a.read = (n * C + c) * H * W + (h / 2) * W + x / 2 ∧
        a.write = (n * C + c) * 4 * H * W + h * (2 * W) + x := by
  constructor
  · intro ha
    obtain ⟨k, hk, ha⟩ := List.mem_flatMap.mp ha
    obtain ⟨h, hh, ha⟩ := List.mem_flatMap.mp ha
    obtain ⟨x, hx, rfl⟩ := List.mem_map.mp ha
    have hk2 : k < N * C := List.mem_range.mp hk
    have hC : 0 < C := Nat.pos_of_ne_zero (fun h0 => by rw [h0] at hk2; simp at hk2)
    have hkd : k / C * C + k % C = k := (by rw [Nat.mul_comm]; exact Nat.div_add_mod k C)
    refine ⟨k / C, k % C, h, x, (Nat.div_lt_iff_lt_mul hC).mpr hk2, Nat.mod_lt _ hC,
      List.mem_range.mp hh, List.mem_range.mp hx, ?_, ?_⟩
    · show k * (H * W) + ((h / 2) * W + x / 2) = _
      rw [hkd]; ring
    · show k * (2 * H * (2 * W)) + (h * (2 * W) + x) = _
      rw [hkd]; ring
  · rintro ⟨n, c, h, x, hn, hc, hh, hx, hr, hwr⟩
    refine List.mem_flatMap.mpr ⟨n * C + c, List.mem_range.mpr (block_offset_lt n N c C hn hc),
      List.mem_flatMap.mpr ⟨h, List.mem_range.mpr hh, List.mem_map.mpr ⟨x, List.mem_range.mpr hx,
        ?_⟩⟩⟩
    cases a with
    | mk r wr =>
      simp only [Access.mk.injEq]
      simp only at hr hwr
      constructor
      · rw [hr]; ring
      · rw [hwr]; ring

/-- The offsets of the access of `n < N`, `c < C`, `h < 2H`, `x < 2W` lie within the input
and the output element counts. -/
theorem access_bounds (N C H W n c h x : Nat) (hn : n < N) (hc : c < C) (hh : h < 2 * H)
    (hx : x < 2 * W) :
    (n * C + c) * H * W + (h / 2) * W + x / 2 < N * C * H * W ∧
    (n * C + c) * 4 * H * W + h * (2 * W) + x < 4 * N * C * H * W := by
  have hk : n * C + c < N * C := block_offset_lt n N c C hn hc
  have h1 : (h / 2) * W + x / 2 < H * W := block_offset_lt (h / 2) H (x / 2) W (by omega) (by omega)
  have h2 := block_offset_lt (n * C + c) (N * C) _ (H * W) hk h1
  have h3 : h * (2 * W) + x < 2 * H * (2 * W) := block_offset_lt h (2 * H) x (2 * W) hh hx
  have h4 := block_offset_lt (n * C + c) (N * C) _ (2 * H * (2 * W)) hk h3
  have e1 : (n * C + c) * H * W + (h / 2) * W + x / 2 =
      (n * C + c) * (H * W) + ((h / 2) * W + x / 2) := by ring
  have e2 : N * C * H * W = N * C * (H * W) := by ring
  have e3 : (n * C + c) * 4 * H * W + h * (2 * W) + x =
      (n * C + c) * (2 * H * (2 * W)) + (h * (2 * W) + x) := by ring
  have e4 : 4 * N * C * H * W = N * C * (2 * H * (2 * W)) := by ring
  rw [e1, e2, e3, e4]
  exact ⟨h2, h4⟩

/-- C19: index safety and coverage of `NearestNeighborLayer::Forward_cpu` after `Reshape`,
for every input shape `(N, C, H, W)`. The loops with the ghost log of their accesses compute
the state of `Forward_cpu`; the accesses made are exactly those of `n < N`, `c < C`,
`h < 2H`, `x < 2W`, reading offset `(n*C + c)*H*W + (h/2)*W + x/2` and writing offset
`(n*C + c)*4*H*W + h*2W + x`; every offset read is below the input element count `N*C*H*W`
and every offset written is below the output element count `4*N*C*H*W`; the offsets written
are, in order, `0, 1, ..., 4*N*C*H*W - 1`, so every output offset is written exactly once. -/
theorem forward_index_safety (w : World) (N C H W : Nat)
    (hshape : w.bottom0.shape = [N, C, H, W]) :
    (Forward_cpu_log (Reshape w)).1 = Forward_cpu (Reshape w) ∧
    w.bottom0.count = N * C * H * W ∧
    (Reshape w).top0.count = 4 * N * C * H * W ∧
    (∀ a, a ∈ (Forward_cpu_log (Reshape w)).2 ↔
      ∃ n c h x, n < N ∧ c < C ∧ h < 2 * H ∧ x < 2 * W ∧
        a.read = (n * C + c) * H * W + (h / 2) * W + x / 2 ∧
        a.write = (n * C + c) * 4 * H * W + h * (2 * W) + x) ∧
    (∀ n c h x, n < N → c < C → h < 2 * H → x < 2 * W →
      (n * C + c) * H * W + (h / 2) * W + x / 2 < N * C * H * W ∧
      (n * C + c) * 4 * H * W + h * (2 * W) + x < 4 * N * C * H * W) ∧
    (∀ a, a ∈ (Forward_cpu_log (Reshape w)).2 →
      a.read < w.bottom0.count ∧ a.write < (Reshape w).top0.count) ∧
    (Forward_cpu_log (Reshape w)).2.map Access.write = List.range (4 * N * C * H * W) ∧
    (∀ j, j < 4 * N * C * H * W →
      ((Forward_cpu_log (Reshape w)).2.map Access.write).count j = 1) := by
  obtain ⟨hst, hlog⟩ := Forward_cpu_log_facts w N C H W hshape
  have hcb : w.bottom0.count = N * C * H * W := by
    simp only [Blob.count, hshape, List.prod_cons, List.prod_nil]; ring
  have hct : (Reshape w).top0.count = 4 * N * C * H * W := by
    simp only [Blob.count, (Reshape_facts w N C H W hshape).2.2.2.1, List.prod_cons,
      List.prod_nil]
    ring
  have hwr : (Forward_cpu_log (Reshape w)).2.map Access.write =
      List.range (4 * N * C * H * W) := by
    rw [hlog, planeAccesses_writes]
    congr 1
    ring
  refine ⟨hst, hcb, hct, ?_, ?_, ?_, hwr, ?_⟩
  · intro a
    rw [hlog]
    exact mem_planeAccesses N C H W a
  · intro n c h x hn hc hh hx
    exact access_bounds N C H W n c h x hn hc hh hx
  · intro a ha
    rw [hlog] at ha
    obtain ⟨n, c, h, x, hn, hc, hh, hx, hr, hw2⟩ := (mem_planeAccesses N C H W a).mp ha
    rw [hcb, hct, hr, hw2]
    exact access_bounds N C H W n c h x hn hc hh hx
  · intro j hj
    rw [hwr]
    exact List.count_eq_one_of_mem (List.nodup_range _) (List.mem_range.mpr hj)

/-- Witness of C19 at the test shape `(2, 4, 4, 5)`: the 640 output offsets are written in
order, once each. -/
theorem forward_index_safety_witness :
    nnTestWorld.bottom0.shape = [2, 4, 4, 5] ∧
    (Forward_cpu_log (Reshape nnTestWorld)).1 = Forward_cpu (Reshape nnTestWorld) ∧
    (Forward_cpu_log (Reshape nnTestWorld)).2.map Access.write
      = List.range (4 * 2 * 4 * 4 * 5) ∧
    (∀ a, a ∈ (Forward_cpu_log (Reshape nnTestWorld)).2 →
      a.read < nnTestWorld.bottom0.count ∧ a.write < (Reshape nnTestWorld).top0.count) :=
  ⟨rfl, (forward_index_safety nnTestWorld 2 4 4 5 rfl).1,
    (forward_index_safety nnTestWorld 2 4 4 5 rfl).2.2.2.2.2.2.1,
    (forward_index_safety nnTestWorld 2 4 4 5 rfl).2.2.2.2.2.1⟩

end NearestNeighborLayer

end Caffe
